import Mathlib

/-!
# Session and scoped-persistence layer of the financial tracker

A shallow embedding of the session code of `src/src/App.jsx`: the simulated
token codec (`signToken`, `verifyToken`), the user directory operations
(`login`, `signup`, `logout`), the per-user key function (`getUserDataKey`),
the startup, load and save effects of `App`, the budget upsert of
`SetBudgetModal.handleSubmit`, the submission of `AddTransactionModal`, the two
settings updaters and the budget arithmetic of the dashboard, together with the
platform functions they call (`btoa`, `atob`, `JSON.stringify`, `JSON.parse`,
`String.prototype.split`, `localStorage`, the number comparisons and
arithmetic).

Conventions.
* A JavaScript string is the list of its UTF-16 code units.
* A call that throws is `none`.
* `localStorage` is a function from keys to optional values; writes never
  fail (no quota). Strings and arrays have no size limit.
* A number of a parsed text is kept as the literal that wrote it.
* The collections in memory are values that JSON can hold; rendering is not
  modelled, only the effects that run after a render.
* A number in a form or on the dashboard is its value (`NaN`, an infinity, or a
  signed finite rational); arithmetic is exact arithmetic followed by a rounding
  that is a parameter.
-/

namespace FinancialTracker

/-! ## Strings -/

/-- A JavaScript string, as its sequence of UTF-16 code units. -/
abbrev JSString := List Nat

/-- The code units of a source literal whose characters lie in the Basic
Multilingual Plane (one code unit per character). -/
def js (s : String) : JSString := s.toList.map Char.toNat

/-- The method `String.prototype.split(sep)` for a one-unit separator: the pieces between
the occurrences of `sep`; the empty string splits into one empty piece. -/
def splitOn (sep : Nat) : JSString → List JSString
  | [] => [[]]
  | c :: cs =>
    if c = sep then [] :: splitOn sep cs
    else
      match splitOn sep cs with
      | [] => [[c]]
      | p :: ps => (c :: p) :: ps

/-- The code unit of `.`. -/
def dot : Nat := 0x2E

/-! ## Base64: `btoa` and `atob` -/

/-- The base64 digit for a 6-bit value: `A-Z`, `a-z`, `0-9`, `+`, `/`. -/
def b64Char (n : Nat) : Nat :=
  if n < 26 then 65 + n
  else if n < 52 then 97 + (n - 26)
  else if n < 62 then 48 + (n - 52)
  else if n = 62 then 43
  else 47

/-- The 6-bit value of a base64 digit, `none` outside the alphabet. -/
def b64Value (c : Nat) : Option Nat :=
  if 65 ≤ c ∧ c ≤ 90 then some (c - 65)
  else if 97 ≤ c ∧ c ≤ 122 then some (c - 71)
  else if 48 ≤ c ∧ c ≤ 57 then some (c + 4)
  else if c = 43 then some 62
  else if c = 47 then some 63
  else none

/-- Base64 of a byte sequence, three bytes to four digits, `=` padded. -/
def b64Encode : List Nat → List Nat
  | [] => []
  | [a] => [b64Char (a / 4), b64Char (a % 4 * 16), 61, 61]
  | [a, b] => [b64Char (a / 4), b64Char (a % 4 * 16 + b / 16), b64Char (b % 16 * 4), 61]
  | a :: b :: c :: rest =>
    b64Char (a / 4) :: b64Char (a % 4 * 16 + b / 16) :: b64Char (b % 16 * 4 + c / 64)
      :: b64Char (c % 64) :: b64Encode rest

/-- The function `btoa(s)`: throws (`none`) when `s` has a code unit above `0xFF`, otherwise
the base64 of the code units read as bytes. -/
def btoa (s : JSString) : Option JSString :=
  if s.all (fun c => decide (c ≤ 255)) then some (b64Encode s) else none

/-- ASCII whitespace as `atob` strips it: TAB, LF, FF, CR, SPACE. -/
def isAsciiWhitespace (c : Nat) : Bool :=
  c = 9 || c = 10 || c = 12 || c = 13 || c = 32

/-- Step 2 of forgiving-base64 decode: when the length is a multiple of four,
one or two trailing `=` are removed. -/
def stripPadding (d : List Nat) : List Nat :=
  if d.length % 4 = 0 then
    if d.getLast? = some 61 then
      if d.dropLast.getLast? = some 61 then d.dropLast.dropLast else d.dropLast
    else d
  else d

/-- The 6-bit values of a digit sequence, `none` if a unit is not a digit. -/
def b64Values : List Nat → Option (List Nat)
  | [] => some []
  | c :: cs =>
    match b64Value c, b64Values cs with
    | some v, some vs => some (v :: vs)
    | _, _ => none

/-- Bytes of a sequence of 6-bit values: four values to three bytes; a final
group of two or three values gives one or two bytes (excess bits dropped). -/
def b64Bytes : List Nat → List Nat
  | a :: b :: c :: d :: rest =>
    (a * 4 + b / 16) :: (b % 16 * 16 + c / 4) :: (c % 4 * 64 + d) :: b64Bytes rest
  | [a, b, c] => [a * 4 + b / 16, b % 16 * 16 + c / 4]
  | [a, b] => [a * 4 + b / 16]
  | _ => []

/-- The function `atob(s)` (forgiving-base64 decode): whitespace is stripped, padding
removed, and the call throws (`none`) when the remaining length is 1 modulo 4
or a unit is outside the alphabet. -/
def atob (s : JSString) : Option JSString :=
  let d := stripPadding (s.filter (fun c => !isAsciiWhitespace c))
  if d.length % 4 = 1 then none
  else
    match b64Values d with
    | none => none
    | some vs => some (b64Bytes vs)

/-! ## JSON values -/

/-- A value that `JSON.parse` can return. A number is carried as the decimal
literal that denotes it; `JSON.stringify` emits that literal again (the session
code never computes with a number of the directory or of a token). An object is
the list of its own properties in property order. -/
inductive JSON where
  | null
  | bool (b : Bool)
  | num (lexeme : JSString)
  | str (s : JSString)
  | arr (xs : List JSON)
  | obj (ms : List (JSString × JSON))

/-- Decimal digit `0-9`. -/
def isDigit (c : Nat) : Bool := decide (48 ≤ c) && decide (c ≤ 57)

/-- The number written by a sequence of decimal digits. -/
def natOfDigits (ds : List Nat) : Nat :=
  ds.foldl (fun n d => 10 * n + (d - 48)) 0

/-- The decimal digits of a number, as `ToString` writes an integer. -/
def decimal (n : Nat) : JSString := (Nat.toDigits 10 n).map Char.toNat

/-- An array index: a property key that is the decimal writing of a number
below `2^32 - 1` (so without a leading zero). Such keys come first, in
ascending order, in the property order of an object. -/
def arrayIndex? (k : JSString) : Option Nat :=
  if decimal (natOfDigits k) = k ∧ natOfDigits k < 2 ^ 32 - 1 then some (natOfDigits k)
  else none

/-- Own property lookup. -/
def getOwn (k : JSString) : List (JSString × JSON) → Option JSON
  | [] => none
  | (k1, v1) :: ms => if k1 = k then some v1 else getOwn k ms

/-- Overwrite the value of the existing own property `k`. -/
def replaceValue (k : JSString) (v : JSON) : List (JSString × JSON) → List (JSString × JSON)
  | [] => []
  | (k1, v1) :: ms => if k1 = k then (k1, v) :: ms else (k1, v1) :: replaceValue k v ms

/-- Add the new array-index property `k` (of index `n`) in ascending position
among the array-index properties, which precede all others. -/
def insertIndexed (n : Nat) (k : JSString) (v : JSON) :
    List (JSString × JSON) → List (JSString × JSON)
  | [] => [(k, v)]
  | (k1, v1) :: ms =>
    match arrayIndex? k1 with
    | some n1 => if n1 < n then (k1, v1) :: insertIndexed n k v ms else (k, v) :: (k1, v1) :: ms
    | none => (k, v) :: (k1, v1) :: ms

/-- The assignment `o[k] = v` on an ordinary object with own data properties:
an existing property keeps its position; a new one is placed by property order. -/
def setProp (ms : List (JSString × JSON)) (k : JSString) (v : JSON) : List (JSString × JSON) :=
  match getOwn k ms with
  | some _ => replaceValue k v ms
  | none =>
    match arrayIndex? k with
    | some n => insertIndexed n k v ms
    | none => ms ++ [(k, v)]

/-! ## `JSON.stringify` -/

/-- Lower-case hexadecimal digit of a value below 16. -/
def hexDigit (n : Nat) : Nat := if n < 10 then 48 + n else 87 + n

/-- The escape `\uXXXX` of a code unit. -/
def unicodeEscape (c : Nat) : JSString :=
  [0x5C, 0x75, hexDigit (c / 4096 % 16), hexDigit (c / 256 % 16), hexDigit (c / 16 % 16),
    hexDigit (c % 16)]

/-- Leading surrogate `D800-DBFF`. -/
def isHighSurrogate (c : Nat) : Bool := decide (0xD800 ≤ c) && decide (c ≤ 0xDBFF)

/-- Trailing surrogate `DC00-DFFF`. -/
def isLowSurrogate (c : Nat) : Bool := decide (0xDC00 ≤ c) && decide (c ≤ 0xDFFF)

/-- The two-character escapes of `QuoteJSONString`, and `\u00XX` for the other
control characters; `none` for a unit that is not escaped on its own account. -/
def escapeOf (c : Nat) : Option JSString :=
  if c = 0x08 then some [0x5C, 0x62]
  else if c = 0x09 then some [0x5C, 0x74]
  else if c = 0x0A then some [0x5C, 0x6E]
  else if c = 0x0C then some [0x5C, 0x66]
  else if c = 0x0D then some [0x5C, 0x72]
  else if c = 0x22 then some [0x5C, 0x22]
  else if c = 0x5C then some [0x5C, 0x5C]
  else if c < 0x20 then some (unicodeEscape c)
  else none

/-- The body of `QuoteJSONString`, unit by unit: escapes for quote, backslash
and control characters; a surrogate pair is copied, a lone surrogate is
`\uXXXX`. `paired` says that the previous unit was the leading half of a pair,
copied because this unit is its trailing half. -/
def quoteUnits (paired : Bool) : JSString → JSString
  | [] => []
  | c :: rest =>
    if paired && isLowSurrogate c then c :: quoteUnits false rest
    else
      match escapeOf c with
      | some e => e ++ quoteUnits false rest
      | none =>
        if isHighSurrogate c then
          if (rest.head?.map isLowSurrogate).getD false then c :: quoteUnits true rest
          else unicodeEscape c ++ quoteUnits false rest
        else if isLowSurrogate c then unicodeEscape c ++ quoteUnits false rest
        else c :: quoteUnits false rest

/-- The operation `QuoteJSONString`. -/
def quote (s : JSString) : JSString := 0x22 :: quoteUnits false s ++ [0x22]

/-- The function `JSON.stringify(v)` without indentation. -/
def JSON.stringify : JSON → JSString
  | .null => [0x6E, 0x75, 0x6C, 0x6C]
  | .bool true => [0x74, 0x72, 0x75, 0x65]
  | .bool false => [0x66, 0x61, 0x6C, 0x73, 0x65]
  | .num l => l
  | .str s => quote s
  | .arr [] => [0x5B, 0x5D]
  | .arr (x :: xs) => 0x5B :: x.stringify ++ elementsTail xs
  | .obj [] => [0x7B, 0x7D]
  | .obj ((k, v) :: ms) => 0x7B :: quote k ++ 0x3A :: v.stringify ++ membersTail ms
where
  /-- The remaining elements, each after a comma, and the closing bracket. -/
  elementsTail : List JSON → JSString
    | [] => [0x5D]
    | x :: xs => 0x2C :: x.stringify ++ elementsTail xs
  /-- The remaining members, each after a comma, and the closing brace. -/
  membersTail : List (JSString × JSON) → JSString
    | [] => [0x7D]
    | (k, v) :: ms => 0x2C :: quote k ++ 0x3A :: v.stringify ++ membersTail ms

/-! ## `JSON.parse` -/

/-- JSON whitespace: SPACE, TAB, LF, CR. -/
def isJsonWhitespace (c : Nat) : Bool := c = 0x20 || c = 0x09 || c = 0x0A || c = 0x0D

/-- Drop leading JSON whitespace. -/
def skipWs : JSString → JSString
  | [] => []
  | c :: cs => if isJsonWhitespace c then skipWs cs else c :: cs

/-- Value of a hexadecimal digit, either case. -/
def hexValue (c : Nat) : Option Nat :=
  if 48 ≤ c ∧ c ≤ 57 then some (c - 48)
  else if 97 ≤ c ∧ c ≤ 102 then some (c - 87)
  else if 65 ≤ c ∧ c ≤ 70 then some (c - 55)
  else none

/-- The unit denoted by the character after a backslash, `\u` apart. -/
def simpleEscape (e : Nat) : Option Nat :=
  if e = 0x22 then some 0x22
  else if e = 0x5C then some 0x5C
  else if e = 0x2F then some 0x2F
  else if e = 0x62 then some 0x08
  else if e = 0x66 then some 0x0C
  else if e = 0x6E then some 0x0A
  else if e = 0x72 then some 0x0D
  else if e = 0x74 then some 0x09
  else none

/-- Put a unit in front of a parsed string. -/
def consUnit (u : Nat) (r : Option (JSString × JSString)) : Option (JSString × JSString) :=
  match r with
  | some (s, rest) => some (u :: s, rest)
  | none => none

/-- The characters of a JSON string after its opening quote, up to and
including the closing quote: the string and the input that follows. -/
def parseChars : JSString → Option (JSString × JSString)
  | [] => none
  | c :: rest =>
    if c = 0x22 then some ([], rest)
    else if c = 0x5C then
      match rest with
      | [] => none
      | e :: rest1 =>
        if e = 0x75 then
          match rest1 with
          | h1 :: h2 :: h3 :: h4 :: rest2 =>
            match hexValue h1, hexValue h2, hexValue h3, hexValue h4 with
            | some a, some b, some c1, some d =>
              consUnit (a * 4096 + b * 256 + c1 * 16 + d) (parseChars rest2)
            | _, _, _, _ => none
          | _ => none
        else
          match simpleEscape e with
          | some u => consUnit u (parseChars rest1)
          | none => none
    else if c < 0x20 then none
    else consUnit c (parseChars rest)

/-- The longest run of leading digits and what follows it. -/
def spanDigits : JSString → JSString × JSString
  | [] => ([], [])
  | c :: cs =>
    if isDigit c then ((c :: (spanDigits cs).1), (spanDigits cs).2) else ([], c :: cs)

/-- Integer part of a JSON number: `0`, or a non-zero digit and more digits. -/
def scanInt : JSString → Option (JSString × JSString)
  | [] => none
  | c :: rest =>
    if c = 48 then some ([48], rest)
    else if isDigit c then some (c :: (spanDigits rest).1, (spanDigits rest).2)
    else none

/-- Optional fraction: `.` and at least one digit. -/
def scanFrac (s : JSString) : JSString × JSString :=
  match s with
  | [] => ([], s)
  | c :: rest =>
    if c = 0x2E ∧ (spanDigits rest).1 ≠ [] then (c :: (spanDigits rest).1, (spanDigits rest).2)
    else ([], s)

/-- Optional exponent: `e` or `E`, an optional sign, and at least one digit. -/
def scanExp (s : JSString) : JSString × JSString :=
  match s with
  | [] => ([], s)
  | e :: rest =>
    if e = 0x65 ∨ e = 0x45 then
      match rest with
      | [] => ([], s)
      | g :: rest1 =>
        if (g = 0x2B ∨ g = 0x2D) ∧ (spanDigits rest1).1 ≠ [] then
          (e :: g :: (spanDigits rest1).1, (spanDigits rest1).2)
        else if (spanDigits rest).1 ≠ [] then (e :: (spanDigits rest).1, (spanDigits rest).2)
        else ([], s)
    else ([], s)

/-- The unsigned part of a JSON number. -/
def scanUnsigned (s : JSString) : Option (JSString × JSString) :=
  match scanInt s with
  | none => none
  | some (i, s1) =>
    some (i ++ (scanFrac s1).1 ++ (scanExp (scanFrac s1).2).1, (scanExp (scanFrac s1).2).2)

/-- The longest JSON number literal at the head of the input and what follows
it, `none` if the input does not start with a number. -/
def scanNumber (s : JSString) : Option (JSString × JSString) :=
  match s with
  | [] => none
  | c :: rest =>
    if c = 0x2D then
      match scanUnsigned rest with
      | some (l, r) => some (c :: l, r)
      | none => none
    else scanUnsigned s

/-- If `s` starts with `p`, what follows `p`. -/
def afterLiteral (p : JSString) (s : JSString) : Option JSString :=
  match p, s with
  | [], s => some s
  | _ :: _, [] => none
  | a :: p1, b :: s1 => if a = b then afterLiteral p1 s1 else none

mutual
/-- One JSON value at the head of the input (leading whitespace allowed) and
the input that follows it. The first argument bounds the number of nested
calls; `JSON.parse` passes more than the input can use. -/
def parseValue : Nat → JSString → Option (JSON × JSString)
  | 0, _ => none
  | fuel + 1, input =>
    match skipWs input with
    | [] => none
    | c :: rest =>
      if c = 0x7B then
        match skipWs rest with
        | [] => none
        | d :: rest1 => if d = 0x7D then some (.obj [], rest1) else parseMembers fuel [] (d :: rest1)
      else if c = 0x5B then
        match skipWs rest with
        | [] => none
        | d :: rest1 => if d = 0x5D then some (.arr [], rest1) else parseElements fuel [] (d :: rest1)
      else if c = 0x22 then
        match parseChars rest with
        | some (s, rest1) => some (.str s, rest1)
        | none => none
      else if c = 0x74 then
        match afterLiteral [0x72, 0x75, 0x65] rest with
        | some rest1 => some (.bool true, rest1)
        | none => none
      else if c = 0x66 then
        match afterLiteral [0x61, 0x6C, 0x73, 0x65] rest with
        | some rest1 => some (.bool false, rest1)
        | none => none
      else if c = 0x6E then
        match afterLiteral [0x75, 0x6C, 0x6C] rest with
        | some rest1 => some (.null, rest1)
        | none => none
      else
        match scanNumber (c :: rest) with
        | some (l, rest1) => some (.num l, rest1)
        | none => none
/-- The elements of an array after `[`, up to and including `]`; `acc` holds
the elements read so far, last first. -/
def parseElements : Nat → List JSON → JSString → Option (JSON × JSString)
  | 0, _, _ => none
  | fuel + 1, acc, input =>
    match parseValue fuel input with
    | none => none
    | some (v, rest) =>
      match skipWs rest with
      | [] => none
      | c :: rest1 =>
        if c = 0x2C then parseElements fuel (v :: acc) rest1
        else if c = 0x5D then some (.arr (v :: acc).reverse, rest1)
        else none
/-- The members of an object after `{`, up to and including `}`; `acc` is the
object built so far (a repeated key overwrites). -/
def parseMembers : Nat → List (JSString × JSON) → JSString → Option (JSON × JSString)
  | 0, _, _ => none
  | fuel + 1, acc, input =>
    match skipWs input with
    | [] => none
    | q :: rest =>
      if q = 0x22 then
        match parseChars rest with
        | none => none
        | some (k, rest1) =>
          match skipWs rest1 with
          | [] => none
          | c :: rest2 =>
            if c = 0x3A then
              match parseValue fuel rest2 with
              | none => none
              | some (v, rest3) =>
                match skipWs rest3 with
                | [] => none
                | d :: rest4 =>
                  if d = 0x2C then parseMembers fuel (setProp acc k v) rest4
                  else if d = 0x7D then some (.obj (setProp acc k v), rest4)
                  else none
            else none
      else none
end

/-- The function `JSON.parse(text)`: the value, or `none` when the call throws `SyntaxError`. -/
def JSON.parse (text : JSString) : Option JSON :=
  match parseValue (text.length + 1) text with
  | none => none
  | some (v, rest) => if skipWs rest = [] then some v else none

/-! ## Truthiness and property access -/

/-- Whether the number denoted by a JSON number literal converts to zero: its
digits are all zero, or its magnitude is at most `2^-1075` and rounds to zero. -/
def numIsZero (l : JSString) : Bool :=
  let s1 := match l with
    | [] => l
    | c :: r => if c = 0x2D then r else l
  let i := (spanDigits s1).1
  let s2 := (spanDigits s1).2
  let f := (scanFrac s2).1.tail
  let x := (scanExp (scanFrac s2).2).1
  let e : Int := match x with
    | [] => 0
    | [_] => 0
    | _ :: g :: ds =>
      if g = 0x2D then - (natOfDigits ds : Int)
      else if g = 0x2B then (natOfDigits ds : Int)
      else (natOfDigits (g :: ds) : Int)
  let m := natOfDigits (i ++ f)
  let e10 : Int := e - (f.length : Int)
  decide (m = 0) || (decide (e10 < 0) && decide (m * 2 ^ 1075 ≤ 10 ^ (-e10).toNat))

/-- The conversion `ToBoolean` on a parsed value. -/
def JSON.truthy : JSON → Bool
  | .null => false
  | .bool b => b
  | .num l => !numIsZero l
  | .str s => !s.isEmpty
  | .arr _ => true
  | .obj _ => true

/-- The result of a property read `o[k]`: `undefined`, a parsed value held by
an own property, or something inherited from a built-in prototype (a function,
or `Object.prototype` itself for `__proto__`). -/
inductive Property where
  | undefined
  | builtin
  | value (v : JSON)

/-- The property names of `Object.prototype`. -/
def objectPrototypeKeys : List JSString :=
  [js "constructor", js "__defineGetter__", js "__defineSetter__", js "hasOwnProperty",
   js "__lookupGetter__", js "__lookupSetter__", js "isPrototypeOf",
   js "propertyIsEnumerable", js "toString", js "valueOf", js "__proto__",
   js "toLocaleString"]

/-- The read `o[k]` on an object returned by `JSON.parse`: the own property if
there is one, otherwise what `Object.prototype` has under that name. -/
def getProperty (ms : List (JSString × JSON)) (k : JSString) : Property :=
  match getOwn k ms with
  | some v => .value v
  | none => if k ∈ objectPrototypeKeys then .builtin else .undefined

/-- The conversion `ToBoolean` on the result of a property read. -/
def Property.truthy : Property → Bool
  | .undefined => false
  | .builtin => true
  | .value v => v.truthy

/-- The read `x.password` on the result of a property read that is truthy: an
own property of an object; nothing else that can be there has a `password`. -/
def Property.password : Property → Property
  | .value (.obj ms) => getProperty ms (js "password")
  | _ => .undefined

/-- The comparison `x === s` with a string `s`. -/
def Property.strictEqualsString : Property → JSString → Bool
  | .value (.str t), s => decide (t = s)
  | _, _ => false

/-! ## The token codec (App.jsx, lines 868-870 and 983-1012) -/

/-- The constant of the same name, line 870. -/
def LOCAL_JWT_SECRET : JSString := js "your-super-secret-key-for-local-demo-only"

/-- The object literal `{ alg: 'HS256', typ: 'JWT' }` of line 985. -/
def jwtHeader : JSON := .obj [(js "alg", .str (js "HS256")), (js "typ", .str (js "JWT"))]

/-- The object literal `{ username }` of lines 1021 and 1037. -/
def claims (username : JSString) : JSON := .obj [(js "username", .str username)]

/-- The function of the same name, lines 984-990; `none` when a `btoa` throws. -/
def signToken (payload : JSON) : Option JSString :=
  match btoa jwtHeader.stringify with
  | none => none
  | some header =>
    match btoa payload.stringify with
    | none => none
    | some encodedPayload =>
      match btoa (LOCAL_JWT_SECRET ++ encodedPayload) with
      | none => none
      | some signature => some (header ++ dot :: encodedPayload ++ dot :: signature)

/-- The ways `verifyToken` returns: `null` at line 995 (not three parts), `null`
at line 1002 (signature differs), `null` at line 1010 (an exception was
caught), or the parsed payload at line 1007. -/
inductive VerifyResult where
  | malformed
  | signatureMismatch
  | caught
  | payload (p : JSON)

/-- The function of the same name, lines 992-1012. -/
def verifyToken (token : JSString) : VerifyResult :=
  match splitOn dot token with
  | [_header, encodedPayload, signature] =>
    match btoa (LOCAL_JWT_SECRET ++ encodedPayload) with
    | none => .caught
    | some expectedSignature =>
      if signature ≠ expectedSignature then .signatureMismatch
      else
        match atob encodedPayload with
        | none => .caught
        | some text =>
          match JSON.parse text with
          | none => .caught
          | some payload => .payload payload
  | _ => .malformed

/-- The JavaScript value `verifyToken` returns: `null` on each failure path. -/
def VerifyResult.returned : VerifyResult → JSON
  | .payload p => p
  | _ => .null

/-! ## The store and the session state (App.jsx, lines 969-981) -/

/-- The contents of `localStorage`. -/
abbrev Store := JSString → Option JSString

/-- The call `localStorage.setItem(key, value)`. -/
def setItem (store : Store) (key value : JSString) : Store :=
  fun k => if k = key then some value else store k

/-- The call `localStorage.removeItem(key)`. -/
def removeItem (store : Store) (key : JSString) : Store :=
  fun k => if k = key then none else store k

/-- The key of the user directory. -/
def usersKey : JSString := js "financialTracker_users"

/-- The key of the current session token. -/
def jwtKey : JSString := js "financialTracker_jwt"

/-- The expression `localStorage.getItem(key) || fallback`: the fallback
replaces an absent value and the empty string. -/
def getItemOr (store : Store) (key fallback : JSString) : JSString :=
  match store key with
  | none => fallback
  | some [] => fallback
  | some (c :: cs) => c :: cs

/-- The state of the `App` component together with `localStorage`. -/
structure AppState where
  store : Store
  transactions : JSON
  budgets : JSON
  settings : JSON
  isAuthenticated : Bool
  currentUser : Option JSON
  loadingAuth : Bool

/-- How a call ends: it returns a boolean, or it throws. -/
inductive Completion where
  | returned (b : Bool)
  | threw
  deriving DecidableEq

/-- The completion of a call and the state it leaves. -/
structure Outcome where
  completion : Completion
  state : AppState

/-- The function `getUserDataKey` of line 1015, for a string `currentUser`. -/
def getUserDataKey (currentUser key : JSString) : JSString :=
  js "financialTracker_" ++ currentUser ++ js "_" ++ key

/-! ### Directories that are not objects

`JSON.parse` of the stored directory can return an array or a primitive (for a
store that this program did not write). The reads and the assignment of `login`
and `signup` then act on that value; the file is a module, so the code runs in
strict mode. -/

/-- The property names of `Array.prototype` (ECMAScript 2023) other than
`length`, which every array has as an own property. -/
def arrayPrototypeKeys : List JSString :=
  [js "at", js "concat", js "constructor", js "copyWithin", js "entries", js "every",
   js "fill", js "filter", js "find", js "findIndex", js "findLast", js "findLastIndex",
   js "flat", js "flatMap", js "forEach", js "includes", js "indexOf", js "join", js "keys",
   js "lastIndexOf", js "map", js "pop", js "push", js "reduce", js "reduceRight",
   js "reverse", js "shift", js "slice", js "some", js "sort", js "splice",
   js "toLocaleString", js "toReversed", js "toSorted", js "toSpliced", js "toString",
   js "unshift", js "values", js "with"]

/-- The property names of `String.prototype` (ECMAScript 2023 with its annex of
legacy methods) other than `length`, which every string has as an own property. -/
def stringPrototypeKeys : List JSString :=
  [js "at", js "charAt", js "charCodeAt", js "codePointAt", js "concat", js "constructor",
   js "endsWith", js "includes", js "indexOf", js "lastIndexOf", js "localeCompare",
   js "match", js "matchAll", js "normalize", js "padEnd", js "padStart", js "repeat",
   js "replace", js "replaceAll", js "search", js "slice", js "split", js "startsWith",
   js "substring", js "toLocaleLowerCase", js "toLocaleUpperCase", js "toLowerCase",
   js "toString", js "toUpperCase", js "trim", js "trimEnd", js "trimStart", js "valueOf",
   js "substr", js "anchor", js "big", js "blink", js "bold", js "fixed", js "fontcolor",
   js "fontsize", js "italics", js "link", js "small", js "strike", js "sub", js "sup",
   js "trimLeft", js "trimRight"]

/-- The property names of `Number.prototype`. -/
def numberPrototypeKeys : List JSString :=
  [js "constructor", js "toExponential", js "toFixed", js "toLocaleString",
   js "toPrecision", js "toString", js "valueOf"]

/-- The property names of `Boolean.prototype`. -/
def booleanPrototypeKeys : List JSString := [js "constructor", js "toString", js "valueOf"]

/-- The read `a[k]` on an array returned by `JSON.parse`: the element at an
array index, the number `length`, or what `Array.prototype` and
`Object.prototype` have under that name. -/
def getElement (xs : List JSON) (k : JSString) : Property :=
  match arrayIndex? k with
  | some i =>
    match xs[i]? with
    | some v => .value v
    | none => .undefined
  | none =>
    if k = js "length" then .value (.num (decimal xs.length))
    else if k ∈ arrayPrototypeKeys ∨ k ∈ objectPrototypeKeys then .builtin
    else .undefined

/-- The assignment `a[k] = v` on an array returned by `JSON.parse`, as the array
that `JSON.stringify` then writes: an element is replaced, or the array grows to
hold the index (`JSON.stringify` writes the holes as `null`); a property that is
not an index is not written by `JSON.stringify`; assigning an object to `length`
throws a `RangeError` (`none`). -/
def assignElement (xs : List JSON) (k : JSString) (v : JSON) : Option (List JSON) :=
  match arrayIndex? k with
  | some i =>
    if i < xs.length then some (xs.set i v)
    else some (xs ++ List.replicate (i - xs.length) .null ++ [v])
  | none => if k = js "length" then none else some xs

/-- The read `x[k]` on a string, number or boolean returned by `JSON.parse`: a
character of a string (a string of one code unit), the number `length` of a
string, or what the prototype of the primitive and `Object.prototype` have under
that name. -/
def primitiveProperty (x : JSON) (k : JSString) : Property :=
  match x with
  | .str s =>
    match arrayIndex? k with
    | some i =>
      match s[i]? with
      | some c => .value (.str [c])
      | none => .undefined
    | none =>
      if k = js "length" then .value (.num (decimal s.length))
      else if k ∈ stringPrototypeKeys ∨ k ∈ objectPrototypeKeys then .builtin
      else .undefined
  | .num _ => if k ∈ numberPrototypeKeys ∨ k ∈ objectPrototypeKeys then .builtin else .undefined
  | .bool _ => if k ∈ booleanPrototypeKeys ∨ k ∈ objectPrototypeKeys then .builtin else .undefined
  | _ => .undefined

/-- The function `login` of lines 1018-1028. On a directory that is a string, a
number or a boolean, `users[username]` is `undefined`, a one-character string, a
number or a built-in, none of which has a `password`, so the test of line 1020
fails. -/
def login (st : AppState) (username password : JSString) : Outcome :=
  match JSON.parse (getItemOr st.store usersKey (js "{}")) with
  | none => { completion := .threw, state := st }
  | some .null => { completion := .threw, state := st }
  | some (.obj users) =>
    if (getProperty users username).truthy
        && (getProperty users username).password.strictEqualsString password then
      match signToken (claims username) with
      | none => { completion := .threw, state := st }
      | some token =>
        { completion := .returned true
          state := { st with
            store := setItem st.store jwtKey token
            currentUser := some (.str username)
            isAuthenticated := true } }
    else { completion := .returned false, state := st }
  | some (.arr users) =>
    if (getElement users username).truthy
        && (getElement users username).password.strictEqualsString password then
      match signToken (claims username) with
      | none => { completion := .threw, state := st }
      | some token =>
        { completion := .returned true
          state := { st with
            store := setItem st.store jwtKey token
            currentUser := some (.str username)
            isAuthenticated := true } }
    else { completion := .returned false, state := st }
  | some _ => { completion := .returned false, state := st }

/-- The function `signup` of lines 1030-1042. On a directory that is a string, a
number or a boolean, the assignment of line 1035 throws a `TypeError` (strict
mode). -/
def signup (st : AppState) (username password : JSString) : Outcome :=
  match JSON.parse (getItemOr st.store usersKey (js "{}")) with
  | none => { completion := .threw, state := st }
  | some .null => { completion := .threw, state := st }
  | some (.obj users) =>
    if (getProperty users username).truthy then { completion := .returned false, state := st }
    else
      let users1 := setProp users username (.obj [(js "password", .str password)])
      let st1 := { st with store := setItem st.store usersKey (JSON.stringify (.obj users1)) }
      match signToken (claims username) with
      | none => { completion := .threw, state := st1 }
      | some token =>
        { completion := .returned true
          state := { st1 with
            store := setItem st1.store jwtKey token
            currentUser := some (.str username)
            isAuthenticated := true } }
  | some (.arr users) =>
    if (getElement users username).truthy then { completion := .returned false, state := st }
    else
      match assignElement users username (.obj [(js "password", .str password)]) with
      | none => { completion := .threw, state := st }
      | some users1 =>
        let st1 := { st with store := setItem st.store usersKey (JSON.stringify (.arr users1)) }
        match signToken (claims username) with
        | none => { completion := .threw, state := st1 }
        | some token =>
          { completion := .returned true
            state := { st1 with
              store := setItem st1.store jwtKey token
              currentUser := some (.str username)
              isAuthenticated := true } }
  | some users =>
    if (primitiveProperty users username).truthy then
      { completion := .returned false, state := st }
    else { completion := .threw, state := st }

/-! ## The budget upsert (App.jsx, lines 464-496) -/

/-- The number operations `SetBudgetModal.handleSubmit` uses; the numbers are
those of the platform and are left abstract. -/
structure NumberOps (Num : Type) where
  parseFloat : JSString → Num
  isNaN : Num → Bool
  ltZero : Num → Bool

/-- A budget entry `{ monthYear, budgetAmount }`. -/
structure Budget (Num : Type) where
  monthYear : JSString
  budgetAmount : Num

/-- The method `Array.prototype.findIndex`: the index of the first element that satisfies
`p`, or `-1`. -/
def findIndex {α : Type} (p : α → Bool) : List α → Int
  | [] => -1
  | x :: xs => if p x then 0 else if findIndex p xs = -1 then -1 else findIndex p xs + 1

/-- The budgets after `handleSubmit` of lines 464-496 with the form fields
`budgetAmount` and `monthYear`: unchanged when the amount is rejected at line
468; otherwise the entry found by `findIndex` is overwritten, or the new entry
is appended. -/
def handleSubmit {Num : Type} (ops : NumberOps Num) (budgets : List (Budget Num))
    (budgetAmount monthYear : JSString) : List (Budget Num) :=
  if budgetAmount.isEmpty || ops.isNaN (ops.parseFloat budgetAmount)
      || ops.ltZero (ops.parseFloat budgetAmount) then budgets
  else
    let newBudget : Budget Num :=
      { monthYear := monthYear, budgetAmount := ops.parseFloat budgetAmount }
    let existingBudgetIndex := findIndex (fun b => decide (b.monthYear = monthYear)) budgets
    if existingBudgetIndex ≠ -1 then budgets.set existingBudgetIndex.toNat newBudget
    else budgets ++ [newBudget]

/-! ## Auxiliary definitions for the statements -/

/-- The three collection names that the App passes to `getUserDataKey`
(lines 1073, 1080, 1087, 1108, 1118, 1128). -/
def collections : List JSString := [js "transactions", js "budgets", js "settings"]

/-- Whether the check of line 468 lets the entered amount through. -/
def amountAccepted {Num : Type} (ops : NumberOps Num) (budgetAmount : JSString) : Bool :=
  !(budgetAmount.isEmpty || ops.isNaN (ops.parseFloat budgetAmount)
      || ops.ltZero (ops.parseFloat budgetAmount))

/-- The budgets after a sequence of submissions of the budget form, each given
by its fields `(budgetAmount, monthYear)`. -/
def submitAll {Num : Type} (ops : NumberOps Num) (budgets : List (Budget Num))
    (inputs : List (JSString × JSString)) : List (Budget Num) :=
  inputs.foldl (fun bs i => handleSubmit ops bs i.1 i.2) budgets

/-- Replace the first entry for `monthYear`, or append: the upsert as a
recursion on the list, used to reason about `handleSubmit`. -/
def upsertEntry {Num : Type} (newBudget : Budget Num) : List (Budget Num) → List (Budget Num)
  | [] => [newBudget]
  | b :: bs =>
    if b.monthYear = newBudget.monthYear then newBudget :: bs else b :: upsertEntry newBudget bs

/-- What follows a value inside stringified text: nothing, or a `,`, `]` or `}`. -/
def Delimited (rest : JSString) : Prop :=
  ∀ c ∈ rest.head?, c = 0x2C ∨ c = 0x5D ∨ c = 0x7D

/-- Property order between two keys of one object: array indices ascending,
then the other keys, which only have to differ. -/
def keyBefore (k1 k2 : JSString) : Prop :=
  match arrayIndex? k1, arrayIndex? k2 with
  | some a, some b => a < b
  | some _, none => True
  | none, some _ => False
  | none, none => k1 ≠ k2

/-- The own properties of an object are in property order, without a repeated key. -/
def Canonical (ms : List (JSString × JSON)) : Prop :=
  (ms.map Prod.fst).Pairwise keyBefore

/-- A value as `JSON.parse` returns it: number literals are literals the
scanner accepts, and objects hold their properties in property order. -/
def JSON.WF : JSON → Prop
  | .null => True
  | .bool _ => True
  | .num l => scanNumber l = some (l, [])
  | .str _ => True
  | .arr xs => wfList xs
  | .obj ms => Canonical ms ∧ wfMembers ms
where
  /-- Every element is well formed. -/
  wfList : List JSON → Prop
    | [] => True
    | x :: xs => x.WF ∧ wfList xs
  /-- Every member value is well formed. -/
  wfMembers : List (JSString × JSON) → Prop
    | [] => True
    | (_, v) :: ms => v.WF ∧ wfMembers ms

/-- A bound on the nesting budget that parsing the text of a value needs. -/
def JSON.size : JSON → Nat
  | .null => 1
  | .bool _ => 1
  | .num _ => 1
  | .str _ => 1
  | .arr xs => 1 + sizeList xs
  | .obj ms => 1 + sizeMembers ms
where
  /-- The bound for the elements of an array. -/
  sizeList : List JSON → Nat
    | [] => 0
    | x :: xs => 1 + x.size + sizeList xs
  /-- The bound for the members of an object. -/
  sizeMembers : List (JSString × JSON) → Nat
    | [] => 0
    | (_, v) :: ms => 1 + v.size + sizeMembers ms

/-- The settings literal of lines 972-977 and 1050. -/
def defaultSettings : JSON :=
  .obj [(js "profilePictureUrl", .str []), (js "name", .str (js "User")),
    (js "currency", .str (js "$")), (js "isDarkMode", .bool false)]

/-- The state of a freshly mounted `App` over a given `localStorage`
(the `useState` initial values of lines 970-981). -/
def initialState (store : Store) : AppState :=
  { store := store
    transactions := .arr []
    budgets := .arr []
    settings := defaultSettings
    isAuthenticated := false
    currentUser := none
    loadingAuth := true }

/-- The function `logout` of lines 1044-1052 (the reset of the `dark` class of
the document is not part of the state). -/
def logout (st : AppState) : AppState :=
  { st with
    store := removeItem st.store jwtKey
    currentUser := none
    isAuthenticated := false
    transactions := .arr []
    budgets := .arr []
    settings := defaultSettings }

/-- The persisted directory as `login` and `signup` read it, when it is an
object: the own properties of `JSON.parse(getItem(users) || '{}')`. -/
def directory (store : Store) : Option (List (JSString × JSON)) :=
  match JSON.parse (getItemOr store usersKey (js "{}")) with
  | some (.obj users) => some users
  | _ => none

/-- The directory entry `{ password: password }` of line 1035. -/
def credential (password : JSString) : JSON := .obj [(js "password", .str password)]

/-- The password stored for `username`: the string under the own property
`password` of the object that is the own property `username` of the directory. -/
def storedPassword (users : List (JSString × JSON)) (username : JSString) : Option JSString :=
  match getOwn username users with
  | some (.obj entry) =>
    match getOwn (js "password") entry with
    | some (.str s) => some s
    | _ => none
  | _ => none

/-- A call of the session layer made from the authentication page or the
header. -/
inductive AuthAction where
  | signup (username password : JSString)
  | login (username password : JSString)
  | logout

/-- The state after one call (for a call that throws, the state at the throw). -/
def AuthAction.apply (st : AppState) : AuthAction → AppState
  | .signup u p => (FinancialTracker.signup st u p).state
  | .login u p => (FinancialTracker.login st u p).state
  | .logout => FinancialTracker.logout st

/-- The state after a sequence of calls. -/
def runActions (st : AppState) (actions : List AuthAction) : AppState :=
  actions.foldl AuthAction.apply st

/-- The directory of the state is an object that stores `password` for
`username`. -/
def HasCredential (st : AppState) (username password : JSString) : Prop :=
  ∃ users, directory st.store = some users ∧ storedPassword users username = some password

/-- An empty `localStorage`. -/
def emptyStore : Store := fun _ => none

/-- The 6-bit values that `b64Encode` writes as digits, without the padding. -/
def sextets : List Nat → List Nat
  | [] => []
  | [a] => [a / 4, a % 4 * 16]
  | [a, b] => [a / 4, a % 4 * 16 + b / 16, b % 16 * 4]
  | a :: b :: c :: rest =>
    a / 4 :: (a % 4 * 16 + b / 16) :: (b % 16 * 4 + c / 64) :: c % 64 :: sextets rest

/-- The padding that `b64Encode` appends. -/
def padding : List Nat → List Nat
  | [] => []
  | [_] => [61, 61]
  | [_, _] => [61]
  | _ :: _ :: _ :: rest => padding rest

/-! ## The upsert statements, the effects and the render cycle
(App.jsx, lines 473-491 and 1054-1138) -/

/-- The statements of lines 473-491 of `SetBudgetModal.handleSubmit`, for an
amount that has passed the check of line 468: the entry found by `findIndex` is
overwritten, or the new entry is appended. -/
def upsertBudget {Num : Type} (budgets : List (Budget Num)) (monthYear : JSString)
    (amount : Num) : List (Budget Num) :=
  let newBudget : Budget Num := { monthYear := monthYear, budgetAmount := amount }
  let existingBudgetIndex := findIndex (fun b => decide (b.monthYear = monthYear)) budgets
  if existingBudgetIndex ≠ -1 then budgets.set existingBudgetIndex.toNat newBudget
  else budgets ++ [newBudget]

/-- The text of a parsed value as an element of `Array.prototype.join`, `none`
when the conversion throws. A string is itself; `null` is empty; an array is
its elements joined by commas; an object is `[object Object]`, unless it has an
own property `toString` (which is not callable, and then neither conversion
method yields a primitive: `TypeError`); a number is written by its literal. -/
def elementText : JSON → Option JSString
  | .null => some []
  | .bool true => some (js "true")
  | .bool false => some (js "false")
  | .num l => some l
  | .str s => some s
  | .arr xs => joinTexts xs
  | .obj ms =>
    match getOwn (js "toString") ms with
    | some _ => none
    | none => some (js "[object Object]")
where
  /-- The texts of the elements of an array, joined by commas. -/
  joinTexts : List JSON → Option JSString
    | [] => some []
    | [x] => elementText x
    | x :: y :: rest =>
      match elementText x, joinTexts (y :: rest) with
      | some a, some b => some (a ++ 0x2C :: b)
      | _, _ => none

/-- The conversion `ToString` that a template literal applies to a parsed
value, `none` when it throws. -/
def templateText (v : JSON) : Option JSString :=
  match v with
  | .null => some (js "null")
  | w => elementText w

/-- The settings literal of lines 1092 and 1099, with `name: currentUser`. -/
def userSettings (currentUser : JSON) : JSON :=
  .obj [(js "profilePictureUrl", .str []), (js "name", currentUser),
    (js "currency", .str (js "$")), (js "isDarkMode", .bool false)]

/-- One of the three reads of the load effect: the fallback when `getItem`
gives `null` or the empty string, otherwise `JSON.parse` of the stored text
(`none` when it throws). -/
def loadCollection (store : Store) (key : JSString) (fallback : JSON) : Option JSON :=
  match store key with
  | none => some fallback
  | some [] => some fallback
  | some (c :: cs) => JSON.parse (c :: cs)

/-- The load effect of lines 1070-1102, for the `currentUser` of the render and
the store at the time it runs: the values it sets for `transactions`, `budgets`
and `settings`, or `none` when `currentUser` is not truthy and it sets nothing.
An exception inside the `try` (of `getUserDataKey` or of a `JSON.parse`) makes
the `catch` set all three defaults. -/
def loadEffect (currentUser : Option JSON) (store : Store) : Option (JSON × JSON × JSON) :=
  match currentUser with
  | none => none
  | some cu =>
    if cu.truthy then
      match templateText cu with
      | none => some (.arr [], .arr [], userSettings cu)
      | some name =>
        match loadCollection store (getUserDataKey name (js "transactions")) (.arr []),
            loadCollection store (getUserDataKey name (js "budgets")) (.arr []),
            loadCollection store (getUserDataKey name (js "settings")) (userSettings cu) with
        | some t, some b, some s => some (t, b, s)
        | _, _, _ => some (.arr [], .arr [], userSettings cu)
    else none

/-- One of the save effects of lines 1105-1138, for the `currentUser`,
`loadingAuth` and collection value of the render: the store after it has run. -/
def saveEffect (currentUser : Option JSON) (loadingAuth : Bool) (collection : JSString)
    (value : JSON) (store : Store) : Store :=
  match currentUser with
  | none => store
  | some cu =>
    if cu.truthy && !loadingAuth then
      match templateText cu with
      | none => store
      | some name => setItem store (getUserDataKey name collection) value.stringify
    else store

/-- The read `payload.username` on what `verifyToken` returned, where the
payload is truthy: an own property of an object (no built-in prototype has a
property of that name), `none` for `undefined`. -/
def payloadUsername : JSON → Option JSON
  | .obj ms => getOwn (js "username") ms
  | _ => none

/-- The effect of lines 1055-1067 (startup restoration): the state after it. -/
def restoreEffect (st : AppState) : AppState :=
  match st.store jwtKey with
  | none => { st with loadingAuth := false }
  | some [] => { st with loadingAuth := false }
  | some (c :: cs) =>
    match payloadUsername (verifyToken (c :: cs)).returned with
    | none => { st with store := removeItem st.store jwtKey, loadingAuth := false }
    | some username =>
      if (verifyToken (c :: cs)).returned.truthy && username.truthy then
        { st with currentUser := some username, isAuthenticated := true, loadingAuth := false }
      else { st with store := removeItem st.store jwtKey, loadingAuth := false }

/-- Which of the state variables that the effects depend on have a new value
(a new identity, for the collections) in a render. -/
structure Changed where
  transactions : Bool
  budgets : Bool
  settings : Bool
  currentUser : Bool
  loadingAuth : Bool

/-- No dependency has changed. -/
def Changed.none : Changed :=
  { transactions := false, budgets := false, settings := false, currentUser := false,
    loadingAuth := false }

/-- The effects that run after a render other than the first, in the order of
their definition and with the values of that render: the load effect when
`currentUser` has changed, then each save effect when one of its dependencies
has changed. The values set by the load effect take hold in the next render.
Rendering itself is not modelled: a render that throws (a collection in memory
that is not an array, settings that are not an object) is outside the model. -/
def commit (ch : Changed) (st : AppState) : AppState × Changed :=
  let loaded := if ch.currentUser then loadEffect st.currentUser st.store else Option.none
  let s1 := if ch.transactions || ch.currentUser || ch.loadingAuth then
      saveEffect st.currentUser st.loadingAuth (js "transactions") st.transactions st.store
    else st.store
  let s2 := if ch.budgets || ch.currentUser || ch.loadingAuth then
      saveEffect st.currentUser st.loadingAuth (js "budgets") st.budgets s1
    else s1
  let s3 := if ch.settings || ch.currentUser || ch.loadingAuth then
      saveEffect st.currentUser st.loadingAuth (js "settings") st.settings s2
    else s2
  match loaded with
  | some (t, b, s) =>
    ({ st with store := s3, transactions := t, budgets := b, settings := s },
      { Changed.none with transactions := true, budgets := true, settings := true })
  | Option.none => ({ st with store := s3 }, Changed.none)

/-- The state once the renders that follow a state change have come to rest:
the effects of the render with the change, then those of the render with the
values that the load effect has set (after which nothing changes). -/
def flush (ch : Changed) (st : AppState) : AppState :=
  (commit (commit ch st).2 (commit ch st).1).1

/-- The first render of `App` over a given `localStorage` and what follows:
every effect runs with the initial values (`currentUser` is `null`, so only the
restoration effect does anything), then the renders settle. -/
def startup (store : Store) : AppState :=
  flush
    { Changed.none with
      currentUser := (restoreEffect (initialState store)).currentUser.isSome
      loadingAuth := true }
    (restoreEffect (initialState store))

/-- Whether `currentUser` is the string `username` (`Object.is` on strings). -/
def isUser (currentUser : Option JSON) (username : JSString) : Bool :=
  match currentUser with
  | some (.str s) => decide (s = username)
  | _ => false

/-- The call `login(username, password)` from an event handler and the renders
that follow it. -/
def loginAndSettle (st : AppState) (username password : JSString) : Outcome :=
  match (login st username password).completion with
  | .returned true =>
    { completion := .returned true
      state := flush { Changed.none with currentUser := !isUser st.currentUser username }
        (login st username password).state }
  | c => { completion := c, state := (login st username password).state }

/-- The call `signup(username, password)` from an event handler and the renders
that follow it. -/
def signupAndSettle (st : AppState) (username password : JSString) : Outcome :=
  match (signup st username password).completion with
  | .returned true =>
    { completion := .returned true
      state := flush { Changed.none with currentUser := !isUser st.currentUser username }
        (signup st username password).state }
  | c => { completion := c, state := (signup st username password).state }

/-- The call `logout()` from an event handler and the renders that follow it. -/
def logoutAndSettle (st : AppState) : AppState :=
  flush
    { transactions := true, budgets := true, settings := true
      currentUser := st.currentUser.isSome, loadingAuth := false }
    (logout st)

/-- A call `setTransactions(value)` by a consumer of the context and the
renders that follow it. -/
def setTransactionsAndSettle (st : AppState) (value : JSON) : AppState :=
  flush { Changed.none with transactions := true } { st with transactions := value }

/-- The session of `u` is saved: `u` is the current user after the startup
check, the collections in memory are two arrays and an object (as every render
of the application requires) and well formed, and the store holds their texts
under the keys of `u`. -/
def SavedSession (st : AppState) (u : JSString) : Prop :=
  st.currentUser = some (.str u) ∧ u ≠ [] ∧ st.loadingAuth = false ∧
    ((∃ ts, st.transactions = .arr ts) ∧ (∃ bs, st.budgets = .arr bs) ∧
      (∃ ms, st.settings = .obj ms)) ∧
    st.transactions.WF ∧ st.budgets.WF ∧ st.settings.WF ∧
    st.store (getUserDataKey u (js "transactions")) = some st.transactions.stringify ∧
    st.store (getUserDataKey u (js "budgets")) = some st.budgets.stringify ∧
    st.store (getUserDataKey u (js "settings")) = some st.settings.stringify

/-! ## Concrete stores and states used in evaluations -/

/-- The token that `signToken` makes for `alice`, with the last character of its
signature changed from `9` to `8`. -/
def tamperedToken : JSString :=
  js ("eyJhbGciOiJIUzI1NiIsInR5cCI6IkpXVCJ9.eyJ1c2VybmFtZSI6ImFsaWNlIn0=."
    ++ "eW91ci1zdXBlci1zZWNyZXQta2V5LWZvci1sb2NhbC1kZW1vLW9ubHlleUoxYzJWeWJtRnRaU0k2SW1Gc2FXTmxJbjA8")

/-- The token that `signToken` makes for `alice`. -/
def aliceToken : JSString :=
  js ("eyJhbGciOiJIUzI1NiIsInR5cCI6IkpXVCJ9.eyJ1c2VybmFtZSI6ImFsaWNlIn0=."
    ++ "eW91ci1zdXBlci1zZWNyZXQta2V5LWZvci1sb2NhbC1kZW1vLW9ubHlleUoxYzJWeWJtRnRaU0k2SW1Gc2FXTmxJbjA9")

/-- A store in which the transactions of `alice` are the text `[1]` and her
budgets are the text of a single opening brace, which does not parse. -/
def corruptBudgetsStore : Store :=
  setItem (setItem emptyStore (getUserDataKey (js "alice") (js "transactions")) (js "[1]"))
    (getUserDataKey (js "alice") (js "budgets")) (js "\x7b")

/-- The object `newTransaction` of lines 327-335 of
`AddTransactionModal.handleSubmit`; `id` and `amount` are number lexemes. -/
def newTransaction (id type category amount date description timestamp : JSString) : JSON :=
  .obj [(js "id", .num id), (js "type", .str type), (js "category", .str category),
    (js "amount", .num amount), (js "date", .str date), (js "description", .str description),
    (js "timestamp", .str timestamp)]

/-- The update of line 336, `setTransactions(prev => [newTransaction, ...prev])`,
followed by the renders it causes; the collection in memory is an array. -/
def addTransaction (st : AppState) (tx : JSON) : AppState :=
  match st.transactions with
  | .arr prev => setTransactionsAndSettle st (.arr (tx :: prev))
  | _ => st

/-- An expense of 12.50 for food on 2024-01-05. -/
def foodExpense : JSON :=
  newTransaction (js "1704450000000") (js "expense") (js "Food") (js "12.5") (js "2024-01-05")
    [] (js "2024-01-05T10:20:00.000Z")

/-- The state after: startup on an empty store, `signup("alice", "pw1")`,
`login("alice", "pw1")`, adding `foodExpense`. -/
def aliceSaved : AppState :=
  addTransaction
    (loginAndSettle (signupAndSettle (startup emptyStore) (js "alice") (js "pw1")).state
      (js "alice") (js "pw1")).state
    foodExpense


/-! ## Operations of the session layer and runs of the session -/

/-- An operation of the session layer on the state: a call of `signup`, `login`
or `logout`, the startup restoration effect, the load effect, the save effect of
one collection, the effects of one render, or a call of one of the three setters
of the context. -/
inductive SessionOp where
  | signup (username password : JSString)
  | login (username password : JSString)
  | logout
  | restoreOnStartup
  | load
  | saveTransactions
  | saveBudgets
  | saveSettings
  | render (ch : Changed)
  | setTransactions (value : JSON)
  | setBudgets (value : JSON)
  | setSettings (value : JSON)

/-- The state after one operation (for a call that throws, the state at the
throw). -/
def SessionOp.apply (st : AppState) : SessionOp → AppState
  | .signup u p => (FinancialTracker.signup st u p).state
  | .login u p => (FinancialTracker.login st u p).state
  | .logout => FinancialTracker.logout st
  | .restoreOnStartup => restoreEffect st
  | .load =>
    match loadEffect st.currentUser st.store with
    | some (t, b, s) => { st with transactions := t, budgets := b, settings := s }
    | none => st
  | .saveTransactions =>
    { st with
      store := saveEffect st.currentUser st.loadingAuth (js "transactions") st.transactions
        st.store }
  | .saveBudgets =>
    { st with
      store := saveEffect st.currentUser st.loadingAuth (js "budgets") st.budgets st.store }
  | .saveSettings =>
    { st with
      store := saveEffect st.currentUser st.loadingAuth (js "settings") st.settings st.store }
  | .render ch => (commit ch st).1
  | .setTransactions v => { st with transactions := v }
  | .setBudgets v => { st with budgets := v }
  | .setSettings v => { st with settings := v }

/-- The state after a sequence of operations. -/
def runOps (st : AppState) (ops : List SessionOp) : AppState :=
  ops.foldl SessionOp.apply st

/-- The state after one call of the session layer from an event handler and the
renders that follow it. -/
def AuthAction.settle (st : AppState) : AuthAction → AppState
  | .signup u p => (signupAndSettle st u p).state
  | .login u p => (loginAndSettle st u p).state
  | .logout => logoutAndSettle st

/-- The state reached from the first render over a given `localStorage` (with its
startup restoration) by a sequence of calls of `signup`, `login` and `logout`. -/
def session (store : Store) (actions : List AuthAction) : AppState :=
  actions.foldl AuthAction.settle (startup store)

/-- The session invariant: `isAuthenticated` is `true` exactly when
`currentUser` is not `null`, and when `currentUser` is a value `u` the store
holds under the session key a token that `verifyToken` accepts with a payload
whose `username` is `u`. -/
def SessionInvariant (st : AppState) : Prop :=
  st.isAuthenticated = st.currentUser.isSome ∧
    ∀ cu, st.currentUser = some cu →
      ∃ token p, st.store jwtKey = some token ∧ verifyToken token = .payload p ∧
        payloadUsername p = some cu

/-! ## Updates of the settings and the other setters (App.jsx, lines 774-779 and 1148-1153) -/

/-- The updater of line 776 in `SettingsPage.handleSaveSettings`,
`{ ...prevSettings, profilePictureUrl, name, currency }`, on the own properties
of the settings object; the three form values are values that JSON can hold. -/
def handleSaveSettings (prevSettings : List (JSString × JSON))
    (profilePictureUrl name currency : JSON) : List (JSString × JSON) :=
  setProp (setProp (setProp prevSettings (js "profilePictureUrl") profilePictureUrl)
    (js "name") name) (js "currency") currency

/-- The updater of lines 1149-1152 in `toggleDarkMode`,
`{ ...prevSettings, isDarkMode: !prevSettings.isDarkMode }`, on the own
properties of the settings object. -/
def toggleDarkMode (prevSettings : List (JSString × JSON)) : List (JSString × JSON) :=
  setProp prevSettings (js "isDarkMode")
    (.bool (!(getProperty prevSettings (js "isDarkMode")).truthy))

/-- A call `setBudgets(value)` by a consumer of the context and the renders that
follow it. -/
def setBudgetsAndSettle (st : AppState) (value : JSON) : AppState :=
  flush { Changed.none with budgets := true } { st with budgets := value }

/-- A call `setSettings(value)` by a consumer of the context and the renders
that follow it. -/
def setSettingsAndSettle (st : AppState) (value : JSON) : AppState :=
  flush { Changed.none with settings := true } { st with settings := value }

/-- The session state `Authenticated(u)` after the startup check: `u` is the
current user, `isAuthenticated` is set and `loadingAuth` is cleared. -/
def Authenticated (st : AppState) (u : JSString) : Prop :=
  st.currentUser = some (.str u) ∧ st.isAuthenticated = true ∧ st.loadingAuth = false

/-! ## Numbers

The values of JavaScript numbers, and the arithmetic of the platform as exact
arithmetic on those values followed by a rounding that is a parameter. -/

/-- The value of a JavaScript number: `NaN`, an infinity with its sign, or a
finite value with its sign and its magnitude (so that `+0` and `-0` differ). -/
inductive JSNumber where
  | nan
  | infinity (negative : Bool)
  | finite (negative : Bool) (magnitude : NNRat)
deriving DecidableEq

/-- The number literal `0`. -/
def JSNumber.zero : JSNumber := .finite false 0

/-- The number literal `100`. -/
def JSNumber.hundred : JSNumber := .finite false 100

/-- The rational number with a sign and a magnitude. -/
def signed (negative : Bool) (magnitude : NNRat) : ℚ :=
  if negative then -(magnitude : ℚ) else (magnitude : ℚ)

/-- The global function `isNaN` on a number. -/
def JSNumber.isNaN : JSNumber → Bool
  | .nan => true
  | _ => false

/-- The comparison `a < b` on numbers (`false` when one of them is `NaN`). -/
def JSNumber.lt : JSNumber → JSNumber → Bool
  | .nan, _ => false
  | _, .nan => false
  | .infinity n1, .infinity n2 => n1 && !n2
  | .infinity n, .finite _ _ => n
  | .finite _ _, .infinity n => !n
  | .finite n1 m1, .finite n2 m2 => decide (signed n1 m1 < signed n2 m2)

/-- The comparison `a <= b` on numbers (`false` when one of them is `NaN`). -/
def JSNumber.le (a b : JSNumber) : Bool :=
  !a.isNaN && !b.isNaN && !(JSNumber.lt b a)

/-- The finite number or infinity that an exact result of the given sign and
magnitude rounds to: an exact zero stays a zero, and `round` gives the nearest
representable magnitude, or `none` on overflow. -/
def JSNumber.ofExact (round : NNRat → Option NNRat) (negative : Bool) (magnitude : NNRat) :
    JSNumber :=
  if magnitude = 0 then .finite negative 0
  else
    match round magnitude with
    | some r => .finite negative r
    | none => .infinity negative

/-- The unary minus. -/
def JSNumber.neg : JSNumber → JSNumber
  | .nan => .nan
  | .infinity n => .infinity (!n)
  | .finite n m => .finite (!n) m

/-- The sum `a + b` of two numbers. -/
def JSNumber.add (round : NNRat → Option NNRat) : JSNumber → JSNumber → JSNumber
  | .nan, _ => .nan
  | _, .nan => .nan
  | .infinity n1, .infinity n2 => if n1 = n2 then .infinity n1 else .nan
  | .infinity n, .finite _ _ => .infinity n
  | .finite _ _, .infinity n => .infinity n
  | .finite n1 m1, .finite n2 m2 =>
    if n1 = n2 then JSNumber.ofExact round n1 (m1 + m2)
    else if m2 < m1 then JSNumber.ofExact round n1 (m1 - m2)
    else if m1 < m2 then JSNumber.ofExact round n2 (m2 - m1)
    else .finite false 0

/-- The difference `a - b` of two numbers. -/
def JSNumber.sub (round : NNRat → Option NNRat) (a b : JSNumber) : JSNumber :=
  JSNumber.add round a b.neg

/-- The product `a * b` of two numbers. -/
def JSNumber.mul (round : NNRat → Option NNRat) : JSNumber → JSNumber → JSNumber
  | .nan, _ => .nan
  | _, .nan => .nan
  | .infinity n1, .infinity n2 => .infinity (xor n1 n2)
  | .infinity n1, .finite n2 m2 => if m2 = 0 then .nan else .infinity (xor n1 n2)
  | .finite n1 m1, .infinity n2 => if m1 = 0 then .nan else .infinity (xor n1 n2)
  | .finite n1 m1, .finite n2 m2 => JSNumber.ofExact round (xor n1 n2) (m1 * m2)

/-- The quotient `a / b` of two numbers. -/
def JSNumber.div (round : NNRat → Option NNRat) : JSNumber → JSNumber → JSNumber
  | .nan, _ => .nan
  | _, .nan => .nan
  | .infinity _, .infinity _ => .nan
  | .infinity n1, .finite n2 _ => .infinity (xor n1 n2)
  | .finite n1 _, .infinity n2 => .finite (xor n1 n2) 0
  | .finite n1 m1, .finite n2 m2 =>
    if m2 = 0 then (if m1 = 0 then .nan else .infinity (xor n1 n2))
    else JSNumber.ofExact round (xor n1 n2) (m1 / m2)

/-- The call `Math.min(a, b)`: `NaN` when an argument is `NaN`, and `-0` counts
as less than `+0`. -/
def JSNumber.min (a b : JSNumber) : JSNumber :=
  if a.isNaN || b.isNaN then .nan
  else if JSNumber.lt a b then a
  else if JSNumber.lt b a then b
  else if a = .finite true 0 then a
  else b

/-- The rounding that rounds nothing: exact arithmetic. -/
def exactRound : NNRat → Option NNRat := some

/-! ## The budget overview of the dashboard (App.jsx, lines 603-604 and 619) -/

/-- The constant `remainingBudget` of line 603. -/
def remainingBudget (round : NNRat → Option NNRat)
    (currentMonthBudget currentMonthSpending : JSNumber) : JSNumber :=
  JSNumber.sub round currentMonthBudget currentMonthSpending

/-- The constant `budgetProgress` of line 604. -/
def budgetProgress (round : NNRat → Option NNRat)
    (currentMonthBudget currentMonthSpending : JSNumber) : JSNumber :=
  if JSNumber.lt JSNumber.zero currentMonthBudget then
    JSNumber.mul round (JSNumber.div round currentMonthSpending currentMonthBudget)
      JSNumber.hundred
  else JSNumber.zero

/-- The number in the width of the progress bar, `Math.min(budgetProgress, 100)`
of line 619. -/
def progressBarWidth (round : NNRat → Option NNRat)
    (currentMonthBudget currentMonthSpending : JSNumber) : JSNumber :=
  JSNumber.min (budgetProgress round currentMonthBudget currentMonthSpending) JSNumber.hundred

/-! ## The form for a new transaction (App.jsx, lines 295-342 and 355-437) -/

/-- A transaction record as `AddTransactionModal.handleSubmit` makes it. -/
structure Transaction where
  id : JSNumber
  type : JSString
  category : JSString
  amount : JSNumber
  date : JSString
  description : JSString
  timestamp : JSString
deriving DecidableEq

/-- The state of the form: the `useState` variables of lines 298-302. -/
structure TransactionForm where
  type : JSString
  category : JSString
  amount : JSString
  date : JSString
  description : JSString

/-- The initial state of the form; `today` is the date part of
`new Date().toISOString()`. -/
def TransactionForm.initial (today : JSString) : TransactionForm :=
  { type := js "expense", category := [], amount := [], date := today, description := [] }

/-- A change made through a control of the form: one of the two radio buttons
(lines 363 and 374), or a new value of the category, amount, date or description
control. -/
inductive FormEvent where
  | chooseIncome
  | chooseExpense
  | setCategory (value : JSString)
  | setAmount (value : JSString)
  | setDate (value : JSString)
  | setDescription (value : JSString)

/-- The state of the form after a change. -/
def FormEvent.apply (form : TransactionForm) : FormEvent → TransactionForm
  | .chooseIncome => { form with type := js "income" }
  | .chooseExpense => { form with type := js "expense" }
  | .setCategory v => { form with category := v }
  | .setAmount v => { form with amount := v }
  | .setDate v => { form with date := v }
  | .setDescription v => { form with description := v }

/-- The state of the form after a sequence of changes from its initial state. -/
def TransactionForm.after (today : JSString) (events : List FormEvent) : TransactionForm :=
  events.foldl FormEvent.apply (TransactionForm.initial today)

/-- The function `handleSubmit` of `AddTransactionModal`, lines 309-342, as the
transaction list that results; `parseFloat` is the function of the platform,
`now` is `Date.now()` and `timestamp` is `new Date().toISOString()`. -/
def AddTransactionModal.handleSubmit (parseFloat : JSString → JSNumber) (now : JSNumber)
    (timestamp : JSString) (form : TransactionForm) (prevTransactions : List Transaction) :
    List Transaction :=
  if form.amount.isEmpty || (parseFloat form.amount).isNaN
      || JSNumber.le (parseFloat form.amount) JSNumber.zero then prevTransactions
  else if form.category.isEmpty then prevTransactions
  else if form.date.isEmpty then prevTransactions
  else
    { id := now
      type := form.type
      category := form.category
      amount := parseFloat form.amount
      date := form.date
      description := form.description
      timestamp := timestamp } :: prevTransactions

/-- The checks of lines 312-323 let the form through. -/
def TransactionForm.Accepted (parseFloat : JSString → JSNumber) (form : TransactionForm) :
    Prop :=
  form.amount ≠ [] ∧ JSNumber.lt JSNumber.zero (parseFloat form.amount) = true ∧
    form.category ≠ [] ∧ form.date ≠ []

/-- The values of `parseFloat` on the amount texts of the examples: 12.5 for
`12.50`, 0 for `0`, and `NaN` for the other texts (as for the empty text; this is
not the whole function of the platform). -/
def parseFloatSample (text : JSString) : JSNumber :=
  if text = js "12.50" then .finite false (25 / 2)
  else if text = js "0" then .finite false 0
  else .nan

/-- The form after choosing the category `Food` and entering the amount `12.50`,
opened on 2024-01-05. -/
def foodForm : TransactionForm :=
  TransactionForm.after (js "2024-01-05") [.setCategory (js "Food"), .setAmount (js "12.50")]

/-- A store whose directory value is the text `[]`, and nothing else. -/
def arrayDirectoryStore : Store := setItem emptyStore usersKey (js "[]")

/-! ## The authentication form and the events of the running application
(App.jsx, lines 880-908) -/

/-- The part of `AuthPage.handleAuth` (lines 880-908) that acts on the state of
`App`: nothing when the username or the password is empty (line 885); otherwise
the call of `login` or of `signup`, with the renders that follow a call that
returns `true`. An exception of the call is caught (line 905) and leaves the
state at the throw. -/
def handleAuth (st : AppState) (isLogin : Bool) (username password : JSString) : AppState :=
  if username.isEmpty || password.isEmpty then st
  else if isLogin then (loginAndSettle st username password).state
  else (signupAndSettle st username password).state

/-- An event of the running application that acts on the state of `App`: a
submission of the authentication form, a click on the logout button, or a call
of one of the three setters by a page. -/
inductive AppEvent where
  | submitAuth (isLogin : Bool) (username password : JSString)
  | logout
  | setTransactions (value : JSON)
  | setBudgets (value : JSON)
  | setSettings (value : JSON)

/-- The state after an event and the renders that follow it. -/
def AppEvent.apply (st : AppState) : AppEvent → AppState
  | .submitAuth isLogin u p => handleAuth st isLogin u p
  | .logout => logoutAndSettle st
  | .setTransactions v => setTransactionsAndSettle st v
  | .setBudgets v => setBudgetsAndSettle st v
  | .setSettings v => setSettingsAndSettle st v

/-- The state the application reaches from its first render over a given
`localStorage` by a sequence of events. -/
def appRun (store : Store) (events : List AppEvent) : AppState :=
  events.foldl AppEvent.apply (startup store)

/-! # Theorems -/

/-! ## Splitting -/

theorem splitOn_ne_nil (sep : Nat) (s : JSString) : splitOn sep s ≠ [] := by
  cases s with
  | nil => simp [splitOn]
  | cons c cs =>
    unfold splitOn
    split
    · simp
    · split <;> simp

theorem splitOn_of_not_mem {sep : Nat} {s : JSString} (h : sep ∉ s) : splitOn sep s = [s] := by
  induction s with
  | nil => rfl
  | cons c cs ih =>
    have hc : c ≠ sep := fun e => h (by simp [e])
    have hcs : sep ∉ cs := fun e => h (by simp [e])
    simp [splitOn, hc, ih hcs]

theorem splitOn_append_sep {sep : Nat} {a : JSString} (b : JSString) (h : sep ∉ a) :
    splitOn sep (a ++ sep :: b) = a :: splitOn sep b := by
  induction a with
  | nil => simp [splitOn]
  | cons c cs ih =>
    have hc : c ≠ sep := fun e => h (by simp [e])
    have hcs : sep ∉ cs := fun e => h (by simp [e])
    simp [splitOn, hc, ih hcs]

theorem length_splitOn (sep : Nat) (s : JSString) :
    (splitOn sep s).length = s.count sep + 1 := by
  induction s with
  | nil => simp [splitOn]
  | cons c cs ih =>
    unfold splitOn
    by_cases hc : c = sep
    · subst hc
      simp [ih]
    · have hne : splitOn sep cs ≠ [] := splitOn_ne_nil sep cs
      rw [if_neg hc]
      cases hsp : splitOn sep cs with
      | nil => exact absurd hsp hne
      | cons p ps =>
        rw [hsp] at ih
        simp only [List.length_cons] at ih ⊢
        rw [List.count_cons_of_ne (Ne.symm hc)]
        exact ih

/-! ## Base64 output -/

theorem b64Char_ne_dot (n : Nat) : b64Char n ≠ dot := by
  unfold b64Char dot
  split_ifs <;> omega

theorem dot_not_mem_b64Encode : ∀ s : List Nat, dot ∉ b64Encode s
  | [] => by simp [b64Encode]
  | [a] => by
    simp only [b64Encode, List.mem_cons, List.mem_singleton, not_or, List.not_mem_nil, or_false]
    exact ⟨(b64Char_ne_dot _).symm, (b64Char_ne_dot _).symm, by decide, by decide⟩
  | [a, b] => by
    simp only [b64Encode, List.mem_cons, List.mem_singleton, not_or, List.not_mem_nil, or_false]
    exact ⟨(b64Char_ne_dot _).symm, (b64Char_ne_dot _).symm, (b64Char_ne_dot _).symm, by decide⟩
  | a :: b :: c :: rest => by
    have ih := dot_not_mem_b64Encode rest
    simp only [b64Encode, List.mem_cons, not_or]
    exact ⟨(b64Char_ne_dot _).symm, (b64Char_ne_dot _).symm, (b64Char_ne_dot _).symm,
      (b64Char_ne_dot _).symm, ih⟩

theorem dot_not_mem_of_btoa {s t : JSString} (h : btoa s = some t) : dot ∉ t := by
  unfold btoa at h
  split at h
  · cases h
    exact dot_not_mem_b64Encode s
  · cases h

theorem b64Encode_ne_nil {s : List Nat} (h : s ≠ []) : b64Encode s ≠ [] := by
  match s, h with
  | [a], _ => simp [b64Encode]
  | [a, b], _ => simp [b64Encode]
  | a :: b :: c :: rest, _ => simp [b64Encode]

/-! ## The token codec -/

theorem signToken_eq_some {payload : JSON} {t : JSString} (h : signToken payload = some t) :
    ∃ hd p s, btoa jwtHeader.stringify = some hd ∧ btoa payload.stringify = some p ∧
      btoa (LOCAL_JWT_SECRET ++ p) = some s ∧ t = hd ++ dot :: p ++ dot :: s := by
  unfold signToken at h
  cases h1 : btoa jwtHeader.stringify with
  | none => simp [h1] at h
  | some hd =>
    cases h2 : btoa payload.stringify with
    | none => simp [h1, h2] at h
    | some p =>
      cases h3 : btoa (LOCAL_JWT_SECRET ++ p) with
      | none => simp [h1, h2, h3] at h
      | some s =>
        simp only [h1, h2, h3, Option.some.injEq] at h
        exact ⟨hd, p, s, rfl, rfl, h3, h.symm⟩

theorem splitOn_token {hd p s : JSString} (h1 : dot ∉ hd) (h2 : dot ∉ p) :
    splitOn dot (hd ++ dot :: p ++ dot :: s) = hd :: p :: splitOn dot s := by
  have : hd ++ dot :: p ++ dot :: s = hd ++ dot :: (p ++ dot :: s) := by simp
  rw [this, splitOn_append_sep _ h1, splitOn_append_sep _ h2]

theorem verifyToken_of_length_ne {t : JSString} (h : (splitOn dot t).length ≠ 3) :
    verifyToken t = .malformed := by
  unfold verifyToken
  split
  · rename_i heq
    rw [heq] at h
    simp at h
  · rfl

theorem verifyToken_of_parts {t hd p s : JSString} (h : splitOn dot t = [hd, p, s]) :
    verifyToken t =
      match btoa (LOCAL_JWT_SECRET ++ p) with
      | none => .caught
      | some expectedSignature =>
        if s ≠ expectedSignature then .signatureMismatch
        else
          match atob p with
          | none => .caught
          | some text =>
            match JSON.parse text with
            | none => .caught
            | some payload => .payload payload := by
  unfold verifyToken
  rw [h]

theorem count_set_dot {s : JSString} (hs : dot ∉ s) {i : Nat} (hi : i < s.length) :
    (s.set i dot).count dot = 1 := by
  induction s generalizing i with
  | nil => simp at hi
  | cons c cs ih =>
    have hc : c ≠ dot := fun e => hs (by simp [e])
    have hcs : dot ∉ cs := fun e => hs (by simp [e])
    cases i with
    | zero => simp [List.count_eq_zero_of_not_mem hcs]
    | succ j =>
      have hj : j < cs.length := by simpa using hi
      simp [List.set, List.count_cons_of_ne (Ne.symm hc), ih hcs hj]

theorem not_mem_set {s : JSString} {x c : Nat} (hs : x ∉ s) (hc : c ≠ x) (i : Nat) :
    x ∉ s.set i c := by
  intro hm
  rcases List.mem_or_eq_of_mem_set hm with h | h
  · exact hs h
  · exact hc h.symm

/-- C4. A string that does not split on `.` into exactly three parts is rejected
on the `Malformed` path of `verifyToken`, and the value returned is `null`. -/
theorem verifyToken_malformed (token : JSString) (h : (splitOn dot token).length ≠ 3) :
    verifyToken token = .malformed ∧ (verifyToken token).returned = .null := by
  rw [verifyToken_of_length_ne h]
  exact ⟨rfl, rfl⟩

theorem verifyToken_malformed_witness :
    (splitOn dot (js "abc.def")).length ≠ 3 ∧
      verifyToken (js "abc.def") = .malformed ∧ (verifyToken (js "abc.def")).returned = .null :=
  ⟨by decide, verifyToken_malformed (js "abc.def") (by decide)⟩

/-- C3 (amended). For a token that splits on `.` into the three parts `hd`, `p`,
`s`, `verifyToken` returns a payload `v` exactly when `s` is the signature
recomputed from `p`, `atob p` succeeds and `JSON.parse` of its result is `v`. -/
theorem verifyToken_payload_iff (token hd p s : JSString) (v : JSON)
    (h : splitOn dot token = [hd, p, s]) :
    verifyToken token = .payload v ↔
      btoa (LOCAL_JWT_SECRET ++ p) = some s ∧
        ∃ text, atob p = some text ∧ JSON.parse text = some v := by
  rw [verifyToken_of_parts h]
  cases hb : btoa (LOCAL_JWT_SECRET ++ p) with
  | none => simp
  | some e =>
    by_cases hs : s = e
    · subst hs
      cases ha : atob p with
      | none => simp
      | some text =>
        cases hp : JSON.parse text with
        | none => simp [hp]
        | some w => simp [hp]
    · have hs' : e ≠ s := fun x => hs x.symm
      simp [hs, hs']

theorem verifyToken_payload_iff_witness :
    splitOn dot (js "x.e30=.eW91ci1zdXBlci1zZWNyZXQta2V5LWZvci1sb2NhbC1kZW1vLW9ubHllMzA9")
        = [js "x", js "e30=", js "eW91ci1zdXBlci1zZWNyZXQta2V5LWZvci1sb2NhbC1kZW1vLW9ubHllMzA9"] ∧
      (verifyToken (js "x.e30=.eW91ci1zdXBlci1zZWNyZXQta2V5LWZvci1sb2NhbC1kZW1vLW9ubHllMzA9")
          = .payload (.obj []) ↔
        btoa (LOCAL_JWT_SECRET ++ js "e30=")
            = some (js "eW91ci1zdXBlci1zZWNyZXQta2V5LWZvci1sb2NhbC1kZW1vLW9ubHllMzA9") ∧
          ∃ text, atob (js "e30=") = some text ∧ JSON.parse text = some (.obj [])) :=
  ⟨by decide, verifyToken_payload_iff _ (js "x") _ _ _ (by decide)⟩

/-- C3 (as stated, refuted). The token `a..S` with `S = btoa(LOCAL_JWT_SECRET)`
has three parts and its third part is the signature recomputed from its second
(empty) part, yet `verifyToken` rejects it: `JSON.parse` throws on the empty
text and the exception is caught. -/
theorem verifyToken_signature_match_rejected :
    splitOn dot (js "a..eW91ci1zdXBlci1zZWNyZXQta2V5LWZvci1sb2NhbC1kZW1vLW9ubHk=")
        = [js "a", [], js "eW91ci1zdXBlci1zZWNyZXQta2V5LWZvci1sb2NhbC1kZW1vLW9ubHk="] ∧
      btoa (LOCAL_JWT_SECRET ++ [])
        = some (js "eW91ci1zdXBlci1zZWNyZXQta2V5LWZvci1sb2NhbC1kZW1vLW9ubHk=") ∧
      verifyToken (js "a..eW91ci1zdXBlci1zZWNyZXQta2V5LWZvci1sb2NhbC1kZW1vLW9ubHk=") = .caught :=
  ⟨by decide, by decide, rfl⟩

/-- C2 (amended). A token made by `signToken` has three parts and a non-empty
signature; replacing one character of the signature by a different character
makes `verifyToken` fail, on the `SignatureMismatch` path when the new
character is not `.`, and on the `Malformed` path when it is `.`. -/
theorem verifyToken_mutated_signature (payload : JSON) (token : JSString)
    (h : signToken payload = some token) :
    ∃ hd p s, token = hd ++ dot :: p ++ dot :: s ∧ splitOn dot token = [hd, p, s] ∧ s ≠ [] ∧
      ∀ (i c : Nat), i < s.length → s[i]? ≠ some c →
        verifyToken (hd ++ dot :: p ++ dot :: s.set i c)
          = if c = dot then .malformed else .signatureMismatch := by
  obtain ⟨hd, p, s, h1, h2, h3, rfl⟩ := signToken_eq_some h
  have d1 := dot_not_mem_of_btoa h1
  have d2 := dot_not_mem_of_btoa h2
  have d3 := dot_not_mem_of_btoa h3
  have hs : s ≠ [] := by
    unfold btoa at h3
    split at h3
    · cases h3
      apply b64Encode_ne_nil
      simp [LOCAL_JWT_SECRET, js]
    · cases h3
  refine ⟨hd, p, s, rfl, ?_, hs, ?_⟩
  · rw [splitOn_token d1 d2, splitOn_of_not_mem d3]
  · intro i c hi hc
    by_cases hdot : c = dot
    · subst hdot
      rw [if_pos rfl]
      apply verifyToken_of_length_ne
      rw [splitOn_token d1 d2]
      simp [length_splitOn, count_set_dot d3 hi]
    · rw [if_neg hdot]
      have d3' : dot ∉ s.set i c := not_mem_set d3 hdot i
      have hsplit : splitOn dot (hd ++ dot :: p ++ dot :: s.set i c) = [hd, p, s.set i c] := by
        rw [splitOn_token d1 d2, splitOn_of_not_mem d3']
      rw [verifyToken_of_parts hsplit, h3]
      have hne : s.set i c ≠ s := by
        intro e
        apply hc
        have : (s.set i c)[i]? = some c := by simp [hi]
        rw [e] at this
        exact this
      simp [hne]

theorem verifyToken_mutated_signature_witness :
    signToken (claims (js "a")) = some (js "eyJhbGciOiJIUzI1NiIsInR5cCI6IkpXVCJ9.eyJ1c2VybmFtZSI6ImEifQ==.eW91ci1zdXBlci1zZWNyZXQta2V5LWZvci1sb2NhbC1kZW1vLW9ubHlleUoxYzJWeWJtRnRaU0k2SW1FaWZRPT0=") ∧
    ∃ hd p s, js "eyJhbGciOiJIUzI1NiIsInR5cCI6IkpXVCJ9.eyJ1c2VybmFtZSI6ImEifQ==.eW91ci1zdXBlci1zZWNyZXQta2V5LWZvci1sb2NhbC1kZW1vLW9ubHlleUoxYzJWeWJtRnRaU0k2SW1FaWZRPT0="
        = hd ++ dot :: p ++ dot :: s ∧
      splitOn dot (js "eyJhbGciOiJIUzI1NiIsInR5cCI6IkpXVCJ9.eyJ1c2VybmFtZSI6ImEifQ==.eW91ci1zdXBlci1zZWNyZXQta2V5LWZvci1sb2NhbC1kZW1vLW9ubHlleUoxYzJWeWJtRnRaU0k2SW1FaWZRPT0=")
        = [hd, p, s] ∧ s ≠ [] ∧
      ∀ (i c : Nat), i < s.length → s[i]? ≠ some c →
        verifyToken (hd ++ dot :: p ++ dot :: s.set i c)
          = if c = dot then .malformed else .signatureMismatch :=
  ⟨by decide, verifyToken_mutated_signature (claims (js "a")) _ (by decide)⟩

/-- C2 (as stated, refuted). In the token that `signToken` makes for the
username `a`, replacing the first character of the signature by `.` gives a
token of four parts, which `verifyToken` rejects on the `Malformed` path, not
on the `SignatureMismatch` path. -/
theorem verifyToken_dot_in_signature :
    signToken (claims (js "a")) = some (js "eyJhbGciOiJIUzI1NiIsInR5cCI6IkpXVCJ9.eyJ1c2VybmFtZSI6ImEifQ==.eW91ci1zdXBlci1zZWNyZXQta2V5LWZvci1sb2NhbC1kZW1vLW9ubHlleUoxYzJWeWJtRnRaU0k2SW1FaWZRPT0=") ∧
    verifyToken (js "eyJhbGciOiJIUzI1NiIsInR5cCI6IkpXVCJ9.eyJ1c2VybmFtZSI6ImEifQ==..W91ci1zdXBlci1zZWNyZXQta2V5LWZvci1sb2NhbC1kZW1vLW9ubHlleUoxYzJWeWJtRnRaU0k2SW1FaWZRPT0=")
      = .malformed ∧
    verifyToken (js "eyJhbGciOiJIUzI1NiIsInR5cCI6IkpXVCJ9.eyJ1c2VybmFtZSI6ImEifQ==..W91ci1zdXBlci1zZWNyZXQta2V5LWZvci1sb2NhbC1kZW1vLW9ubHlleUoxYzJWeWJtRnRaU0k2SW1FaWZRPT0=")
      ≠ .signatureMismatch :=
  ⟨by decide, rfl, by
    have h : verifyToken (js "eyJhbGciOiJIUzI1NiIsInR5cCI6IkpXVCJ9.eyJ1c2VybmFtZSI6ImEifQ==..W91ci1zdXBlci1zZWNyZXQta2V5LWZvci1sb2NhbC1kZW1vLW9ubHlleUoxYzJWeWJtRnRaU0k2SW1FaWZRPT0=")
        = .malformed := rfl
    rw [h]
    intro e
    cases e⟩

/-- C1 (code at the failing input). For the username `λ` (the single code unit
`U+03BB`) `signToken` throws: `btoa` rejects the JSON text of the claims, so
there is no token to verify. -/
theorem signToken_throws_beyond_latin1 :
    btoa (claims [0x3BB]).stringify = none ∧ signToken (claims [0x3BB]) = none :=
  ⟨by decide, by decide⟩

/-! ## Store keys -/

theorem getUserDataKey_eq (u c : JSString) :
    getUserDataKey u c = js "financialTracker_" ++ (u ++ (95 :: c)) := by
  have h : js "_" = [95] := by decide
  simp [getUserDataKey, h]

theorem collection_cases {c : JSString} (h : c ∈ collections) :
    c = [116, 114, 97, 110, 115, 97, 99, 116, 105, 111, 110, 115] ∨
      c = [98, 117, 100, 103, 101, 116, 115] ∨ c = [115, 101, 116, 116, 105, 110, 103, 115] := by
  have e : collections = [[116, 114, 97, 110, 115, 97, 99, 116, 105, 111, 110, 115],
      [98, 117, 100, 103, 101, 116, 115], [115, 101, 116, 116, 105, 110, 103, 115]] := by decide
  rw [e] at h
  simpa using h

theorem append_suffix_cancel {u1 u2 t1 t2 : JSString}
    (h : u1 ++ t1 = u2 ++ t2) (hl : t1.length = t2.length) : u1 = u2 ∧ t1 = t2 := by
  have hlen : u1.length = u2.length := by
    have := congrArg List.length h
    simp at this
    omega
  exact List.append_inj h hlen

/-- C9. The keys of the per-user collections are isolated: two of them are
equal only for the same username and the same collection, and none is the
directory key `financialTracker_users` or the session key `financialTracker_jwt`. -/
theorem getUserDataKey_isolated (u1 u2 c1 c2 : JSString)
    (h1 : c1 ∈ collections) (h2 : c2 ∈ collections) :
    (getUserDataKey u1 c1 = getUserDataKey u2 c2 → u1 = u2 ∧ c1 = c2) ∧
      getUserDataKey u1 c1 ≠ usersKey ∧ getUserDataKey u1 c1 ≠ jwtKey := by
  have hU : usersKey = js "financialTracker_" ++ [117, 115, 101, 114, 115] := by decide
  have hJ : jwtKey = js "financialTracker_" ++ [106, 119, 116] := by decide
  refine ⟨?_, ?_, ?_⟩
  · intro h
    rw [getUserDataKey_eq, getUserDataKey_eq] at h
    have h' := List.append_cancel_left h
    have hr := congrArg List.reverse h'
    rcases collection_cases h1 with e1 | e1 | e1 <;> rcases collection_cases h2 with e2 | e2 | e2 <;>
      subst e1 <;> subst e2 <;>
      first
        | exact ⟨(append_suffix_cancel h' rfl).1, rfl⟩
        | simp at hr
  · intro h
    rw [getUserDataKey_eq, hU] at h
    have h' := congrArg List.length (List.append_cancel_left h)
    rcases collection_cases h1 with e1 | e1 | e1 <;> subst e1 <;> simp at h'
  · intro h
    rw [getUserDataKey_eq, hJ] at h
    have h' := congrArg List.length (List.append_cancel_left h)
    rcases collection_cases h1 with e1 | e1 | e1 <;> subst e1 <;> simp at h'

theorem getUserDataKey_isolated_witness :
    js "transactions" ∈ collections ∧ js "settings" ∈ collections ∧
      ((getUserDataKey (js "a_b") (js "transactions") = getUserDataKey (js "users") (js "settings") →
          js "a_b" = js "users" ∧ js "transactions" = js "settings") ∧
        getUserDataKey (js "a_b") (js "transactions") ≠ usersKey ∧
        getUserDataKey (js "a_b") (js "transactions") ≠ jwtKey) :=
  ⟨by decide, by decide, getUserDataKey_isolated _ _ _ _ (by decide) (by decide)⟩

/-! ## The budget upsert -/

theorem findIndex_nonneg {α : Type} (p : α → Bool) (l : List α) :
    0 ≤ findIndex p l ∨ findIndex p l = -1 := by
  induction l with
  | nil => right; rfl
  | cons y ys ihy =>
    unfold findIndex
    split_ifs with a b
    · left; omega
    · right; rfl
    · left
      rcases ihy with h | h
      · omega
      · exact absurd h b

theorem findIndex_eq_neg_one {α : Type} (p : α → Bool) (l : List α) :
    findIndex p l = -1 ↔ ∀ x ∈ l, p x = false := by
  induction l with
  | nil => simp [findIndex]
  | cons x xs ih =>
    unfold findIndex
    by_cases hx : p x = true
    · simp [hx]
    · have hx' : p x = false := by simpa using hx
      by_cases h1 : findIndex p xs = -1
      · simp only [hx', Bool.false_eq_true, if_false, h1, if_true, List.mem_cons,
          forall_eq_or_imp, true_and]
        exact ⟨fun _ => ih.mp h1, fun _ => trivial⟩
      · have hnn : 0 ≤ findIndex p xs := by
          rcases findIndex_nonneg p xs with h | h
          · exact h
          · exact absurd h h1
        have : findIndex p xs + 1 ≠ -1 := by omega
        simp only [hx', Bool.false_eq_true, if_false, h1, List.mem_cons, forall_eq_or_imp,
          true_and]
        constructor
        · intro h; exact absurd h this
        · intro h; exact absurd (ih.mpr h) h1

theorem handleSubmit_rejected {Num : Type} (ops : NumberOps Num) (budgets : List (Budget Num))
    (budgetAmount monthYear : JSString) (h : amountAccepted ops budgetAmount = false) :
    handleSubmit ops budgets budgetAmount monthYear = budgets := by
  unfold amountAccepted at h
  simp only [Bool.not_eq_false'] at h
  unfold handleSubmit
  rw [if_pos h]

theorem upsert_eq_upsertEntry {Num : Type} (newBudget : Budget Num) (budgets : List (Budget Num)) :
    (if findIndex (fun b => decide (b.monthYear = newBudget.monthYear)) budgets ≠ -1 then
        budgets.set (findIndex (fun b => decide (b.monthYear = newBudget.monthYear)) budgets).toNat
          newBudget
      else budgets ++ [newBudget]) = upsertEntry newBudget budgets := by
  induction budgets with
  | nil => simp [findIndex, upsertEntry]
  | cons b bs ih =>
    by_cases hb : b.monthYear = newBudget.monthYear
    · simp [findIndex, upsertEntry, hb]
    · by_cases h1 : findIndex (fun b => decide (b.monthYear = newBudget.monthYear)) bs = -1
      · rw [if_neg (by simpa using h1)] at ih
        simp [findIndex, upsertEntry, hb, h1, ih]
      · rw [if_pos h1] at ih
        have hnn : 0 ≤ findIndex (fun b => decide (b.monthYear = newBudget.monthYear)) bs := by
          rcases findIndex_nonneg (fun b => decide (b.monthYear = newBudget.monthYear)) bs with h | h
          · exact h
          · exact absurd h h1
        have hne : findIndex (fun b => decide (b.monthYear = newBudget.monthYear)) bs + 1 ≠ -1 := by
          omega
        have hnat : (findIndex (fun b => decide (b.monthYear = newBudget.monthYear)) bs + 1).toNat
            = (findIndex (fun b => decide (b.monthYear = newBudget.monthYear)) bs).toNat + 1 := by
          omega
        simp [findIndex, upsertEntry, hb, h1, hne, hnat, ih]

theorem handleSubmit_accepted {Num : Type} (ops : NumberOps Num) (budgets : List (Budget Num))
    (budgetAmount monthYear : JSString) (h : amountAccepted ops budgetAmount = true) :
    handleSubmit ops budgets budgetAmount monthYear =
      upsertEntry { monthYear := monthYear, budgetAmount := ops.parseFloat budgetAmount }
        budgets := by
  unfold amountAccepted at h
  have h' : ¬ ((budgetAmount.isEmpty || ops.isNaN (ops.parseFloat budgetAmount)
      || ops.ltZero (ops.parseFloat budgetAmount)) = true) := by
    intro e
    rw [e] at h
    simp at h
  unfold handleSubmit
  rw [if_neg h']
  exact upsert_eq_upsertEntry
    { monthYear := monthYear, budgetAmount := ops.parseFloat budgetAmount } budgets

theorem mem_upsertEntry {Num : Type} (nb : Budget Num) (bs : List (Budget Num)) (x : Budget Num)
    (h : x ∈ upsertEntry nb bs) : x = nb ∨ x ∈ bs := by
  induction bs with
  | nil => simpa [upsertEntry] using h
  | cons b bs ih =>
    unfold upsertEntry at h
    split_ifs at h with hb
    · rcases List.mem_cons.mp h with h | h
      · exact Or.inl h
      · exact Or.inr (List.mem_cons_of_mem _ h)
    · rcases List.mem_cons.mp h with h | h
      · exact Or.inr (by simp [h])
      · rcases ih h with h | h
        · exact Or.inl h
        · exact Or.inr (List.mem_cons_of_mem _ h)

theorem upsertEntry_nodup {Num : Type} (nb : Budget Num) (bs : List (Budget Num))
    (h : (bs.map (fun b => b.monthYear)).Nodup) :
    ((upsertEntry nb bs).map (fun b => b.monthYear)).Nodup := by
  induction bs with
  | nil => simp [upsertEntry]
  | cons b bs ih =>
    rw [List.map_cons, List.nodup_cons] at h
    unfold upsertEntry
    split_ifs with hb
    · rw [List.map_cons, List.nodup_cons, ← hb]
      exact h
    · rw [List.map_cons, List.nodup_cons]
      refine ⟨?_, ih h.2⟩
      intro hm
      obtain ⟨x, hx, hxe⟩ := List.mem_map.mp hm
      rcases mem_upsertEntry nb bs x hx with e | e
      · subst e
        exact hb hxe.symm
      · exact h.1 (List.mem_map.mpr ⟨x, e, hxe⟩)

theorem filter_upsertEntry {Num : Type} (nb : Budget Num) (bs : List (Budget Num)) (m : JSString)
    (h : (bs.map (fun b => b.monthYear)).Nodup) :
    (upsertEntry nb bs).filter (fun b => decide (b.monthYear = m)) =
      if nb.monthYear = m then [nb] else bs.filter (fun b => decide (b.monthYear = m)) := by
  induction bs with
  | nil =>
    by_cases hm : nb.monthYear = m <;> simp [upsertEntry, hm]
  | cons b bs ih =>
    rw [List.map_cons, List.nodup_cons] at h
    unfold upsertEntry
    split_ifs with hb hm hm
    · have hnone : bs.filter (fun b => decide (b.monthYear = m)) = [] := by
        rw [List.filter_eq_nil_iff]
        intro x hx
        simp only [decide_eq_true_eq]
        intro hxm
        apply h.1
        rw [hb, hm, ← hxm]
        exact List.mem_map.mpr ⟨x, hx, rfl⟩
      simp [hm, hnone]
    · have hbm : b.monthYear ≠ m := fun e => hm (hb ▸ e)
      simp [hm, hbm]
    · have hbm : b.monthYear ≠ m := fun e => hb (e.trans hm.symm)
      simp [hbm, ih h.2, hm]
    · by_cases hbm : b.monthYear = m <;> simp [hbm, ih h.2, hm]

theorem submitAll_append {Num : Type} (ops : NumberOps Num) (budgets : List (Budget Num))
    (inputs : List (JSString × JSString)) (i : JSString × JSString) :
    submitAll ops budgets (inputs ++ [i]) = handleSubmit ops (submitAll ops budgets inputs) i.1 i.2 := by
  simp [submitAll, List.foldl_append]

theorem submitAll_nodup {Num : Type} (ops : NumberOps Num) (inputs : List (JSString × JSString)) :
    ((submitAll ops [] inputs).map (fun b => b.monthYear)).Nodup := by
  induction inputs using List.reverseRecOn with
  | nil => simp [submitAll]
  | append_singleton l i ih =>
    rw [submitAll_append]
    cases ha : amountAccepted ops i.1 with
    | false => rw [handleSubmit_rejected ops _ _ _ ha]; exact ih
    | true => rw [handleSubmit_accepted ops _ _ _ ha]; exact upsertEntry_nodup _ _ ih

/-- C10. Starting from no budgets, after any sequence of submissions of the
budget form the month keys of the collection are pairwise distinct, and the
entries for a month `m` are exactly the one entry made by the last accepted
submission for `m` (none when there was no such submission). -/
theorem submitAll_unique_latest {Num : Type} (ops : NumberOps Num)
    (inputs : List (JSString × JSString)) :
    ((submitAll ops [] inputs).map (fun b => b.monthYear)).Nodup ∧
      ∀ m : JSString,
        (submitAll ops [] inputs).filter (fun b => decide (b.monthYear = m)) =
          ((inputs.filter (fun i => amountAccepted ops i.1 && decide (i.2 = m))).getLast?.map
            (fun i => ({ monthYear := m, budgetAmount := ops.parseFloat i.1 } : Budget Num))).toList := by
  refine ⟨submitAll_nodup ops inputs, ?_⟩
  intro m
  induction inputs using List.reverseRecOn with
  | nil => simp [submitAll]
  | append_singleton l i ih =>
    rw [submitAll_append, List.filter_append]
    cases ha : amountAccepted ops i.1 with
    | false =>
      rw [handleSubmit_rejected ops _ _ _ ha, ih]
      simp [ha]
    | true =>
      rw [handleSubmit_accepted ops _ _ _ ha, filter_upsertEntry _ _ _ (submitAll_nodup ops l)]
      by_cases hm : i.2 = m
      · simp [ha, hm]
      · simp [ha, hm, ih]

/-! ## JSON strings: `parseChars` inverts `quoteUnits` -/

theorem hexValue_hexDigit {n : Nat} (h : n < 16) : hexValue (hexDigit n) = some n := by
  unfold hexValue hexDigit
  split_ifs <;> first | omega | (congr 1; omega)

theorem parseChars_quote_mark (X : JSString) : parseChars (0x22 :: X) = some ([], X) := by
  rw [parseChars.eq_def]
  simp

theorem parseChars_literal {c : Nat} (X : JSString) (h1 : c ≠ 0x22) (h2 : c ≠ 0x5C)
    (h3 : ¬ c < 0x20) : parseChars (c :: X) = consUnit c (parseChars X) := by
  rw [parseChars.eq_def]
  simp [h1, h2, h3]

theorem parseChars_simpleEscape {e u : Nat} (X : JSString) (h : simpleEscape e = some u)
    (he : e ≠ 0x75) : parseChars (0x5C :: e :: X) = consUnit u (parseChars X) := by
  rw [parseChars.eq_def]
  simp [he, h]

theorem parseChars_unicodeEscape {c : Nat} (X : JSString) (h : c < 65536) :
    parseChars (unicodeEscape c ++ X) = consUnit c (parseChars X) := by
  have e : c / 4096 % 16 * 4096 + c / 256 % 16 * 256 + c / 16 % 16 * 16 + c % 16 = c := by omega
  simp only [unicodeEscape, List.cons_append, List.nil_append]
  rw [parseChars.eq_def]
  simp only [show ((0x5C : Nat) = 0x22) = False by decide, if_false, if_true]
  rw [hexValue_hexDigit (by omega), hexValue_hexDigit (by omega), hexValue_hexDigit (by omega),
    hexValue_hexDigit (by omega)]
  simp only [e]

theorem parseChars_escapeOf {c : Nat} {e : JSString} (X : JSString) (h : escapeOf c = some e) :
    parseChars (e ++ X) = consUnit c (parseChars X) := by
  unfold escapeOf at h
  split_ifs at h with h1 h2 h3 h4 h5 h6 h7 h8 <;> cases h
  · subst h1; exact parseChars_simpleEscape X (by decide) (by decide)
  · subst h2; exact parseChars_simpleEscape X (by decide) (by decide)
  · subst h3; exact parseChars_simpleEscape X (by decide) (by decide)
  · subst h4; exact parseChars_simpleEscape X (by decide) (by decide)
  · subst h5; exact parseChars_simpleEscape X (by decide) (by decide)
  · subst h6; exact parseChars_simpleEscape X (by decide) (by decide)
  · subst h7; exact parseChars_simpleEscape X (by decide) (by decide)
  · exact parseChars_unicodeEscape X (by omega)

theorem escapeOf_eq_none {c : Nat} (h : escapeOf c = none) : c ≠ 0x22 ∧ c ≠ 0x5C ∧ ¬ c < 0x20 := by
  unfold escapeOf at h
  split_ifs at h
  exact ⟨by assumption, by assumption, by assumption⟩

theorem parseChars_quoteUnits (s : JSString) :
    ∀ (paired : Bool) (rest : JSString),
      parseChars (quoteUnits paired s ++ 0x22 :: rest) = some (s, rest) := by
  induction s with
  | nil =>
    intro paired rest
    exact parseChars_quote_mark rest
  | cons c cs ih =>
    intro paired rest
    rw [quoteUnits]
    by_cases hp : (paired && isLowSurrogate c) = true
    · rw [if_pos hp]
      have hl : isLowSurrogate c = true := by
        simp only [Bool.and_eq_true] at hp
        exact hp.2
      simp only [isLowSurrogate, Bool.and_eq_true, decide_eq_true_eq] at hl
      rw [List.cons_append, parseChars_literal _ (by omega) (by omega) (by omega), ih]
      rfl
    · rw [if_neg hp]
      cases he : escapeOf c with
      | some e =>
        simp only []
        rw [List.append_assoc, parseChars_escapeOf _ he, ih]
        rfl
      | none =>
        obtain ⟨h1, h2, h3⟩ := escapeOf_eq_none he
        simp only []
        by_cases hh : isHighSurrogate c = true
        · rw [if_pos hh]
          by_cases hn : (cs.head?.map isLowSurrogate).getD false = true
          · rw [if_pos hn, List.cons_append, parseChars_literal _ h1 h2 h3, ih]
            rfl
          · simp only [isHighSurrogate, Bool.and_eq_true, decide_eq_true_eq] at hh
            rw [if_neg hn, List.append_assoc, parseChars_unicodeEscape _ (by omega), ih]
            rfl
        · rw [if_neg hh]
          by_cases hl : isLowSurrogate c = true
          · rw [if_pos hl]
            simp only [isLowSurrogate, Bool.and_eq_true, decide_eq_true_eq] at hl
            rw [List.append_assoc, parseChars_unicodeEscape _ (by omega), ih]
            rfl
          · rw [if_neg hl, List.cons_append, parseChars_literal _ h1 h2 h3, ih]
            rfl

theorem parseChars_quote (s rest : JSString) :
    parseChars (quoteUnits false s ++ [0x22] ++ rest) = some (s, rest) := by
  rw [List.append_assoc, List.singleton_append]
  exact parseChars_quoteUnits s false rest

/-! ## JSON numbers: the scanner reads back a literal it has produced -/

theorem isDigit_iff (c : Nat) : isDigit c = true ↔ 48 ≤ c ∧ c ≤ 57 := by
  simp [isDigit]

theorem isDigit_eq_false_iff (c : Nat) : isDigit c = false ↔ c < 48 ∨ 57 < c := by
  rw [← Bool.not_eq_true, isDigit_iff]
  omega

theorem spanDigits_fst_digits (s : JSString) : ∀ c ∈ (spanDigits s).1, isDigit c = true := by
  induction s with
  | nil => simp [spanDigits]
  | cons a as ih =>
    rw [spanDigits]
    by_cases ha : isDigit a = true
    · rw [if_pos ha]
      intro c hc
      rcases List.mem_cons.mp hc with h | h
      · rw [h]; exact ha
      · exact ih c h
    · rw [if_neg ha]
      simp

theorem spanDigits_append {ds rest : JSString} (hd : ∀ c ∈ ds, isDigit c = true)
    (hr : ∀ c ∈ rest.head?, isDigit c = false) : spanDigits (ds ++ rest) = (ds, rest) := by
  induction ds with
  | nil =>
    cases rest with
    | nil => rfl
    | cons a as =>
      have : isDigit a = false := hr a (by simp)
      rw [List.nil_append, spanDigits]
      simp [this]
  | cons d ds ih =>
    have hd1 : isDigit d = true := hd d (List.mem_cons_self _ _)
    have hd2 : ∀ c ∈ ds, isDigit c = true := fun c hc => hd c (List.mem_cons_of_mem _ hc)
    rw [List.cons_append, spanDigits, if_pos hd1, ih hd2]

theorem scanInt_append {s i r : JSString} (X : JSString) (h : scanInt s = some (i, r))
    (hX : ∀ c ∈ X.head?, isDigit c = false) : scanInt (i ++ X) = some (i, X) := by
  cases s with
  | nil => simp [scanInt] at h
  | cons c rest =>
    rw [scanInt] at h
    by_cases h0 : c = 48
    · rw [if_pos h0] at h
      simp only [Option.some.injEq, Prod.mk.injEq] at h
      rw [← h.1]
      simp [scanInt]
    · rw [if_neg h0] at h
      by_cases hc : isDigit c = true
      · rw [if_pos hc] at h
        simp only [Option.some.injEq, Prod.mk.injEq] at h
        rw [← h.1, List.cons_append, scanInt, if_neg h0, if_pos hc,
          spanDigits_append (spanDigits_fst_digits rest) hX]
      · rw [if_neg hc] at h
        cases h

theorem scanInt_head {s i r : JSString} (h : scanInt s = some (i, r)) :
    ∃ c t, i = c :: t ∧ isDigit c = true := by
  cases s with
  | nil => simp [scanInt] at h
  | cons c rest =>
    rw [scanInt] at h
    by_cases h0 : c = 48
    · rw [if_pos h0] at h
      simp only [Option.some.injEq, Prod.mk.injEq] at h
      exact ⟨48, [], h.1.symm, by decide⟩
    · rw [if_neg h0] at h
      by_cases hc : isDigit c = true
      · rw [if_pos hc] at h
        simp only [Option.some.injEq, Prod.mk.injEq] at h
        exact ⟨c, _, h.1.symm, hc⟩
      · rw [if_neg hc] at h
        cases h

theorem scanFrac_fst (s : JSString) :
    (scanFrac s).1 = [] ∨ ∃ ds, (scanFrac s).1 = 0x2E :: ds ∧ ds ≠ [] ∧ ∀ c ∈ ds, isDigit c = true := by
  cases s with
  | nil => left; rfl
  | cons c rest =>
    unfold scanFrac
    by_cases h : c = 0x2E ∧ (spanDigits rest).1 ≠ []
    · right
      simp only [h, and_self, if_true, ne_eq, not_false_eq_true]
      exact ⟨_, by rw [← h.1], h.2, spanDigits_fst_digits rest⟩
    · left
      simp only [h, if_false]

theorem scanFrac_append (s Y : JSString)
    (hY : ∀ c ∈ Y.head?, isDigit c = false ∧ c ≠ 0x2E) :
    scanFrac ((scanFrac s).1 ++ Y) = ((scanFrac s).1, Y) := by
  rcases scanFrac_fst s with h | ⟨ds, h, hne, hds⟩
  · rw [h, List.nil_append]
    cases Y with
    | nil => rfl
    | cons a as =>
      have : a ≠ 0x2E := (hY a (by simp)).2
      simp [scanFrac, this]
  · rw [h, List.cons_append]
    have hsp : spanDigits (ds ++ Y) = (ds, Y) :=
      spanDigits_append hds (fun c hc => (hY c hc).1)
    simp [scanFrac, hsp, hne]

theorem scanExp_fst (s : JSString) :
    (scanExp s).1 = [] ∨
      ∃ e ds, (e = 0x65 ∨ e = 0x45) ∧ ds ≠ [] ∧ (∀ c ∈ ds, isDigit c = true) ∧
        ((scanExp s).1 = e :: ds ∨ ∃ g, (g = 0x2B ∨ g = 0x2D) ∧ (scanExp s).1 = e :: g :: ds) := by
  cases s with
  | nil => left; rfl
  | cons e rest =>
    unfold scanExp
    by_cases he : e = 0x65 ∨ e = 0x45
    · simp only [he, if_true]
      cases rest with
      | nil => left; rfl
      | cons g rest1 =>
        simp only []
        by_cases hg : (g = 0x2B ∨ g = 0x2D) ∧ (spanDigits rest1).1 ≠ []
        · right
          rw [if_pos hg]
          exact ⟨e, _, he, hg.2, spanDigits_fst_digits rest1, Or.inr ⟨g, hg.1, rfl⟩⟩
        · rw [if_neg hg]
          by_cases hd : (spanDigits (g :: rest1)).1 ≠ []
          · right
            rw [if_pos hd]
            exact ⟨e, _, he, hd, spanDigits_fst_digits _, Or.inl rfl⟩
          · left
            rw [if_neg hd]
    · left
      simp only [he, if_false]

theorem scanExp_append (s Z : JSString)
    (hZ : ∀ c ∈ Z.head?, isDigit c = false ∧ c ≠ 0x65 ∧ c ≠ 0x45) :
    scanExp ((scanExp s).1 ++ Z) = ((scanExp s).1, Z) := by
  rcases scanExp_fst s with h | ⟨e, ds, he, hne, hds, h | ⟨g, hg, h⟩⟩
  · rw [h, List.nil_append]
    cases Z with
    | nil => rfl
    | cons a as =>
      have := hZ a (by simp)
      simp [scanExp, this.2.1, this.2.2]
  · rw [h, List.cons_append]
    have hsp : spanDigits (ds ++ Z) = (ds, Z) :=
      spanDigits_append hds (fun c hc => (hZ c hc).1)
    cases ds with
    | nil => exact absurd rfl hne
    | cons d ds1 =>
      have hd : isDigit d = true := hds d (List.mem_cons_self _ _)
      rw [isDigit_iff] at hd
      have hd1 : ¬ (d = 0x2B ∨ d = 0x2D) := by omega
      rw [List.cons_append] at hsp ⊢
      unfold scanExp
      simp only [he, if_true, hd1, false_and, if_false, hsp, ne_eq, reduceCtorEq,
        not_false_eq_true]
  · rw [h, List.cons_append, List.cons_append]
    have hsp : spanDigits (ds ++ Z) = (ds, Z) :=
      spanDigits_append hds (fun c hc => (hZ c hc).1)
    unfold scanExp
    simp only [he, if_true, hg, true_and, hsp, ne_eq, hne, not_false_eq_true]

theorem scanExp_head (s Z : JSString) (hZ : Delimited Z) :
    ∀ c ∈ ((scanExp s).1 ++ Z).head?, isDigit c = false ∧ c ≠ 0x2E := by
  intro c hc
  rcases scanExp_fst s with h | ⟨e, ds, he, _, _, h | ⟨g, _, h⟩⟩
  · rw [h, List.nil_append] at hc
    have := hZ c hc
    rw [isDigit_eq_false_iff]
    omega
  · rw [h] at hc
    simp only [List.cons_append, List.head?_cons, Option.mem_def, Option.some.injEq] at hc
    rw [isDigit_eq_false_iff]
    omega
  · rw [h] at hc
    simp only [List.cons_append, List.head?_cons, Option.mem_def, Option.some.injEq] at hc
    rw [isDigit_eq_false_iff]
    omega

theorem scanFrac_head (s Y : JSString) (hY : ∀ c ∈ Y.head?, isDigit c = false ∧ c ≠ 0x2E) :
    ∀ c ∈ ((scanFrac s).1 ++ Y).head?, isDigit c = false := by
  intro c hc
  rcases scanFrac_fst s with h | ⟨ds, h, _, _⟩
  · rw [h, List.nil_append] at hc
    exact (hY c hc).1
  · rw [h] at hc
    simp only [List.cons_append, List.head?_cons, Option.mem_def, Option.some.injEq] at hc
    rw [isDigit_eq_false_iff]
    omega

theorem scanUnsigned_append {s l r : JSString} (rest : JSString) (h : scanUnsigned s = some (l, r))
    (hrest : Delimited rest) : scanUnsigned (l ++ rest) = some (l, rest) := by
  unfold scanUnsigned at h
  cases hi : scanInt s with
  | none => simp [hi] at h
  | some p =>
    obtain ⟨i, s1⟩ := p
    simp only [hi, Option.some.injEq, Prod.mk.injEq] at h
    have hZ : ∀ c ∈ rest.head?, isDigit c = false ∧ c ≠ 0x65 ∧ c ≠ 0x45 := by
      intro c hc
      have := hrest c hc
      rw [isDigit_eq_false_iff]
      omega
    have hY := scanExp_head (scanFrac s1).2 rest hrest
    have hX := scanFrac_head s1 _ hY
    have e1 : l ++ rest = i ++ ((scanFrac s1).1 ++ ((scanExp (scanFrac s1).2).1 ++ rest)) := by
      rw [← h.1]
      simp
    rw [e1]
    unfold scanUnsigned
    rw [scanInt_append _ hi hX]
    simp only []
    rw [scanFrac_append s1 _ hY]
    simp only []
    rw [scanExp_append _ rest hZ]
    simp only [h.1]

theorem scanNumber_append {s l r : JSString} (rest : JSString) (h : scanNumber s = some (l, r))
    (hrest : Delimited rest) : scanNumber (l ++ rest) = some (l, rest) := by
  cases s with
  | nil => simp [scanNumber] at h
  | cons c cs =>
    unfold scanNumber at h
    by_cases hc : c = 0x2D
    · simp only [hc, if_true] at h
      cases hu : scanUnsigned cs with
      | none => simp [hu] at h
      | some p =>
        obtain ⟨l1, r1⟩ := p
        simp only [hu, Option.some.injEq, Prod.mk.injEq] at h
        rw [← h.1, List.cons_append]
        unfold scanNumber
        simp only [if_true]
        rw [scanUnsigned_append rest hu hrest]
    · simp only [hc, if_false] at h
      have hu := scanUnsigned_append rest h hrest
      obtain ⟨d, t, hl, hd⟩ : ∃ d t, l = d :: t ∧ isDigit d = true := by
        unfold scanUnsigned at h
        cases hi : scanInt (c :: cs) with
        | none => simp [hi] at h
        | some p =>
          obtain ⟨i, s1⟩ := p
          simp only [hi, Option.some.injEq, Prod.mk.injEq] at h
          obtain ⟨d, t, hi', hd⟩ := scanInt_head hi
          exact ⟨d, t ++ ((scanFrac s1).1 ++ (scanExp (scanFrac s1).2).1), by
            rw [← h.1, hi']; simp, hd⟩
      rw [isDigit_iff] at hd
      have hd' : d ≠ 0x2D := by omega
      rw [hl, List.cons_append] at hu ⊢
      unfold scanNumber
      simp only [hd', if_false]
      exact hu

theorem scanNumber_head {s l r : JSString} (h : scanNumber s = some (l, r)) :
    ∃ c t, l = c :: t ∧ (c = 0x2D ∨ isDigit c = true) := by
  cases s with
  | nil => simp [scanNumber] at h
  | cons c cs =>
    unfold scanNumber at h
    by_cases hc : c = 0x2D
    · simp only [hc, if_true] at h
      cases hu : scanUnsigned cs with
      | none => simp [hu] at h
      | some p =>
        obtain ⟨l1, r1⟩ := p
        simp only [hu, Option.some.injEq, Prod.mk.injEq] at h
        exact ⟨0x2D, l1, h.1.symm, Or.inl rfl⟩
    · simp only [hc, if_false] at h
      unfold scanUnsigned at h
      cases hi : scanInt (c :: cs) with
      | none => simp [hi] at h
      | some p =>
        obtain ⟨i, s1⟩ := p
        simp only [hi, Option.some.injEq, Prod.mk.injEq] at h
        obtain ⟨d, t, hi', hd⟩ := scanInt_head hi
        exact ⟨d, t ++ ((scanFrac s1).1 ++ (scanExp (scanFrac s1).2).1), by
          rw [← h.1, hi']; simp, Or.inr hd⟩

/-! ## Objects: `setProp` and property order -/

theorem arrayIndex?_eq_some {k : JSString} {n : Nat} (h : arrayIndex? k = some n) :
    decimal n = k := by
  unfold arrayIndex? at h
  split_ifs at h with hc
  simp only [Option.some.injEq] at h
  rw [← h]
  exact hc.1

theorem arrayIndex?_inj {k1 k2 : JSString} {n : Nat} (h1 : arrayIndex? k1 = some n)
    (h2 : arrayIndex? k2 = some n) : k1 = k2 := by
  rw [← arrayIndex?_eq_some h1, ← arrayIndex?_eq_some h2]

theorem keyBefore_ne {k1 k2 : JSString} (h : keyBefore k1 k2) : k1 ≠ k2 := by
  intro e
  subst e
  unfold keyBefore at h
  cases ha : arrayIndex? k1 with
  | none => simp [ha] at h
  | some a => simp [ha] at h

theorem getOwn_eq_none_iff (k : JSString) (ms : List (JSString × JSON)) :
    getOwn k ms = none ↔ k ∉ ms.map Prod.fst := by
  induction ms with
  | nil => simp [getOwn]
  | cons m ms ih =>
    obtain ⟨k1, v1⟩ := m
    rw [getOwn]
    by_cases h : k1 = k
    · simp [h]
    · have h' : k ≠ k1 := fun e => h e.symm
      simp [h, h', ih]

theorem map_fst_replaceValue (k : JSString) (v : JSON) (ms : List (JSString × JSON)) :
    (replaceValue k v ms).map Prod.fst = ms.map Prod.fst := by
  induction ms with
  | nil => rfl
  | cons m ms ih =>
    obtain ⟨k1, v1⟩ := m
    rw [replaceValue]
    by_cases h : k1 = k
    · simp [h]
    · simp [h, ih]

theorem getOwn_replaceValue (k k' : JSString) (v : JSON) (ms : List (JSString × JSON))
    (h : k ∈ ms.map Prod.fst) :
    getOwn k' (replaceValue k v ms) = if k' = k then some v else getOwn k' ms := by
  induction ms with
  | nil => simp at h
  | cons m ms ih =>
    obtain ⟨k1, v1⟩ := m
    rw [replaceValue]
    by_cases h1 : k1 = k
    · subst h1
      rw [if_pos rfl, getOwn, getOwn]
      by_cases h2 : k1 = k'
      · simp [h2]
      · have : ¬ k' = k1 := fun e => h2 e.symm
        simp [h2, this]
    · rw [if_neg h1, getOwn, getOwn]
      have hk : k ∈ ms.map Prod.fst := by
        simp only [List.map_cons, List.mem_cons] at h
        rcases h with h | h
        · exact absurd h.symm h1
        · exact h
      by_cases h2 : k1 = k'
      · have : ¬ k' = k := fun e => h1 (h2.trans e)
        simp [h2, this]
      · simp [h2, ih hk]

theorem mem_map_fst_insertIndexed (n : Nat) (k : JSString) (v : JSON)
    (ms : List (JSString × JSON)) (x : JSString) :
    x ∈ (insertIndexed n k v ms).map Prod.fst ↔ x = k ∨ x ∈ ms.map Prod.fst := by
  induction ms with
  | nil => simp [insertIndexed]
  | cons m ms ih =>
    obtain ⟨k1, v1⟩ := m
    rw [insertIndexed]
    cases h1 : arrayIndex? k1 with
    | none => simp
    | some n1 =>
      simp only []
      by_cases hlt : n1 < n
      · rw [if_pos hlt]
        simp only [List.map_cons, List.mem_cons, ih]
        tauto
      · rw [if_neg hlt]
        simp

theorem getOwn_insertIndexed (n : Nat) (k k' : JSString) (v : JSON)
    (ms : List (JSString × JSON)) (h : k ∉ ms.map Prod.fst) :
    getOwn k' (insertIndexed n k v ms) = if k' = k then some v else getOwn k' ms := by
  induction ms with
  | nil =>
    by_cases h1 : k = k'
    · simp [insertIndexed, getOwn, h1]
    · have : ¬ k' = k := fun e => h1 e.symm
      simp [insertIndexed, getOwn, h1, this]
  | cons m ms ih =>
    obtain ⟨k1, v1⟩ := m
    have hk1 : k ≠ k1 := fun e => h (by simp [e])
    have hk : k ∉ ms.map Prod.fst := fun e => h (by simp [e])
    have key : getOwn k' ((k, v) :: (k1, v1) :: ms)
        = if k' = k then some v else getOwn k' ((k1, v1) :: ms) := by
      rw [getOwn]
      by_cases h1 : k = k'
      · simp [h1]
      · have : ¬ k' = k := fun e => h1 e.symm
        simp [h1, this]
    rw [insertIndexed]
    cases h1 : arrayIndex? k1 with
    | none => exact key
    | some n1 =>
      simp only []
      by_cases hlt : n1 < n
      · rw [if_pos hlt, getOwn, ih hk, getOwn]
        by_cases h2 : k1 = k'
        · have : ¬ k' = k := fun e => hk1 (e.symm.trans h2.symm)
          simp [h2, this]
        · simp [h2]
      · rw [if_neg hlt]
        exact key

theorem getOwn_append_singleton (k k' : JSString) (v : JSON) (ms : List (JSString × JSON))
    (h : k ∉ ms.map Prod.fst) :
    getOwn k' (ms ++ [(k, v)]) = if k' = k then some v else getOwn k' ms := by
  induction ms with
  | nil =>
    by_cases h1 : k = k'
    · simp [getOwn, h1]
    · have : ¬ k' = k := fun e => h1 e.symm
      simp [getOwn, h1, this]
  | cons m ms ih =>
    obtain ⟨k1, v1⟩ := m
    have hk1 : k ≠ k1 := fun e => h (by simp [e])
    have hk : k ∉ ms.map Prod.fst := fun e => h (by simp [e])
    rw [List.cons_append, getOwn, ih hk, getOwn]
    by_cases h2 : k1 = k'
    · have : ¬ k' = k := fun e => hk1 (e.symm.trans h2.symm)
      simp [h2, this]
    · simp [h2]

theorem getOwn_setProp (ms : List (JSString × JSON)) (k k' : JSString) (v : JSON) :
    getOwn k' (setProp ms k v) = if k' = k then some v else getOwn k' ms := by
  unfold setProp
  cases h : getOwn k ms with
  | some w =>
    have hk : k ∈ ms.map Prod.fst := by
      by_contra hn
      rw [(getOwn_eq_none_iff k ms).mpr hn] at h
      cases h
    exact getOwn_replaceValue k k' v ms hk
  | none =>
    have hk := (getOwn_eq_none_iff k ms).mp h
    cases hi : arrayIndex? k with
    | some n => exact getOwn_insertIndexed n k k' v ms hk
    | none => exact getOwn_append_singleton k k' v ms hk

theorem canonical_insertIndexed {n : Nat} {k : JSString} (v : JSON)
    {ms : List (JSString × JSON)} (hc : Canonical ms) (hk : k ∉ ms.map Prod.fst)
    (hn : arrayIndex? k = some n) : Canonical (insertIndexed n k v ms) := by
  induction ms with
  | nil => simp [insertIndexed, Canonical]
  | cons m ms ih =>
    obtain ⟨k1, v1⟩ := m
    have hk1 : k ≠ k1 := fun e => hk (by simp [e])
    have hk' : k ∉ ms.map Prod.fst := fun e => hk (by simp [e])
    unfold Canonical at hc
    rw [List.map_cons, List.pairwise_cons] at hc
    obtain ⟨hhead, htail⟩ := hc
    have front : arrayIndex? k1 = none ∨ (∃ n1, arrayIndex? k1 = some n1 ∧ n < n1) →
        Canonical ((k, v) :: (k1, v1) :: ms) := by
      intro hcase
      unfold Canonical
      rw [List.map_cons, List.pairwise_cons]
      refine ⟨?_, ?_⟩
      · intro x hx
        simp only [List.map_cons, List.mem_cons] at hx
        rcases hx with hx | hx
        · subst hx
          rcases hcase with h1 | ⟨n1, h1, hlt⟩
          · simp [keyBefore, hn, h1]
          · simp [keyBefore, hn, h1, hlt]
        · have hb := hhead x hx
          unfold keyBefore at hb ⊢
          rw [hn]
          cases hx2 : arrayIndex? x with
          | none => simp
          | some n2 =>
            rcases hcase with h1 | ⟨n1, h1, hlt⟩
            · simp [h1, hx2] at hb
            · simp only [h1, hx2] at hb
              simp only []
              omega
      · rw [List.map_cons, List.pairwise_cons]
        exact ⟨hhead, htail⟩
    rw [insertIndexed]
    cases h1 : arrayIndex? k1 with
    | none => exact front (Or.inl h1)
    | some n1 =>
      simp only []
      by_cases hlt : n1 < n
      · rw [if_pos hlt]
        unfold Canonical
        rw [List.map_cons, List.pairwise_cons]
        refine ⟨?_, ih htail hk'⟩
        intro x hx
        rcases (mem_map_fst_insertIndexed n k v ms x).mp hx with hx | hx
        · subst hx
          simp [keyBefore, h1, hn, hlt]
        · exact hhead x hx
      · rw [if_neg hlt]
        have hne : n ≠ n1 := fun e => hk1 (arrayIndex?_inj hn (e ▸ h1))
        exact front (Or.inr ⟨n1, h1, by omega⟩)

theorem canonical_setProp {ms : List (JSString × JSON)} (hc : Canonical ms) (k : JSString)
    (v : JSON) : Canonical (setProp ms k v) := by
  unfold setProp
  cases h : getOwn k ms with
  | some w =>
    simp only []
    unfold Canonical
    rw [map_fst_replaceValue]
    exact hc
  | none =>
    have hk := (getOwn_eq_none_iff k ms).mp h
    cases hi : arrayIndex? k with
    | some n => exact canonical_insertIndexed v hc hk hi
    | none =>
      simp only []
      unfold Canonical
      rw [List.map_append, List.pairwise_append]
      refine ⟨hc, by simp, ?_⟩
      intro a ha b hb
      simp only [List.map_cons, List.map_nil, List.mem_singleton] at hb
      subst hb
      unfold keyBefore
      rw [hi]
      cases ha2 : arrayIndex? a with
      | none =>
        simp only []
        intro e
        exact hk (e ▸ ha)
      | some n2 => simp

theorem insertIndexed_append {n : Nat} {k : JSString} (v : JSON) (P : List (JSString × JSON))
    (h : ∀ a ∈ P.map Prod.fst, ∃ na, arrayIndex? a = some na ∧ na < n) :
    insertIndexed n k v P = P ++ [(k, v)] := by
  induction P with
  | nil => rfl
  | cons m P ih =>
    obtain ⟨k1, v1⟩ := m
    obtain ⟨n1, h1, hlt⟩ := h k1 (by simp)
    have h' : ∀ a ∈ P.map Prod.fst, ∃ na, arrayIndex? a = some na ∧ na < n :=
      fun a ha => h a (by simp [ha])
    rw [insertIndexed, h1]
    simp only []
    rw [if_pos hlt, ih h', List.cons_append]

theorem setProp_append_singleton {P : List (JSString × JSON)} {k : JSString} {v : JSON}
    (hc : Canonical (P ++ [(k, v)])) : setProp P k v = P ++ [(k, v)] := by
  unfold Canonical at hc
  rw [List.map_append, List.pairwise_append] at hc
  obtain ⟨_, _, hbefore⟩ := hc
  have hb : ∀ a ∈ P.map Prod.fst, keyBefore a k := fun a ha => hbefore a ha k (by simp)
  have hk : k ∉ P.map Prod.fst := fun hm => keyBefore_ne (hb k hm) rfl
  unfold setProp
  rw [(getOwn_eq_none_iff k P).mpr hk]
  cases hi : arrayIndex? k with
  | none => rfl
  | some n =>
    simp only []
    apply insertIndexed_append
    intro a ha
    have := hb a ha
    unfold keyBefore at this
    rw [hi] at this
    cases ha2 : arrayIndex? a with
    | none => simp [ha2] at this
    | some na =>
      simp only [ha2] at this
      exact ⟨na, rfl, this⟩

/-! ## `JSON.parse` inverts `JSON.stringify` -/

theorem skipWs_cons {c : Nat} (s : JSString) (h : isJsonWhitespace c = false) :
    skipWs (c :: s) = c :: s := by
  rw [skipWs]
  simp [h]

theorem delimited_elementsTail (xs : List JSON) (rest : JSString) :
    Delimited (JSON.stringify.elementsTail xs ++ rest) := by
  intro c hc
  cases xs with
  | nil =>
    simp only [JSON.stringify.elementsTail, List.cons_append, List.head?_cons, Option.mem_def,
      Option.some.injEq] at hc
    omega
  | cons x xs =>
    simp only [JSON.stringify.elementsTail, List.cons_append, List.head?_cons, Option.mem_def,
      Option.some.injEq] at hc
    omega

theorem delimited_membersTail (ms : List (JSString × JSON)) (rest : JSString) :
    Delimited (JSON.stringify.membersTail ms ++ rest) := by
  intro c hc
  cases ms with
  | nil =>
    simp only [JSON.stringify.membersTail, List.cons_append, List.head?_cons, Option.mem_def,
      Option.some.injEq] at hc
    omega
  | cons m ms =>
    obtain ⟨k, v⟩ := m
    simp only [JSON.stringify.membersTail, List.cons_append, List.head?_cons, Option.mem_def,
      Option.some.injEq] at hc
    omega

theorem delimited_nil : Delimited [] := by
  intro c hc
  simp at hc

theorem stringify_head (v : JSON) (hv : v.WF) :
    ∃ c t, v.stringify = c :: t ∧ isJsonWhitespace c = false ∧ c ≠ 0x5D := by
  cases v with
  | null => exact ⟨_, _, rfl, by decide, by decide⟩
  | bool b => cases b <;> exact ⟨_, _, rfl, by decide, by decide⟩
  | num l =>
    obtain ⟨c, t, hl, hc⟩ := scanNumber_head hv
    refine ⟨c, t, hl, ?_, ?_⟩
    · rcases hc with hc | hc
      · subst hc; decide
      · rw [isDigit_iff] at hc
        simp only [isJsonWhitespace, Bool.or_eq_false_iff, decide_eq_false_iff_not]
        omega
    · rcases hc with hc | hc
      · subst hc; decide
      · rw [isDigit_iff] at hc
        omega
  | str s => exact ⟨_, _, rfl, by decide, by decide⟩
  | arr xs =>
    cases xs with
    | nil => exact ⟨_, _, rfl, by decide, by decide⟩
    | cons x xs => exact ⟨_, _, rfl, by decide, by decide⟩
  | obj ms =>
    cases ms with
    | nil => exact ⟨_, _, rfl, by decide, by decide⟩
    | cons m ms =>
      obtain ⟨k, w⟩ := m
      exact ⟨_, _, rfl, by decide, by decide⟩

theorem JSON.size_pos (v : JSON) : 1 ≤ v.size := by
  cases v <;> simp [JSON.size]

theorem canonical_init {acc : List (JSString × JSON)} {m : JSString × JSON}
    {ms : List (JSString × JSON)} (h : Canonical (acc ++ m :: ms)) : Canonical (acc ++ [m]) := by
  unfold Canonical at h ⊢
  refine List.Pairwise.sublist ?_ h
  apply List.Sublist.map
  apply List.Sublist.append_left
  exact List.Sublist.cons₂ _ (List.nil_sublist _)

theorem parse_stringify_aux (fuel : Nat) :
    (∀ (v : JSON) (rest : JSString), v.WF → v.size ≤ fuel → Delimited rest →
        parseValue fuel (v.stringify ++ rest) = some (v, rest)) ∧
    (∀ (x : JSON) (xs acc : List JSON) (rest : JSString), x.WF → JSON.WF.wfList xs →
        JSON.size.sizeList (x :: xs) ≤ fuel →
        parseElements fuel acc (x.stringify ++ (JSON.stringify.elementsTail xs ++ rest))
          = some (.arr (acc.reverse ++ x :: xs), rest)) ∧
    (∀ (k : JSString) (v : JSON) (ms acc : List (JSString × JSON)) (rest : JSString),
        v.WF → JSON.WF.wfMembers ms → Canonical (acc ++ (k, v) :: ms) →
        JSON.size.sizeMembers ((k, v) :: ms) ≤ fuel →
        parseMembers fuel acc
            (0x22 :: (quoteUnits false k ++ [0x22] ++
              0x3A :: (v.stringify ++ (JSON.stringify.membersTail ms ++ rest))))
          = some (.obj (acc ++ (k, v) :: ms), rest)) := by
  induction fuel with
  | zero =>
    refine ⟨?_, ?_, ?_⟩
    · intro v rest _ hs _
      have := JSON.size_pos v
      omega
    · intro x xs acc rest _ _ hs
      simp only [JSON.size.sizeList] at hs
      omega
    · intro k v ms acc rest _ _ _ hs
      simp only [JSON.size.sizeMembers] at hs
      omega
  | succ fuel ih =>
    obtain ⟨ihV, ihE, ihM⟩ := ih
    refine ⟨?_, ?_, ?_⟩
    · intro v rest hv hs hr
      cases v with
      | null =>
        rw [parseValue]
        simp [JSON.stringify, skipWs, isJsonWhitespace, afterLiteral]
      | bool b =>
        cases b <;> rw [parseValue] <;>
          simp [JSON.stringify, skipWs, isJsonWhitespace, afterLiteral]
      | num l =>
        obtain ⟨c, t, hl, hc⟩ := scanNumber_head hv
        have hscan := scanNumber_append rest hv hr
        have hws : isJsonWhitespace c = false := by
          rcases hc with hc | hc
          · subst hc; decide
          · rw [isDigit_iff] at hc
            simp only [isJsonWhitespace, Bool.or_eq_false_iff, decide_eq_false_iff_not]
            omega
        have hne : c ≠ 0x7B ∧ c ≠ 0x5B ∧ c ≠ 0x22 ∧ c ≠ 0x74 ∧ c ≠ 0x66 ∧ c ≠ 0x6E := by
          rcases hc with hc | hc
          · subst hc; decide
          · rw [isDigit_iff] at hc
            omega
        simp only [JSON.stringify]
        rw [hl, List.cons_append] at hscan ⊢
        rw [parseValue, skipWs_cons _ hws]
        simp only [hne.1, hne.2.1, hne.2.2.1, hne.2.2.2.1, hne.2.2.2.2.1, hne.2.2.2.2.2, if_false,
          hscan]
      | str s =>
        rw [parseValue]
        simp only [JSON.stringify, quote, List.cons_append]
        rw [skipWs_cons _ (by decide)]
        simp only [show ((0x22 : Nat) = 0x7B) = False by decide,
          show ((0x22 : Nat) = 0x5B) = False by decide, if_false, if_true]
        rw [parseChars_quote]
      | arr xs =>
        cases xs with
        | nil =>
          rw [parseValue]
          simp [JSON.stringify, skipWs, isJsonWhitespace]
        | cons x xs =>
          simp only [JSON.WF, JSON.WF.wfList] at hv
          simp only [JSON.size, JSON.size.sizeList] at hs
          obtain ⟨c, t, hx, hws, hcl⟩ := stringify_head x hv.1
          have hE := ihE x xs [] rest hv.1 hv.2 (by simp only [JSON.size.sizeList]; omega)
          rw [parseValue]
          simp only [JSON.stringify, List.cons_append, List.append_assoc]
          rw [skipWs_cons _ (by decide)]
          simp only [show ((0x5B : Nat) = 0x7B) = False by decide, if_false, if_true]
          rw [hx, List.cons_append] at hE ⊢
          rw [skipWs_cons _ hws]
          simp only [hcl, if_false]
          rw [hE]
          simp
      | obj ms =>
        cases ms with
        | nil =>
          rw [parseValue]
          simp [JSON.stringify, skipWs, isJsonWhitespace]
        | cons m ms =>
          obtain ⟨k, w⟩ := m
          simp only [JSON.WF, JSON.WF.wfMembers] at hv
          simp only [JSON.size, JSON.size.sizeMembers] at hs
          have hM := ihM k w ms [] rest hv.2.1 hv.2.2 (by simpa using hv.1)
            (by simp only [JSON.size.sizeMembers]; omega)
          rw [parseValue]
          simp only [JSON.stringify, quote, List.cons_append, List.append_assoc]
          rw [skipWs_cons _ (by decide)]
          simp only [if_true]
          rw [skipWs_cons _ (by decide)]
          simp only [show ((0x22 : Nat) = 0x7D) = False by decide, if_false]
          simp only [List.append_assoc, List.cons_append, List.nil_append,
            List.singleton_append] at hM ⊢
          rw [hM]
    · intro x xs acc rest hx hxs hs
      simp only [JSON.size.sizeList] at hs
      rw [parseElements, ihV x _ hx (by omega) (delimited_elementsTail xs rest)]
      simp only []
      cases xs with
      | nil =>
        simp only [JSON.stringify.elementsTail, List.cons_append, List.nil_append]
        rw [skipWs_cons _ (by decide)]
        simp
      | cons y ys =>
        simp only [JSON.WF.wfList] at hxs
        simp only [JSON.size.sizeList] at hs
        simp only [JSON.stringify.elementsTail, List.cons_append, List.append_assoc]
        rw [skipWs_cons _ (by decide)]
        simp only [if_true]
        rw [ihE y ys (x :: acc) rest hxs.1 hxs.2 (by simp only [JSON.size.sizeList]; omega)]
        simp
    · intro k v ms acc rest hv hms hc hs
      simp only [JSON.size.sizeMembers] at hs
      have hset : setProp acc k v = acc ++ [(k, v)] :=
        setProp_append_singleton (canonical_init hc)
      rw [parseMembers, skipWs_cons _ (by decide)]
      simp only [if_true]
      rw [parseChars_quote]
      simp only []
      rw [skipWs_cons _ (by decide)]
      simp only [if_true]
      rw [ihV v _ hv (by omega) (delimited_membersTail ms rest)]
      simp only []
      cases ms with
      | nil =>
        simp only [JSON.stringify.membersTail, List.cons_append, List.nil_append]
        rw [skipWs_cons _ (by decide)]
        simp [hset]
      | cons m2 ms2 =>
        obtain ⟨k2, v2⟩ := m2
        simp only [JSON.WF.wfMembers] at hms
        simp only [JSON.size.sizeMembers] at hs
        simp only [JSON.stringify.membersTail, quote, List.cons_append, List.append_assoc]
        rw [skipWs_cons _ (by decide)]
        simp only [if_true, hset]
        have hM := ihM k2 v2 ms2 (acc ++ [(k, v)]) rest hms.1 hms.2 (by simpa using hc)
          (by simp only [JSON.size.sizeMembers]; omega)
        simp only [List.append_assoc, List.cons_append, List.nil_append,
          List.singleton_append] at hM ⊢
        rw [hM]

theorem parseValue_stringify (v : JSON) (hv : v.WF) (fuel : Nat) (hf : v.size ≤ fuel)
    (rest : JSString) (hr : Delimited rest) :
    parseValue fuel (v.stringify ++ rest) = some (v, rest) :=
  (parse_stringify_aux fuel).1 v rest hv hf hr

theorem size_le_length (n : Nat) :
    (∀ v : JSON, v.size ≤ n → v.WF → v.size ≤ v.stringify.length) ∧
    (∀ xs : List JSON, JSON.size.sizeList xs ≤ n → JSON.WF.wfList xs →
        1 + JSON.size.sizeList xs ≤ (JSON.stringify.elementsTail xs).length) ∧
    (∀ ms : List (JSString × JSON), JSON.size.sizeMembers ms ≤ n → JSON.WF.wfMembers ms →
        1 + JSON.size.sizeMembers ms ≤ (JSON.stringify.membersTail ms).length) := by
  induction n with
  | zero =>
    refine ⟨?_, ?_, ?_⟩
    · intro v hs _
      have := JSON.size_pos v
      omega
    · intro xs hs _
      cases xs with
      | nil => simp [JSON.size.sizeList, JSON.stringify.elementsTail]
      | cons x xs => simp only [JSON.size.sizeList] at hs; omega
    · intro ms hs _
      cases ms with
      | nil => simp [JSON.size.sizeMembers, JSON.stringify.membersTail]
      | cons m ms => obtain ⟨k, v⟩ := m; simp only [JSON.size.sizeMembers] at hs; omega
  | succ n ih =>
    obtain ⟨ihV, ihE, ihM⟩ := ih
    refine ⟨?_, ?_, ?_⟩
    · intro v hs hv
      cases v with
      | null => simp [JSON.size, JSON.stringify]
      | bool b => cases b <;> simp [JSON.size, JSON.stringify]
      | num l =>
        obtain ⟨c, t, hl, _⟩ := scanNumber_head hv
        simp [JSON.size, JSON.stringify, hl]
      | str s => simp [JSON.size, JSON.stringify, quote]
      | arr xs =>
        cases xs with
        | nil => simp [JSON.size, JSON.stringify, JSON.size.sizeList]
        | cons x xs =>
          simp only [JSON.WF, JSON.WF.wfList] at hv
          simp only [JSON.size, JSON.size.sizeList] at hs ⊢
          have h1 := ihV x (by omega) hv.1
          have h2 := ihE xs (by omega) hv.2
          simp only [JSON.stringify, List.length_cons, List.length_append]
          omega
      | obj ms =>
        cases ms with
        | nil => simp [JSON.size, JSON.stringify, JSON.size.sizeMembers]
        | cons m ms =>
          obtain ⟨k, w⟩ := m
          simp only [JSON.WF, JSON.WF.wfMembers] at hv
          simp only [JSON.size, JSON.size.sizeMembers] at hs ⊢
          have h1 := ihV w (by omega) hv.2.1
          have h2 := ihM ms (by omega) hv.2.2
          simp only [JSON.stringify, List.length_cons, List.length_append]
          omega
    · intro xs hs hxs
      cases xs with
      | nil => simp [JSON.size.sizeList, JSON.stringify.elementsTail]
      | cons x xs =>
        simp only [JSON.WF.wfList] at hxs
        simp only [JSON.size.sizeList] at hs ⊢
        have h1 := ihV x (by omega) hxs.1
        have h2 := ihE xs (by omega) hxs.2
        simp only [JSON.stringify.elementsTail, List.length_cons, List.length_append]
        omega
    · intro ms hs hms
      cases ms with
      | nil => simp [JSON.size.sizeMembers, JSON.stringify.membersTail]
      | cons m ms =>
        obtain ⟨k, w⟩ := m
        simp only [JSON.WF.wfMembers] at hms
        simp only [JSON.size.sizeMembers] at hs ⊢
        have h1 := ihV w (by omega) hms.1
        have h2 := ihM ms (by omega) hms.2
        simp only [JSON.stringify.membersTail, List.length_cons, List.length_append]
        omega

/-- For a well-formed value, `JSON.parse (JSON.stringify v) = v`. -/
theorem JSON.parse_stringify (v : JSON) (hv : v.WF) : JSON.parse v.stringify = some v := by
  have hsize : v.size ≤ v.stringify.length := (size_le_length v.size).1 v (le_refl _) hv
  have h := parseValue_stringify v hv (v.stringify.length + 1) (by omega) [] delimited_nil
  rw [List.append_nil] at h
  unfold JSON.parse
  rw [h]
  simp [skipWs]

/-! ## What `JSON.parse` returns is well formed -/

theorem wfList_iff (xs : List JSON) : JSON.WF.wfList xs ↔ ∀ x ∈ xs, x.WF := by
  induction xs with
  | nil => simp [JSON.WF.wfList]
  | cons x xs ih => simp [JSON.WF.wfList, ih]

theorem wfMembers_iff (ms : List (JSString × JSON)) :
    JSON.WF.wfMembers ms ↔ ∀ m ∈ ms, m.2.WF := by
  induction ms with
  | nil => simp [JSON.WF.wfMembers]
  | cons m ms ih =>
    obtain ⟨k, v⟩ := m
    simp [JSON.WF.wfMembers, ih]

theorem mem_replaceValue {k : JSString} {v : JSON} {ms : List (JSString × JSON)}
    {m : JSString × JSON} (h : m ∈ replaceValue k v ms) : m.2 = v ∨ m ∈ ms := by
  induction ms with
  | nil => simp [replaceValue] at h
  | cons m1 ms ih =>
    obtain ⟨k1, v1⟩ := m1
    rw [replaceValue] at h
    by_cases hk : k1 = k
    · rw [if_pos hk] at h
      rcases List.mem_cons.mp h with h | h
      · left; rw [h]
      · right; exact List.mem_cons_of_mem _ h
    · rw [if_neg hk] at h
      rcases List.mem_cons.mp h with h | h
      · right; rw [h]; exact List.mem_cons_self _ _
      · rcases ih h with h | h
        · left; exact h
        · right; exact List.mem_cons_of_mem _ h

theorem mem_insertIndexed {n : Nat} {k : JSString} {v : JSON} {ms : List (JSString × JSON)}
    {m : JSString × JSON} (h : m ∈ insertIndexed n k v ms) : m = (k, v) ∨ m ∈ ms := by
  induction ms with
  | nil => simpa [insertIndexed] using h
  | cons m1 ms ih =>
    obtain ⟨k1, v1⟩ := m1
    rw [insertIndexed] at h
    cases h1 : arrayIndex? k1 with
    | none =>
      simp only [h1] at h
      rcases List.mem_cons.mp h with h | h
      · left; exact h
      · right; exact h
    | some n1 =>
      simp only [h1] at h
      by_cases hlt : n1 < n
      · rw [if_pos hlt] at h
        rcases List.mem_cons.mp h with h | h
        · right; rw [h]; exact List.mem_cons_self _ _
        · rcases ih h with h | h
          · left; exact h
          · right; exact List.mem_cons_of_mem _ h
      · rw [if_neg hlt] at h
        rcases List.mem_cons.mp h with h | h
        · left; exact h
        · right; exact h

theorem mem_setProp {k : JSString} {v : JSON} {ms : List (JSString × JSON)}
    {m : JSString × JSON} (h : m ∈ setProp ms k v) : m.2 = v ∨ m ∈ ms := by
  unfold setProp at h
  cases hg : getOwn k ms with
  | some w =>
    simp only [hg] at h
    exact mem_replaceValue h
  | none =>
    simp only [hg] at h
    cases hi : arrayIndex? k with
    | some n =>
      simp only [hi] at h
      rcases mem_insertIndexed h with h | h
      · left; rw [h]
      · right; exact h
    | none =>
      simp only [hi] at h
      rcases List.mem_append.mp h with h | h
      · right; exact h
      · left
        simp only [List.mem_singleton] at h
        rw [h]

theorem wfMembers_setProp {k : JSString} {v : JSON} {ms : List (JSString × JSON)}
    (hms : JSON.WF.wfMembers ms) (hv : v.WF) : JSON.WF.wfMembers (setProp ms k v) := by
  rw [wfMembers_iff] at hms ⊢
  intro m hm
  rcases mem_setProp hm with h | h
  · rw [h]; exact hv
  · exact hms m h

theorem scanNumber_wf {s l r : JSString} (h : scanNumber s = some (l, r)) :
    scanNumber l = some (l, []) := by
  have := scanNumber_append [] h delimited_nil
  rwa [List.append_nil] at this

theorem parse_wf_aux (fuel : Nat) :
    (∀ (input : JSString) (v : JSON) (rest : JSString),
        parseValue fuel input = some (v, rest) → v.WF) ∧
    (∀ (acc : List JSON) (input : JSString) (v : JSON) (rest : JSString),
        JSON.WF.wfList acc → parseElements fuel acc input = some (v, rest) → v.WF) ∧
    (∀ (acc : List (JSString × JSON)) (input : JSString) (v : JSON) (rest : JSString),
        Canonical acc → JSON.WF.wfMembers acc →
        parseMembers fuel acc input = some (v, rest) → v.WF) := by
  induction fuel with
  | zero =>
    refine ⟨?_, ?_, ?_⟩
    · intro input v rest h
      simp [parseValue] at h
    · intro acc input v rest _ h
      simp [parseElements] at h
    · intro acc input v rest _ _ h
      simp [parseMembers] at h
  | succ fuel ih =>
    obtain ⟨ihV, ihE, ihM⟩ := ih
    refine ⟨?_, ?_, ?_⟩
    · intro input v rest h
      rw [parseValue] at h
      split at h
      · cases h
      · rename_i c rest0 _
        split_ifs at h with h1 h2 h3 h4 h5 h6
        · split at h
          · cases h
          · split_ifs at h
            · cases h
              simp [JSON.WF, JSON.WF.wfMembers, Canonical]
            · exact ihM _ _ _ _ (by simp [Canonical]) (by simp [JSON.WF.wfMembers]) h
        · split at h
          · cases h
          · split_ifs at h
            · cases h
              simp [JSON.WF, JSON.WF.wfList]
            · exact ihE _ _ _ _ (by simp [JSON.WF.wfList]) h
        · split at h
          · cases h
            simp [JSON.WF]
          · cases h
        · split at h
          · cases h
            simp [JSON.WF]
          · cases h
        · split at h
          · cases h
            simp [JSON.WF]
          · cases h
        · split at h
          · cases h
            simp [JSON.WF]
          · cases h
        · split at h
          · rename_i l rest1 hs
            cases h
            simp only [JSON.WF]
            exact scanNumber_wf hs
          · cases h
    · intro acc input v rest hacc h
      rw [parseElements] at h
      split at h
      · cases h
      · rename_i w rest0 hw
        have hwf := ihV _ _ _ hw
        split at h
        · cases h
        · split_ifs at h
          · exact ihE _ _ _ _ (by simp only [JSON.WF.wfList]; exact ⟨hwf, hacc⟩) h
          · cases h
            simp only [JSON.WF]
            rw [wfList_iff] at hacc ⊢
            intro x hx
            simp only [List.reverse_cons, List.mem_append, List.mem_reverse,
              List.mem_singleton] at hx
            rcases hx with hx | hx
            · exact hacc x hx
            · rw [hx]; exact hwf
    · intro acc input v rest hc hacc h
      rw [parseMembers] at h
      split at h
      · cases h
      · split_ifs at h
        · split at h
          · cases h
          · split at h
            · cases h
            · split_ifs at h
              · split at h
                · cases h
                · rename_i w rest3 hw
                  have hwf := ihV _ _ _ hw
                  split at h
                  · cases h
                  · split_ifs at h
                    · exact ihM _ _ _ _ (canonical_setProp hc _ _) (wfMembers_setProp hacc hwf) h
                    · cases h
                      simp only [JSON.WF]
                      exact ⟨canonical_setProp hc _ _, wfMembers_setProp hacc hwf⟩

/-- Every value returned by `JSON.parse` is well formed. -/
theorem JSON.parse_wf {text : JSString} {v : JSON} (h : JSON.parse text = some v) : v.WF := by
  unfold JSON.parse at h
  split at h
  · cases h
  · rename_i w rest hw
    split_ifs at h
    · cases h
      exact (parse_wf_aux _).1 _ _ _ hw

/-! ## The user directory -/

theorem usersKey_ne_jwtKey : usersKey ≠ jwtKey := by decide

theorem directory_eq_some {store : Store} {users : List (JSString × JSON)} :
    directory store = some users ↔
      JSON.parse (getItemOr store usersKey (js "{}")) = some (.obj users) := by
  unfold directory
  constructor
  · intro h
    split at h
    · rename_i u hu
      cases h
      exact hu
    · cases h
  · intro h
    rw [h]

theorem getItemOr_setItem_same (store : Store) (key fallback : JSString) {value : JSString}
    (h : value ≠ []) : getItemOr (setItem store key value) key fallback = value := by
  unfold getItemOr setItem
  simp only [if_true]
  cases value with
  | nil => exact absurd rfl h
  | cons c cs => rfl

theorem getItemOr_setItem_other (store : Store) {key key' : JSString} (fallback value : JSString)
    (h : key ≠ key') : getItemOr (setItem store key' value) key fallback
      = getItemOr store key fallback := by
  unfold getItemOr setItem
  simp only [h, if_false]

theorem getItemOr_removeItem_other (store : Store) {key key' : JSString} (fallback : JSString)
    (h : key ≠ key') : getItemOr (removeItem store key') key fallback
      = getItemOr store key fallback := by
  unfold getItemOr removeItem
  simp only [h, if_false]

theorem directory_setItem_jwt (store : Store) (token : JSString) :
    directory (setItem store jwtKey token) = directory store := by
  unfold directory
  rw [getItemOr_setItem_other store _ _ usersKey_ne_jwtKey]

theorem directory_removeItem_jwt (store : Store) :
    directory (removeItem store jwtKey) = directory store := by
  unfold directory
  rw [getItemOr_removeItem_other store _ usersKey_ne_jwtKey]

theorem stringify_obj_ne_nil (ms : List (JSString × JSON)) : (JSON.obj ms).stringify ≠ [] := by
  cases ms with
  | nil => simp [JSON.stringify]
  | cons m ms =>
    obtain ⟨k, v⟩ := m
    simp [JSON.stringify]

theorem directory_wf {store : Store} {users : List (JSString × JSON)}
    (h : directory store = some users) : Canonical users ∧ JSON.WF.wfMembers users := by
  have := JSON.parse_wf (directory_eq_some.mp h)
  simpa [JSON.WF] using this

theorem credential_wf (password : JSString) : (credential password).WF := by
  simp [credential, JSON.WF, JSON.WF.wfMembers, Canonical]

/-- Writing the directory extended by one credential and reading it back gives
the extended directory. -/
theorem directory_after_write {store : Store} {users : List (JSString × JSON)}
    (h : directory store = some users) (username password : JSString) :
    directory (setItem store usersKey
        (JSON.stringify (.obj (setProp users username (credential password)))))
      = some (setProp users username (credential password)) := by
  obtain ⟨hc, hw⟩ := directory_wf h
  have hwf : (JSON.obj (setProp users username (credential password))).WF := by
    simp only [JSON.WF]
    exact ⟨canonical_setProp hc _ _, wfMembers_setProp hw (credential_wf password)⟩
  rw [directory_eq_some, getItemOr_setItem_same _ _ _ (stringify_obj_ne_nil _)]
  exact JSON.parse_stringify _ hwf

theorem signup_of_directory {st : AppState} {users : List (JSString × JSON)}
    (h : directory st.store = some users) (username password : JSString) :
    signup st username password =
      if (getProperty users username).truthy then { completion := .returned false, state := st }
      else
        match signToken (claims username) with
        | none =>
          { completion := .threw
            state := { st with
              store := setItem st.store usersKey
                (JSON.stringify (.obj (setProp users username (credential password)))) } }
        | some token =>
          { completion := .returned true
            state := { st with
              store := setItem (setItem st.store usersKey
                (JSON.stringify (.obj (setProp users username (credential password)))))
                jwtKey token
              currentUser := some (.str username)
              isAuthenticated := true } } := by
  unfold signup
  rw [directory_eq_some.mp h]
  simp only [credential]

theorem login_of_directory {st : AppState} {users : List (JSString × JSON)}
    (h : directory st.store = some users) (username password : JSString) :
    login st username password =
      if (getProperty users username).truthy
          && (getProperty users username).password.strictEqualsString password then
        match signToken (claims username) with
        | none => { completion := .threw, state := st }
        | some token =>
          { completion := .returned true
            state := { st with
              store := setItem st.store jwtKey token
              currentUser := some (.str username)
              isAuthenticated := true } }
      else { completion := .returned false, state := st } := by
  unfold login
  rw [directory_eq_some.mp h]

theorem password_not_builtin : js "password" ∉ objectPrototypeKeys := by decide

/-- The test of line 1020 holds exactly when the directory stores `password`
for `username`. -/
theorem credential_test_iff (users : List (JSString × JSON)) (username password : JSString) :
    ((getProperty users username).truthy
        && (getProperty users username).password.strictEqualsString password) = true ↔
      storedPassword users username = some password := by
  unfold getProperty storedPassword
  cases hg : getOwn username users with
  | none =>
    by_cases hb : username ∈ objectPrototypeKeys
    · simp [hb, Property.truthy, Property.password, Property.strictEqualsString]
    · simp [hb, Property.truthy, Property.password, Property.strictEqualsString]
  | some v =>
    cases v with
    | obj entry =>
      simp only [Property.truthy, JSON.truthy, Property.password, Bool.true_and]
      unfold getProperty
      cases hp : getOwn (js "password") entry with
      | none => simp [password_not_builtin, Property.strictEqualsString]
      | some w =>
        cases w <;> simp [Property.strictEqualsString]
    | null => simp [Property.truthy, Property.password, Property.strictEqualsString]
    | bool b => simp [Property.truthy, Property.password, Property.strictEqualsString]
    | num l => simp [Property.truthy, Property.password, Property.strictEqualsString]
    | str s => simp [Property.truthy, Property.password, Property.strictEqualsString]
    | arr xs => simp [Property.truthy, Property.password, Property.strictEqualsString]

/-- When the directory is an object, `login` returns `true` exactly when the
directory stores the supplied password for the username and `signToken` does
not throw. -/
theorem login_returned_true_iff {st : AppState} {users : List (JSString × JSON)}
    (h : directory st.store = some users) (username password : JSString) :
    (login st username password).completion = .returned true ↔
      storedPassword users username = some password ∧ signToken (claims username) ≠ none := by
  rw [login_of_directory h, ← credential_test_iff]
  by_cases ht : ((getProperty users username).truthy
      && (getProperty users username).password.strictEqualsString password) = true
  · rw [if_pos ht]
    cases hs : signToken (claims username) <;> simp [ht]
  · rw [if_neg ht]
    simp [ht]

theorem storedPassword_truthy {users : List (JSString × JSON)} {username password : JSString}
    (h : storedPassword users username = some password) :
    (getProperty users username).truthy = true := by
  have := (credential_test_iff users username password).mpr h
  simp only [Bool.and_eq_true] at this
  exact this.1

theorem storedPassword_setProp_same (users : List (JSString × JSON))
    (username password : JSString) :
    storedPassword (setProp users username (credential password)) username = some password := by
  unfold storedPassword
  rw [getOwn_setProp, if_pos rfl]
  simp [credential, getOwn]

theorem storedPassword_setProp_other (users : List (JSString × JSON))
    {username other : JSString} (password : JSString) (h : username ≠ other) :
    storedPassword (setProp users other (credential password)) username
      = storedPassword users username := by
  unfold storedPassword
  rw [getOwn_setProp, if_neg h]

/-! ## `signup` and `login` -/

/-- The ways `signup` can end: it returns `false` or throws with nothing
written, it throws after the directory was written, or it returns `true` with the
directory and the token written and the session state set. -/
theorem signup_cases (st : AppState) (username password : JSString) :
    signup st username password = { completion := .returned false, state := st } ∨
      signup st username password = { completion := .threw, state := st } ∨
      (∃ text, signup st username password =
        { completion := .threw
          state := { st with store := setItem st.store usersKey text } }) ∨
      ∃ text token, signToken (claims username) = some token ∧
        signup st username password =
          { completion := .returned true
            state := { st with
              store := setItem (setItem st.store usersKey text) jwtKey token
              currentUser := some (.str username)
              isAuthenticated := true } } := by
  unfold signup
  split
  · exact Or.inr (Or.inl rfl)
  · exact Or.inr (Or.inl rfl)
  · rename_i users _
    by_cases ht : (getProperty users username).truthy = true
    · rw [if_pos ht]
      exact Or.inl rfl
    · rw [if_neg ht]
      cases signToken (claims username) with
      | none => exact Or.inr (Or.inr (Or.inl ⟨_, rfl⟩))
      | some token => exact Or.inr (Or.inr (Or.inr ⟨_, token, rfl, rfl⟩))
  · rename_i users _
    by_cases ht : (getElement users username).truthy = true
    · rw [if_pos ht]
      exact Or.inl rfl
    · rw [if_neg ht]
      cases assignElement users username (.obj [(js "password", .str password)]) with
      | none => exact Or.inr (Or.inl rfl)
      | some users1 =>
        cases signToken (claims username) with
        | none => exact Or.inr (Or.inr (Or.inl ⟨_, rfl⟩))
        | some token => exact Or.inr (Or.inr (Or.inr ⟨_, token, rfl, rfl⟩))
  · split_ifs
    · exact Or.inl rfl
    · exact Or.inr (Or.inl rfl)

/-- The ways `login` can end: it returns `false` or throws with the state
unchanged, or it returns `true` with the token written and the session state
set. -/
theorem login_cases (st : AppState) (username password : JSString) :
    login st username password = { completion := .returned false, state := st } ∨
      login st username password = { completion := .threw, state := st } ∨
      ∃ token, signToken (claims username) = some token ∧
        login st username password =
          { completion := .returned true
            state := { st with
              store := setItem st.store jwtKey token
              currentUser := some (.str username)
              isAuthenticated := true } } := by
  unfold login
  split
  · exact Or.inr (Or.inl rfl)
  · exact Or.inr (Or.inl rfl)
  · rename_i users _
    by_cases ht : ((getProperty users username).truthy
        && (getProperty users username).password.strictEqualsString password) = true
    · rw [if_pos ht]
      cases signToken (claims username) with
      | none => exact Or.inr (Or.inl rfl)
      | some token => exact Or.inr (Or.inr ⟨token, rfl, rfl⟩)
    · rw [if_neg ht]
      exact Or.inl rfl
  · rename_i users _
    by_cases ht : ((getElement users username).truthy
        && (getElement users username).password.strictEqualsString password) = true
    · rw [if_pos ht]
      cases signToken (claims username) with
      | none => exact Or.inr (Or.inl rfl)
      | some token => exact Or.inr (Or.inr ⟨token, rfl, rfl⟩)
    · rw [if_neg ht]
      exact Or.inl rfl
  · exact Or.inl rfl

theorem signup_returned_true {st : AppState} {users : List (JSString × JSON)}
    {username password : JSString} (hd : directory st.store = some users)
    (h : (signup st username password).completion = .returned true) :
    (getProperty users username).truthy = false ∧
      ∃ token, signToken (claims username) = some token := by
  rw [signup_of_directory hd] at h
  by_cases ht : (getProperty users username).truthy = true
  · rw [if_pos ht] at h
    cases h
  · rw [if_neg ht] at h
    cases hs : signToken (claims username) with
    | none =>
      rw [hs] at h
      cases h
    | some token => exact ⟨by simpa using ht, token, rfl⟩

/-- When the directory is an object in which `users[username]` is not truthy
and `signToken` does not throw, `signup` returns `true`, and the directory it
leaves is the old one with `username` set to `{ password }`. -/
theorem signup_fresh {st : AppState} {users : List (JSString × JSON)} {token : JSString}
    (username password : JSString) (hd : directory st.store = some users)
    (ht : (getProperty users username).truthy = false)
    (hs : signToken (claims username) = some token) :
    (signup st username password).completion = .returned true ∧
      directory (signup st username password).state.store
        = some (setProp users username (credential password)) ∧
      (signup st username password).state.store jwtKey = some token := by
  rw [signup_of_directory hd, if_neg (by simp [ht]), hs]
  refine ⟨rfl, ?_, ?_⟩
  · simp only []
    rw [directory_setItem_jwt, directory_after_write hd]
  · simp [setItem]

theorem signup_establishes {st : AppState} {users : List (JSString × JSON)}
    {username password : JSString} (hd : directory st.store = some users)
    (h : (signup st username password).completion = .returned true) :
    HasCredential (signup st username password).state username password := by
  obtain ⟨ht, token, hs⟩ := signup_returned_true hd h
  obtain ⟨_, h2, _⟩ := signup_fresh username password hd ht hs
  exact ⟨_, h2, storedPassword_setProp_same users username password⟩

theorem signup_rejected {st : AppState} {username password : JSString}
    (h : HasCredential st username password) (password2 : JSString) :
    signup st username password2 = { completion := .returned false, state := st } := by
  obtain ⟨users, hd, hp⟩ := h
  rw [signup_of_directory hd, if_pos (storedPassword_truthy hp)]

theorem hasCredential_apply {st : AppState} {username password : JSString}
    (h : HasCredential st username password) (a : AuthAction) :
    HasCredential (a.apply st) username password := by
  obtain ⟨users, hd, hp⟩ := h
  cases a with
  | signup u p =>
    simp only [AuthAction.apply]
    rw [signup_of_directory hd]
    by_cases ht : (getProperty users u).truthy = true
    · rw [if_pos ht]
      exact ⟨users, hd, hp⟩
    · rw [if_neg ht]
      have hne : username ≠ u := by
        intro e
        subst e
        exact ht (storedPassword_truthy hp)
      cases hs : signToken (claims u) with
      | none =>
        refine ⟨_, directory_after_write hd u p, ?_⟩
        rw [storedPassword_setProp_other users p hne]
        exact hp
      | some token =>
        refine ⟨setProp users u (credential p), ?_, ?_⟩
        · simp only []
          rw [directory_setItem_jwt, directory_after_write hd]
        · rw [storedPassword_setProp_other users p hne]
          exact hp
  | login u p =>
    simp only [AuthAction.apply]
    rw [login_of_directory hd]
    split_ifs
    · cases hs : signToken (claims u) with
      | none => exact ⟨users, hd, hp⟩
      | some token =>
        refine ⟨users, ?_, hp⟩
        simp only []
        rw [directory_setItem_jwt]
        exact hd
    · exact ⟨users, hd, hp⟩
  | logout =>
    refine ⟨users, ?_, hp⟩
    simp only [AuthAction.apply, logout]
    rw [directory_removeItem_jwt]
    exact hd

theorem hasCredential_runActions {st : AppState} {username password : JSString}
    (h : HasCredential st username password) (actions : List AuthAction) :
    HasCredential (runActions st actions) username password := by
  induction actions generalizing st with
  | nil => exact h
  | cons a as ih => exact ih (hasCredential_apply h a)

/-- On a store whose directory is an object (or absent or empty): after
`signup(u, p1)` has returned `true`, and after any further sequence of `signup`,
`login` and `logout` calls, `signup(u, p2)` returns `false` for every password
`p2` and changes nothing, and the directory still stores `p1` for `u`. -/
theorem signup_taken_on_object_directory (st : AppState) (users0 : List (JSString × JSON))
    (u p1 : JSString) (hd : directory st.store = some users0)
    (h : (signup st u p1).completion = .returned true) (actions : List AuthAction)
    (p2 : JSString) :
    signup (runActions (signup st u p1).state actions) u p2
        = { completion := .returned false, state := runActions (signup st u p1).state actions } ∧
      ∃ users, directory (runActions (signup st u p1).state actions).store = some users ∧
        storedPassword users u = some p1 := by
  have hc := hasCredential_runActions (signup_establishes hd h) actions
  exact ⟨signup_rejected hc p2, hc⟩

/-- On a store whose directory is an object (or absent or empty): when
`signup(u, p)` returns `true`, `login(u, p)` on the resulting state returns
`true`. -/
theorem login_after_signup_on_object_directory (st : AppState)
    (users0 : List (JSString × JSON)) (u p : JSString) (hd : directory st.store = some users0)
    (h : (signup st u p).completion = .returned true) :
    (login (signup st u p).state u p).completion = .returned true := by
  obtain ⟨users, hd1, hp⟩ := signup_establishes hd h
  obtain ⟨_, token, hs⟩ := signup_returned_true hd h
  rw [login_returned_true_iff hd1]
  exact ⟨hp, by rw [hs]; simp⟩

/-- C7 (code at the failing input). On a store whose directory value is the text
`[]`, `signup("alice", "p1")` returns `true`: it sets a property on the array
that `JSON.stringify` does not write, so the directory value is `[]` again, and
a later `signup("alice", "p2")` returns `true` as well instead of `false`. -/
theorem signup_twice_on_array_directory :
    arrayDirectoryStore usersKey = some (js "[]") ∧
      (signup (initialState arrayDirectoryStore) (js "alice") (js "p1")).completion
        = .returned true ∧
      (signup (initialState arrayDirectoryStore) (js "alice") (js "p1")).state.store usersKey
        = some (js "[]") ∧
      (signup (signup (initialState arrayDirectoryStore) (js "alice") (js "p1")).state
        (js "alice") (js "p2")).completion = .returned true :=
  ⟨by decide, by decide, by decide, by decide⟩

/-- C8 (code at the failing input). On a store whose directory value is the text
`[]`, `signup("alice", "pw")` returns `true` and leaves the directory value
`[]`; `login("alice", "pw")` on the resulting state returns `false`. -/
theorem login_fails_after_signup_on_array_directory :
    (signup (initialState arrayDirectoryStore) (js "alice") (js "pw")).completion
        = .returned true ∧
      (signup (initialState arrayDirectoryStore) (js "alice") (js "pw")).state.store usersKey
        = some (js "[]") ∧
      (login (signup (initialState arrayDirectoryStore) (js "alice") (js "pw")).state
        (js "alice") (js "pw")).completion = .returned false :=
  ⟨by decide, by decide, by decide⟩

/-- C5 (code at the failing input). From an empty store, `signup('λ', 'p')`
writes the credential of `λ` (the code unit `U+03BB`) to the directory before
its `signToken` call throws; on the store it leaves, the directory stores `p`
for `λ`, yet `login('λ', 'p')` throws instead of returning `true`. -/
theorem login_throws_for_stored_credential :
    (signup (initialState emptyStore) [0x3BB] (js "p")).state.store usersKey
        = some (js "\x7b\"" ++ [0x3BB] ++ js "\":\x7b\"password\":\"p\"\x7d\x7d") ∧
      (directory (signup (initialState emptyStore) [0x3BB] (js "p")).state.store).map
          (fun users => storedPassword users [0x3BB]) = some (some (js "p")) ∧
      (login (signup (initialState emptyStore) [0x3BB] (js "p")).state [0x3BB] (js "p")).completion
        = .threw :=
  ⟨by decide, by decide, by decide⟩

/-- C6 (code at the failing inputs). From an empty store, whose directory has
no entry at all, `signup('constructor', 'pw')` returns `false`:
`users['constructor']` is the function inherited from `Object.prototype`. And
`signup('λ', 'p')` throws after it has written the directory. -/
theorem signup_fails_for_absent_username :
    (directory emptyStore).map (fun users => users.length) = some 0 ∧
      (signup (initialState emptyStore) (js "constructor") (js "pw")).completion
        = .returned false ∧
      (signup (initialState emptyStore) [0x3BB] (js "p")).completion = .threw ∧
      (signup (initialState emptyStore) [0x3BB] (js "p")).state.store usersKey
        = some (js "\x7b\"" ++ [0x3BB] ++ js "\":\x7b\"password\":\"p\"\x7d\x7d") :=
  ⟨by decide, by decide, by decide, by decide⟩

/-! ## Base64: `atob` inverts `btoa` -/

theorem b64Value_b64Char {n : Nat} (h : n < 64) : b64Value (b64Char n) = some n := by
  unfold b64Value b64Char
  split_ifs <;> first | omega | (congr 1; omega)

theorem b64Char_ne_pad (n : Nat) : b64Char n ≠ 61 := by
  unfold b64Char
  split_ifs <;> omega

theorem b64Char_not_ws (n : Nat) : isAsciiWhitespace (b64Char n) = false := by
  unfold b64Char
  simp only [isAsciiWhitespace, Bool.or_eq_false_iff, decide_eq_false_iff_not]
  split_ifs <;> omega

theorem b64Encode_eq : ∀ s : List Nat, b64Encode s = (sextets s).map b64Char ++ padding s
  | [] => rfl
  | [a] => rfl
  | [a, b] => rfl
  | a :: b :: c :: rest => by
    simp only [b64Encode, sextets, padding, List.map_cons, List.cons_append]
    rw [b64Encode_eq rest]

theorem sextets_lt : ∀ s : List Nat, (∀ c ∈ s, c ≤ 255) → ∀ v ∈ sextets s, v < 64
  | [], _ => by simp [sextets]
  | [a], h => by
    have ha := h a (by simp)
    intro v hv
    simp only [sextets, List.mem_cons, List.mem_singleton, List.not_mem_nil, or_false] at hv
    rcases hv with hv | hv <;> omega
  | [a, b], h => by
    have ha := h a (by simp)
    have hb := h b (by simp)
    intro v hv
    simp only [sextets, List.mem_cons, List.mem_singleton, List.not_mem_nil, or_false] at hv
    rcases hv with hv | hv | hv <;> omega
  | a :: b :: c :: rest, h => by
    have ha := h a (by simp)
    have hb := h b (by simp)
    have hc := h c (by simp)
    have ih := sextets_lt rest (fun x hx => h x (by simp [hx]))
    intro v hv
    simp only [sextets, List.mem_cons] at hv
    rcases hv with hv | hv | hv | hv | hv
    · omega
    · omega
    · omega
    · omega
    · exact ih v hv

theorem b64Bytes_sextets : ∀ s : List Nat, (∀ c ∈ s, c ≤ 255) → b64Bytes (sextets s) = s
  | [], _ => rfl
  | [a], h => by
    have ha := h a (by simp)
    simp only [sextets, b64Bytes, List.cons.injEq, and_true]
    omega
  | [a, b], h => by
    have ha := h a (by simp)
    have hb := h b (by simp)
    simp only [sextets, b64Bytes, List.cons.injEq, and_true]
    omega
  | a :: b :: c :: rest, h => by
    have ha := h a (by simp)
    have hb := h b (by simp)
    have hc := h c (by simp)
    have ih := b64Bytes_sextets rest (fun x hx => h x (by simp [hx]))
    simp only [sextets, b64Bytes, ih, List.cons.injEq, and_true]
    omega

theorem b64Values_map {v : List Nat} (h : ∀ x ∈ v, x < 64) :
    b64Values (v.map b64Char) = some v := by
  induction v with
  | nil => rfl
  | cons x xs ih =>
    have hx := h x (by simp)
    have hxs : ∀ y ∈ xs, y < 64 := fun y hy => h y (by simp [hy])
    simp only [List.map_cons, b64Values, b64Value_b64Char hx, ih hxs]

theorem length_sextets_padding : ∀ s : List Nat,
    ((sextets s).length + (padding s).length) % 4 = 0 ∧ (sextets s).length % 4 ≠ 1 ∧
      (padding s = [] ∨ padding s = [61] ∨ padding s = [61, 61])
  | [] => by simp [sextets, padding]
  | [a] => by simp [sextets, padding]
  | [a, b] => by simp [sextets, padding]
  | a :: b :: c :: rest => by
    obtain ⟨h1, h2, h3⟩ := length_sextets_padding rest
    simp only [sextets, padding, List.length_cons]
    exact ⟨by omega, by omega, h3⟩

theorem getLast?_map_b64Char_ne (v : List Nat) : (v.map b64Char).getLast? ≠ some 61 := by
  intro h
  have hm := List.mem_of_getLast?_eq_some h
  obtain ⟨n, _, hn⟩ := List.mem_map.mp hm
  exact b64Char_ne_pad n hn

theorem stripPadding_encoded (v pad : List Nat)
    (hlen : ((v.map b64Char).length + pad.length) % 4 = 0)
    (hpad : pad = [] ∨ pad = [61] ∨ pad = [61, 61]) :
    stripPadding (v.map b64Char ++ pad) = v.map b64Char := by
  have hX := getLast?_map_b64Char_ne v
  unfold stripPadding
  rw [List.length_append, if_pos hlen]
  rcases hpad with h | h | h
  · subst h
    rw [List.append_nil, if_neg hX]
  · subst h
    have e1 : (v.map b64Char ++ [61]).getLast? = some 61 := by simp
    have e2 : (v.map b64Char ++ [61]).dropLast = v.map b64Char := by simp
    rw [if_pos e1, e2, if_neg hX]
  · subst h
    have e0 : v.map b64Char ++ [61, 61] = (v.map b64Char ++ [61]) ++ [61] := by simp
    have e1 : (v.map b64Char ++ [61, 61]).getLast? = some 61 := by rw [e0]; simp
    have e2 : (v.map b64Char ++ [61, 61]).dropLast = v.map b64Char ++ [61] := by
      rw [e0, List.dropLast_concat]
    have e3 : (v.map b64Char ++ [61]).getLast? = some 61 := by simp
    have e4 : (v.map b64Char ++ [61]).dropLast = v.map b64Char := by simp
    rw [if_pos e1, e2, if_pos e3, e4]

theorem filter_not_ws_encoded (s : List Nat) :
    (b64Encode s).filter (fun c => !isAsciiWhitespace c) = b64Encode s := by
  rw [List.filter_eq_self]
  intro c hc
  rw [b64Encode_eq, List.mem_append] at hc
  rcases hc with hc | hc
  · obtain ⟨n, _, hn⟩ := List.mem_map.mp hc
    rw [← hn, b64Char_not_ws]
    rfl
  · obtain ⟨_, _, h3⟩ := length_sextets_padding s
    have : c = 61 := by
      rcases h3 with h | h | h <;> rw [h] at hc <;> simp at hc <;> exact hc
    subst this
    decide

/-- The decoder `atob` inverts `b64Encode` on a byte sequence. -/
theorem atob_b64Encode (s : List Nat) (h : ∀ c ∈ s, c ≤ 255) : atob (b64Encode s) = some s := by
  obtain ⟨h1, h2, h3⟩ := length_sextets_padding s
  unfold atob
  simp only []
  rw [filter_not_ws_encoded, b64Encode_eq,
    stripPadding_encoded _ _ (by rw [List.length_map]; exact h1) h3, List.length_map,
    if_neg h2, b64Values_map (sextets_lt s h)]
  simp only [b64Bytes_sextets s h]

theorem btoa_eq_some {s : JSString} (h : ∀ c ∈ s, c ≤ 255) : btoa s = some (b64Encode s) := by
  unfold btoa
  rw [if_pos]
  rw [List.all_eq_true]
  intro c hc
  exact decide_eq_true (h c hc)

theorem b64Encode_le (s : List Nat) : ∀ c ∈ b64Encode s, c ≤ 255 := by
  intro c hc
  rw [b64Encode_eq, List.mem_append] at hc
  rcases hc with hc | hc
  · obtain ⟨n, _, hn⟩ := List.mem_map.mp hc
    rw [← hn]
    unfold b64Char
    split_ifs <;> omega
  · obtain ⟨_, _, h3⟩ := length_sextets_padding s
    rcases h3 with h | h | h <;> rw [h] at hc <;> simp at hc <;> omega

/-- Round trip `atob(btoa(s)) = s` whenever `btoa(s)` does not throw. -/
theorem atob_btoa {s t : JSString} (h : btoa s = some t) : atob t = some s := by
  unfold btoa at h
  split_ifs at h with hall
  cases h
  apply atob_b64Encode
  intro c hc
  rw [List.all_eq_true] at hall
  exact of_decide_eq_true (hall c hc)

/-! ## The token round trip -/

/-- Where `signToken` does not throw on a well-formed payload, `verifyToken`
accepts the token and returns the payload. -/
theorem verifyToken_signToken {payload : JSON} {token : JSString} (hw : payload.WF)
    (h : signToken payload = some token) : verifyToken token = .payload payload := by
  obtain ⟨hd, p, s, h1, h2, h3, rfl⟩ := signToken_eq_some h
  have d1 := dot_not_mem_of_btoa h1
  have d2 := dot_not_mem_of_btoa h2
  have d3 := dot_not_mem_of_btoa h3
  have hsplit : splitOn dot (hd ++ dot :: p ++ dot :: s) = [hd, p, s] := by
    rw [splitOn_token d1 d2, splitOn_of_not_mem d3]
  rw [verifyToken_of_parts hsplit, h3]
  simp only [ne_eq, not_true_eq_false, if_false]
  rw [atob_btoa h2]
  simp only []
  rw [JSON.parse_stringify payload hw]

theorem quoteUnits_le (s : JSString) (h : ∀ c ∈ s, c ≤ 255) :
    ∀ paired : Bool, ∀ c ∈ quoteUnits paired s, c ≤ 255 := by
  induction s with
  | nil =>
    intro paired c hc
    simp [quoteUnits] at hc
  | cons a as ih =>
    have ha := h a (by simp)
    have has : ∀ c ∈ as, c ≤ 255 := fun c hc => h c (by simp [hc])
    have hnh : isHighSurrogate a = false := by
      simp only [isHighSurrogate, Bool.and_eq_false_iff, decide_eq_false_iff_not]
      omega
    have hnl : isLowSurrogate a = false := by
      simp only [isLowSurrogate, Bool.and_eq_false_iff, decide_eq_false_iff_not]
      omega
    intro paired c hc
    rw [quoteUnits] at hc
    simp only [hnl, Bool.and_false, Bool.false_eq_true, if_false, hnh] at hc
    cases he : escapeOf a with
    | none =>
      simp only [he, List.mem_cons] at hc
      rcases hc with hc | hc
      · omega
      · exact ih has false c hc
    | some e =>
      simp only [he, List.mem_append] at hc
      rcases hc with hc | hc
      · unfold escapeOf at he
        have hx : ∀ n, n < 16 → hexDigit n ≤ 255 := by
          intro n hn
          unfold hexDigit
          split_ifs <;> omega
        split_ifs at he <;> cases he <;>
          simp only [unicodeEscape, List.mem_cons, List.mem_singleton, List.not_mem_nil,
            or_false] at hc
        all_goals
          first
            | (rcases hc with hc | hc <;> omega)
            | (rcases hc with hc | hc | hc | hc | hc | hc
               · omega
               · omega
               · rw [hc]; exact hx _ (by omega)
               · rw [hc]; exact hx _ (by omega)
               · rw [hc]; exact hx _ (by omega)
               · rw [hc]; exact hx _ (by omega))
      · exact ih has false c hc

theorem claims_wf (username : JSString) : (claims username).WF := by
  simp [claims, JSON.WF, JSON.WF.wfMembers, Canonical]

/-- For a username whose code units are all at most `0xFF`, `signToken` makes a
token and `verifyToken` returns the claims `{ username }` from it. -/
theorem verifyToken_signToken_latin1 (username : JSString) (h : ∀ c ∈ username, c ≤ 255) :
    ∃ token, signToken (claims username) = some token ∧
      verifyToken token = .payload (claims username) := by
  have htext : ∀ c ∈ (claims username).stringify, c ≤ 255 := by
    intro c hc
    have hk : ∀ c ∈ js "username", c ≤ 255 := by decide
    have e : (claims username).stringify =
        [0x7B, 0x22] ++ (quoteUnits false (js "username") ++
          ([0x22, 0x3A, 0x22] ++ (quoteUnits false username ++ [0x22, 0x7D]))) := by
      simp [claims, JSON.stringify, JSON.stringify.membersTail, quote]
    rw [e] at hc
    rcases List.mem_append.mp hc with hc | hc
    · simp only [List.mem_cons, List.mem_singleton, List.not_mem_nil, or_false] at hc
      omega
    · rcases List.mem_append.mp hc with hc | hc
      · exact quoteUnits_le _ hk false c hc
      · rcases List.mem_append.mp hc with hc | hc
        · simp only [List.mem_cons, List.mem_singleton, List.not_mem_nil, or_false] at hc
          omega
        · rcases List.mem_append.mp hc with hc | hc
          · exact quoteUnits_le username h false c hc
          · simp only [List.mem_cons, List.mem_singleton, List.not_mem_nil, or_false] at hc
            omega
  have hsec : ∀ c ∈ LOCAL_JWT_SECRET, c ≤ 255 := by decide
  have hsig : ∀ c ∈ LOCAL_JWT_SECRET ++ b64Encode (claims username).stringify, c ≤ 255 := by
    intro c hc
    rcases List.mem_append.mp hc with hc | hc
    · exact hsec c hc
    · exact b64Encode_le _ c hc
  have hhd : ∀ c ∈ jwtHeader.stringify, c ≤ 255 := by decide
  have hs : signToken (claims username) =
      some (b64Encode jwtHeader.stringify ++ dot :: b64Encode (claims username).stringify ++
        dot :: b64Encode (LOCAL_JWT_SECRET ++ b64Encode (claims username).stringify)) := by
    unfold signToken
    rw [btoa_eq_some hhd, btoa_eq_some htext]
    simp only []
    rw [btoa_eq_some hsig]
  exact ⟨_, hs, verifyToken_signToken (claims_wf username) hs⟩

/-! ## The nesting budget of `JSON.parse` is never the reason for a failure -/

theorem length_skipWs_le (s : JSString) : (skipWs s).length ≤ s.length := by
  induction s with
  | nil => simp [skipWs]
  | cons c cs ih =>
    rw [skipWs]
    split_ifs
    · simp only [List.length_cons]
      omega
    · exact le_refl _

theorem length_consUnit {u : Nat} {r : Option (JSString × JSString)} {k out : JSString}
    (h : consUnit u r = some (k, out)) : ∃ k1, r = some (k1, out) := by
  cases r with
  | none => simp [consUnit] at h
  | some p =>
    obtain ⟨k1, o⟩ := p
    simp only [consUnit, Option.some.injEq, Prod.mk.injEq] at h
    exact ⟨k1, by rw [h.2]⟩

theorem length_parseChars (n : Nat) :
    ∀ (s k out : JSString), s.length ≤ n → parseChars s = some (k, out) →
      out.length < s.length := by
  induction n with
  | zero =>
    intro s k out hs h
    cases s with
    | nil => simp [parseChars] at h
    | cons c cs => simp at hs
  | succ n ih =>
    intro s k out hs h
    cases s with
    | nil => simp [parseChars] at h
    | cons c rest =>
      simp only [List.length_cons] at hs
      rw [parseChars.eq_def] at h
      simp only [] at h
      split_ifs at h with h1 h2 h3
      · simp only [Option.some.injEq, Prod.mk.injEq] at h
        rw [← h.2]
        simp
      · split at h
        · cases h
        · rename_i e rest1
          split_ifs at h
          · split at h
            · rename_i a b c1 d rest2
              split at h
              · obtain ⟨k1, hk⟩ := length_consUnit h
                have := ih rest2 k1 out (by simp only [List.length_cons] at hs; omega) hk
                simp only [List.length_cons]
                omega
              · cases h
            · cases h
          · split at h
            · obtain ⟨k1, hk⟩ := length_consUnit h
              have := ih rest1 k1 out (by simp only [List.length_cons] at hs; omega) hk
              simp only [List.length_cons]
              omega
            · cases h
      · obtain ⟨k1, hk⟩ := length_consUnit h
        have := ih rest k1 out (by omega) hk
        simp only [List.length_cons]
        omega

theorem length_afterLiteral (p : JSString) :
    ∀ (s out : JSString), afterLiteral p s = some out → out.length ≤ s.length := by
  induction p with
  | nil =>
    intro s out h
    simp only [afterLiteral, Option.some.injEq] at h
    rw [h]
  | cons a p1 ih =>
    intro s out h
    cases s with
    | nil => simp [afterLiteral] at h
    | cons b s1 =>
      rw [afterLiteral] at h
      split_ifs at h
      have := ih s1 out h
      simp only [List.length_cons]
      omega

theorem length_spanDigits (s : JSString) : (spanDigits s).2.length ≤ s.length := by
  induction s with
  | nil => simp [spanDigits]
  | cons c cs ih =>
    rw [spanDigits]
    split_ifs
    · simp only [List.length_cons]
      omega
    · exact le_refl _

theorem length_scanFrac (s : JSString) : (scanFrac s).2.length ≤ s.length := by
  cases s with
  | nil => simp [scanFrac]
  | cons c rest =>
    unfold scanFrac
    simp only []
    split_ifs
    · have := length_spanDigits rest
      simp only [List.length_cons]
      omega
    · exact le_refl _

theorem length_scanExp (s : JSString) : (scanExp s).2.length ≤ s.length := by
  cases s with
  | nil => simp [scanExp]
  | cons e rest =>
    unfold scanExp
    simp only []
    by_cases he : e = 0x65 ∨ e = 0x45
    · rw [if_pos he]
      cases rest with
      | nil => simp
      | cons g rest1 =>
        simp only []
        by_cases hg : (g = 0x2B ∨ g = 0x2D) ∧ (spanDigits rest1).1 ≠ []
        · rw [if_pos hg]
          have := length_spanDigits rest1
          simp only [List.length_cons]
          omega
        · rw [if_neg hg]
          by_cases hd : (spanDigits (g :: rest1)).1 ≠ []
          · rw [if_pos hd]
            have := length_spanDigits (g :: rest1)
            simp only [List.length_cons] at this ⊢
            omega
          · rw [if_neg hd]
    · rw [if_neg he]

theorem length_scanInt {s i r : JSString} (h : scanInt s = some (i, r)) :
    r.length < s.length := by
  cases s with
  | nil => simp [scanInt] at h
  | cons c rest =>
    rw [scanInt] at h
    split_ifs at h
    · simp only [Option.some.injEq, Prod.mk.injEq] at h
      rw [← h.2]
      simp
    · simp only [Option.some.injEq, Prod.mk.injEq] at h
      rw [← h.2]
      have := length_spanDigits rest
      simp only [List.length_cons]
      omega

theorem length_scanUnsigned {s l r : JSString} (h : scanUnsigned s = some (l, r)) :
    r.length < s.length := by
  unfold scanUnsigned at h
  cases hi : scanInt s with
  | none => simp [hi] at h
  | some p =>
    obtain ⟨i, s1⟩ := p
    simp only [hi, Option.some.injEq, Prod.mk.injEq] at h
    rw [← h.2]
    have h1 := length_scanInt hi
    have h2 := length_scanFrac s1
    have h3 := length_scanExp (scanFrac s1).2
    omega

theorem length_scanNumber {s l r : JSString} (h : scanNumber s = some (l, r)) :
    r.length < s.length := by
  cases s with
  | nil => simp [scanNumber] at h
  | cons c cs =>
    unfold scanNumber at h
    simp only [] at h
    split_ifs at h
    · cases hu : scanUnsigned cs with
      | none => simp [hu] at h
      | some p =>
        obtain ⟨l1, r1⟩ := p
        simp only [hu, Option.some.injEq, Prod.mk.injEq] at h
        have := length_scanUnsigned hu
        rw [← h.2]
        simp only [List.length_cons]
        omega
    · exact length_scanUnsigned h

theorem length_atom {c : Nat} {rest : JSString} {v : JSON} {out : JSString}
    (h : (if c = 0x22 then
            match parseChars rest with
            | some (s, rest1) => some (JSON.str s, rest1)
            | none => none
          else if c = 0x74 then
            match afterLiteral [0x72, 0x75, 0x65] rest with
            | some rest1 => some (JSON.bool true, rest1)
            | none => none
          else if c = 0x66 then
            match afterLiteral [0x61, 0x6C, 0x73, 0x65] rest with
            | some rest1 => some (JSON.bool false, rest1)
            | none => none
          else if c = 0x6E then
            match afterLiteral [0x75, 0x6C, 0x6C] rest with
            | some rest1 => some (JSON.null, rest1)
            | none => none
          else
            match scanNumber (c :: rest) with
            | some (l, rest1) => some (JSON.num l, rest1)
            | none => none) = some (v, out)) :
    out.length < (c :: rest).length := by
  split_ifs at h
  · split at h
    · rename_i s rest1 hp
      cases h
      have := length_parseChars rest.length rest s _ (le_refl _) hp
      simp only [List.length_cons]
      omega
    · cases h
  · split at h
    · rename_i rest1 hp
      cases h
      have := length_afterLiteral _ _ _ hp
      simp only [List.length_cons]
      omega
    · cases h
  · split at h
    · rename_i rest1 hp
      cases h
      have := length_afterLiteral _ _ _ hp
      simp only [List.length_cons]
      omega
    · cases h
  · split at h
    · rename_i rest1 hp
      cases h
      have := length_afterLiteral _ _ _ hp
      simp only [List.length_cons]
      omega
    · cases h
  · split at h
    · rename_i l rest1 hp
      cases h
      exact length_scanNumber hp
    · cases h

theorem parse_fuel_aux (f : Nat) :
    (∀ (input : JSString) (v : JSON) (out : JSString), parseValue f input = some (v, out) →
        out.length < input.length ∧
          ∀ g, input.length - out.length ≤ g → parseValue g input = some (v, out)) ∧
    (∀ (acc : List JSON) (input : JSString) (v : JSON) (out : JSString),
        parseElements f acc input = some (v, out) →
        out.length < input.length ∧
          ∀ g, input.length - out.length ≤ g → parseElements g acc input = some (v, out)) ∧
    (∀ (acc : List (JSString × JSON)) (input : JSString) (v : JSON) (out : JSString),
        parseMembers f acc input = some (v, out) →
        out.length < input.length ∧
          ∀ g, input.length - out.length ≤ g → parseMembers g acc input = some (v, out)) := by
  induction f with
  | zero =>
    refine ⟨?_, ?_, ?_⟩
    · intro input v out h
      simp [parseValue] at h
    · intro acc input v out h
      simp [parseElements] at h
    · intro acc input v out h
      simp [parseMembers] at h
  | succ f ih =>
    obtain ⟨ihV, ihE, ihM⟩ := ih
    refine ⟨?_, ?_, ?_⟩
    · intro input v out h
      rw [parseValue] at h
      have hl0 := length_skipWs_le input
      cases hsk : skipWs input with
      | nil => simp [hsk] at h
      | cons c rest =>
        rw [hsk] at h hl0
        simp only [List.length_cons] at hl0
        simp only [] at h
        by_cases h1 : c = 0x7B
        · rw [if_pos h1] at h
          have hl1 := length_skipWs_le rest
          cases hsk2 : skipWs rest with
          | nil => simp [hsk2] at h
          | cons d rest1 =>
            rw [hsk2] at h hl1
            simp only [List.length_cons] at hl1
            simp only [] at h
            by_cases hd : d = 0x7D
            · rw [if_pos hd] at h
              simp only [Option.some.injEq, Prod.mk.injEq] at h
              obtain ⟨hv, ho⟩ := h
              subst ho
              refine ⟨by omega, ?_⟩
              intro g hg
              obtain ⟨g1, rfl⟩ : ∃ g1, g = g1 + 1 := ⟨g - 1, by omega⟩
              rw [parseValue, hsk]
              simp [h1, if_true, hsk2, hd, hv]
            · rw [if_neg hd] at h
              obtain ⟨hl, hfuel⟩ := ihM _ _ _ _ h
              simp only [List.length_cons] at hl
              refine ⟨by omega, ?_⟩
              intro g hg
              obtain ⟨g1, rfl⟩ : ∃ g1, g = g1 + 1 := ⟨g - 1, by omega⟩
              rw [parseValue, hsk]
              simp [h1, if_true, hsk2, hd, if_false]
              exact hfuel g1 (by simp only [List.length_cons]; omega)
        · rw [if_neg h1] at h
          by_cases h2 : c = 0x5B
          · rw [if_pos h2] at h
            have hl1 := length_skipWs_le rest
            cases hsk2 : skipWs rest with
            | nil => simp [hsk2] at h
            | cons d rest1 =>
              rw [hsk2] at h hl1
              simp only [List.length_cons] at hl1
              simp only [] at h
              by_cases hd : d = 0x5D
              · rw [if_pos hd] at h
                simp only [Option.some.injEq, Prod.mk.injEq] at h
                obtain ⟨hv, ho⟩ := h
                subst ho
                refine ⟨by omega, ?_⟩
                intro g hg
                obtain ⟨g1, rfl⟩ : ∃ g1, g = g1 + 1 := ⟨g - 1, by omega⟩
                rw [parseValue, hsk]
                simp [h1, h2, if_true, if_false, hsk2, hd, hv]
              · rw [if_neg hd] at h
                obtain ⟨hl, hfuel⟩ := ihE _ _ _ _ h
                simp only [List.length_cons] at hl
                refine ⟨by omega, ?_⟩
                intro g hg
                obtain ⟨g1, rfl⟩ : ∃ g1, g = g1 + 1 := ⟨g - 1, by omega⟩
                rw [parseValue, hsk]
                simp [h1, h2, if_true, if_false, hsk2, hd]
                exact hfuel g1 (by simp only [List.length_cons]; omega)
          · rw [if_neg h2] at h
            have hl := length_atom h
            simp only [List.length_cons] at hl
            refine ⟨by omega, ?_⟩
            intro g hg
            obtain ⟨g1, rfl⟩ : ∃ g1, g = g1 + 1 := ⟨g - 1, by omega⟩
            rw [parseValue, hsk]
            simp [h1, h2, if_false]
            exact h
    · intro acc input v out h
      rw [parseElements] at h
      cases hv : parseValue f input with
      | none => simp [hv] at h
      | some p =>
        obtain ⟨w, rest⟩ := p
        rw [hv] at h
        simp only [] at h
        obtain ⟨hlv, hfv⟩ := ihV _ _ _ hv
        have hl1 := length_skipWs_le rest
        cases hsk : skipWs rest with
        | nil => simp [hsk] at h
        | cons c rest1 =>
          rw [hsk] at h hl1
          simp only [List.length_cons] at hl1
          simp only [] at h
          by_cases h1 : c = 0x2C
          · rw [if_pos h1] at h
            obtain ⟨hl, hfuel⟩ := ihE _ _ _ _ h
            refine ⟨by omega, ?_⟩
            intro g hg
            obtain ⟨g1, rfl⟩ : ∃ g1, g = g1 + 1 := ⟨g - 1, by omega⟩
            rw [parseElements, hfv g1 (by omega)]
            simp [hsk, h1, if_true]
            exact hfuel g1 (by omega)
          · rw [if_neg h1] at h
            by_cases h2 : c = 0x5D
            · rw [if_pos h2] at h
              simp only [Option.some.injEq, Prod.mk.injEq] at h
              obtain ⟨hve, ho⟩ := h
              subst ho
              refine ⟨by omega, ?_⟩
              intro g hg
              obtain ⟨g1, rfl⟩ : ∃ g1, g = g1 + 1 := ⟨g - 1, by omega⟩
              rw [parseElements, hfv g1 (by omega)]
              simp only [hsk]
              rw [if_neg h1, if_pos h2, hve]
            · rw [if_neg h2] at h
              cases h
    · intro acc input v out h
      rw [parseMembers] at h
      have hl0 := length_skipWs_le input
      cases hsk : skipWs input with
      | nil => simp [hsk] at h
      | cons q rest =>
        rw [hsk] at h hl0
        simp only [List.length_cons] at hl0
        simp only [] at h
        by_cases hq : q = 0x22
        · rw [if_pos hq] at h
          cases hk : parseChars rest with
          | none => simp [hk] at h
          | some p =>
            obtain ⟨k, rest1⟩ := p
            rw [hk] at h
            simp only [] at h
            have hlk := length_parseChars rest.length rest k rest1 (le_refl _) hk
            have hl1 := length_skipWs_le rest1
            cases hsk1 : skipWs rest1 with
            | nil => simp [hsk1] at h
            | cons c rest2 =>
              rw [hsk1] at h hl1
              simp only [List.length_cons] at hl1
              simp only [] at h
              by_cases hc : c = 0x3A
              · rw [if_pos hc] at h
                cases hv : parseValue f rest2 with
                | none => simp [hv] at h
                | some p2 =>
                  obtain ⟨w, rest3⟩ := p2
                  rw [hv] at h
                  simp only [] at h
                  obtain ⟨hlv, hfv⟩ := ihV _ _ _ hv
                  have hl3 := length_skipWs_le rest3
                  cases hsk3 : skipWs rest3 with
                  | nil => simp [hsk3] at h
                  | cons d rest4 =>
                    rw [hsk3] at h hl3
                    simp only [List.length_cons] at hl3
                    simp only [] at h
                    by_cases hd1 : d = 0x2C
                    · rw [if_pos hd1] at h
                      obtain ⟨hl, hfuel⟩ := ihM _ _ _ _ h
                      refine ⟨by omega, ?_⟩
                      intro g hg
                      obtain ⟨g1, rfl⟩ : ∃ g1, g = g1 + 1 := ⟨g - 1, by omega⟩
                      rw [parseMembers, hsk]
                      simp [hq, if_true, hk, hsk1, hc]
                      rw [hfv g1 (by omega)]
                      simp [hsk3, hd1, if_true]
                      exact hfuel g1 (by omega)
                    · rw [if_neg hd1] at h
                      by_cases hd2 : d = 0x7D
                      · rw [if_pos hd2] at h
                        simp only [Option.some.injEq, Prod.mk.injEq] at h
                        obtain ⟨hve, ho⟩ := h
                        subst ho
                        refine ⟨by omega, ?_⟩
                        intro g hg
                        obtain ⟨g1, rfl⟩ : ∃ g1, g = g1 + 1 := ⟨g - 1, by omega⟩
                        rw [parseMembers, hsk]
                        simp [hq, if_true, hk, hsk1, hc]
                        rw [hfv g1 (by omega)]
                        simp [hsk3, hd1, hd2, if_true, if_false, hve]
                      · rw [if_neg hd2] at h
                        cases h
              · rw [if_neg hc] at h
                cases h
        · rw [if_neg hq] at h
          cases h

/-- The nesting budget that `JSON.parse` passes is enough: a value that
`parseValue` finds with any budget is found with that of `JSON.parse`. -/
theorem JSON.parse_of_parseValue {text : JSString} {fuel : Nat} {v : JSON} {rest : JSString}
    (h : parseValue fuel text = some (v, rest)) (hr : skipWs rest = []) :
    JSON.parse text = some v := by
  obtain ⟨_, hfuel⟩ := (parse_fuel_aux fuel).1 _ _ _ h
  unfold JSON.parse
  rw [hfuel (text.length + 1) (by omega)]
  simp [hr]

/-! ## The upsert statements -/

theorem upsertBudget_eq_upsertEntry {Num : Type} (budgets : List (Budget Num))
    (monthYear : JSString) (amount : Num) :
    upsertBudget budgets monthYear amount
      = upsertEntry { monthYear := monthYear, budgetAmount := amount } budgets := by
  unfold upsertBudget
  exact upsert_eq_upsertEntry { monthYear := monthYear, budgetAmount := amount } budgets

theorem handleSubmit_eq_upsertBudget {Num : Type} (ops : NumberOps Num)
    (budgets : List (Budget Num)) (budgetAmount monthYear : JSString) :
    handleSubmit ops budgets budgetAmount monthYear =
      if amountAccepted ops budgetAmount then
        upsertBudget budgets monthYear (ops.parseFloat budgetAmount)
      else budgets := by
  cases h : amountAccepted ops budgetAmount with
  | true =>
    rw [handleSubmit_accepted ops _ _ _ h, upsertBudget_eq_upsertEntry]
    simp
  | false =>
    rw [handleSubmit_rejected ops _ _ _ h]
    simp

theorem upsertEntry_cases {Num : Type} (nb : Budget Num) (bs : List (Budget Num)) :
    (∃ pre b post, bs = pre ++ b :: post ∧ (∀ x ∈ pre, x.monthYear ≠ nb.monthYear) ∧
        b.monthYear = nb.monthYear ∧ upsertEntry nb bs = pre ++ nb :: post) ∨
      ((∀ x ∈ bs, x.monthYear ≠ nb.monthYear) ∧ upsertEntry nb bs = bs ++ [nb]) := by
  induction bs with
  | nil =>
    right
    exact ⟨by simp, rfl⟩
  | cons b bs ih =>
    by_cases hb : b.monthYear = nb.monthYear
    · left
      refine ⟨[], b, bs, rfl, by simp, hb, ?_⟩
      simp [upsertEntry, hb]
    · rcases ih with ⟨pre, c, post, h1, h2, h3, h4⟩ | ⟨h1, h2⟩
      · left
        refine ⟨b :: pre, c, post, by rw [h1]; rfl, ?_, h3, ?_⟩
        · intro x hx
          rcases List.mem_cons.mp hx with hx | hx
          · rw [hx]; exact hb
          · exact h2 x hx
        · simp [upsertEntry, hb, h4]
      · right
        refine ⟨?_, ?_⟩
        · intro x hx
          rcases List.mem_cons.mp hx with hx | hx
          · rw [hx]; exact hb
          · exact h1 x hx
        · simp [upsertEntry, hb, h2]

/-- C11. The upsert of lines 473-491 either replaces the first entry whose
`monthYear` is exactly the given string, leaving the length and every other
entry (value and position) as they were, or, when no entry has that
`monthYear`, appends the new entry at the end. Upserting `2024-02` with 500 and
then with 700 from the empty list gives the single entry `(2024-02, 700)`. -/
theorem upsertBudget_replaces_or_appends {Num : Type} (budgets : List (Budget Num))
    (monthYear : JSString) (amount : Num) :
    ((∃ pre b post, budgets = pre ++ b :: post ∧ (∀ x ∈ pre, x.monthYear ≠ monthYear) ∧
          b.monthYear = monthYear ∧
          upsertBudget budgets monthYear amount
            = pre ++ { monthYear := monthYear, budgetAmount := amount } :: post ∧
          (upsertBudget budgets monthYear amount).length = budgets.length) ∨
        ((∀ x ∈ budgets, x.monthYear ≠ monthYear) ∧
          upsertBudget budgets monthYear amount
            = budgets ++ [{ monthYear := monthYear, budgetAmount := amount }])) ∧
      upsertBudget (upsertBudget ([] : List (Budget Nat)) (js "2024-02") 500) (js "2024-02") 700
        = [{ monthYear := js "2024-02", budgetAmount := 700 }] := by
  refine ⟨?_, rfl⟩
  rw [upsertBudget_eq_upsertEntry]
  rcases upsertEntry_cases { monthYear := monthYear, budgetAmount := amount } budgets with
    ⟨pre, b, post, h1, h2, h3, h4⟩ | ⟨h1, h2⟩
  · left
    refine ⟨pre, b, post, h1, h2, h3, h4, ?_⟩
    rw [h4, h1]
    simp
  · right
    exact ⟨h1, h2⟩

/-! ## Keys of the collections and the effects -/

theorem getUserDataKey_ne_jwtKey (name : JSString) {c : JSString} (hc : c ∈ collections) :
    getUserDataKey name c ≠ jwtKey := by
  have hJ : jwtKey = js "financialTracker_" ++ [106, 119, 116] := by decide
  intro h
  rw [getUserDataKey_eq, hJ] at h
  have h' := congrArg List.length (List.append_cancel_left h)
  rcases collection_cases hc with e1 | e1 | e1 <;> subst e1 <;> simp at h'

theorem getUserDataKey_ne_usersKey (name : JSString) {c : JSString} (hc : c ∈ collections) :
    getUserDataKey name c ≠ usersKey := by
  have hU : usersKey = js "financialTracker_" ++ [117, 115, 101, 114, 115] := by decide
  intro h
  rw [getUserDataKey_eq, hU] at h
  have h' := congrArg List.length (List.append_cancel_left h)
  rcases collection_cases hc with e1 | e1 | e1 <;> subst e1 <;> simp at h'

theorem getUserDataKey_inj {u1 u2 c1 c2 : JSString} (h1 : c1 ∈ collections)
    (h2 : c2 ∈ collections) (h : getUserDataKey u1 c1 = getUserDataKey u2 c2) :
    u1 = u2 ∧ c1 = c2 := by
  rw [getUserDataKey_eq, getUserDataKey_eq] at h
  have h' := List.append_cancel_left h
  have hr := congrArg List.reverse h'
  rcases collection_cases h1 with e1 | e1 | e1 <;> rcases collection_cases h2 with e2 | e2 | e2 <;>
    subst e1 <;> subst e2 <;>
    first
      | exact ⟨(append_suffix_cancel h' rfl).1, rfl⟩
      | simp at hr

theorem transactions_mem : js "transactions" ∈ collections := by decide

theorem budgets_mem : js "budgets" ∈ collections := by decide

theorem settings_mem : js "settings" ∈ collections := by decide

theorem saveEffect_other (currentUser : Option JSON) (loadingAuth : Bool) {c : JSString}
    (value : JSON) (store : Store) {k : JSString}
    (hk : ∀ name, k ≠ getUserDataKey name c) :
    saveEffect currentUser loadingAuth c value store k = store k := by
  unfold saveEffect
  cases currentUser with
  | none => rfl
  | some cu =>
    simp only []
    split_ifs
    · cases templateText cu with
      | none => rfl
      | some name =>
        simp only [setItem]
        rw [if_neg (hk name)]
    · rfl

theorem commit_currentUser (ch : Changed) (st : AppState) :
    (commit ch st).1.currentUser = st.currentUser ∧
      (commit ch st).1.isAuthenticated = st.isAuthenticated ∧
      (commit ch st).1.loadingAuth = st.loadingAuth := by
  unfold commit
  simp only []
  split <;> exact ⟨rfl, rfl, rfl⟩

theorem commit_store (ch : Changed) (st : AppState) :
    (commit ch st).1.store =
      (if ch.settings || ch.currentUser || ch.loadingAuth then
          saveEffect st.currentUser st.loadingAuth (js "settings") st.settings
        else id)
        ((if ch.budgets || ch.currentUser || ch.loadingAuth then
            saveEffect st.currentUser st.loadingAuth (js "budgets") st.budgets
          else id)
          ((if ch.transactions || ch.currentUser || ch.loadingAuth then
              saveEffect st.currentUser st.loadingAuth (js "transactions") st.transactions
            else id) st.store)) := by
  unfold commit
  simp only []
  split <;> (simp only []; split_ifs <;> rfl)

/-- A key that is not the key of a collection keeps its value through the
effects of a render. -/
theorem commit_store_other (ch : Changed) (st : AppState) {k : JSString}
    (hk : ∀ name c, c ∈ collections → k ≠ getUserDataKey name c) :
    (commit ch st).1.store k = st.store k := by
  rw [commit_store]
  have hT := fun name => hk name _ transactions_mem
  have hB := fun name => hk name _ budgets_mem
  have hS := fun name => hk name _ settings_mem
  split_ifs <;>
    simp only [id, saveEffect_other _ _ _ _ hT, saveEffect_other _ _ _ _ hB,
      saveEffect_other _ _ _ _ hS]

theorem flush_currentUser (ch : Changed) (st : AppState) :
    (flush ch st).currentUser = st.currentUser ∧
      (flush ch st).isAuthenticated = st.isAuthenticated ∧
      (flush ch st).loadingAuth = st.loadingAuth := by
  unfold flush
  obtain ⟨a1, a2, a3⟩ := commit_currentUser (commit ch st).2 (commit ch st).1
  obtain ⟨b1, b2, b3⟩ := commit_currentUser ch st
  exact ⟨a1.trans b1, a2.trans b2, a3.trans b3⟩

theorem flush_store_other (ch : Changed) (st : AppState) {k : JSString}
    (hk : ∀ name c, c ∈ collections → k ≠ getUserDataKey name c) :
    (flush ch st).store k = st.store k := by
  unfold flush
  rw [commit_store_other _ _ hk, commit_store_other _ _ hk]

theorem jwtKey_not_data : ∀ name c, c ∈ collections → jwtKey ≠ getUserDataKey name c :=
  fun name _ hc h => getUserDataKey_ne_jwtKey name hc h.symm

theorem usersKey_not_data : ∀ name c, c ∈ collections → usersKey ≠ getUserDataKey name c :=
  fun name _ hc h => getUserDataKey_ne_usersKey name hc h.symm

/-- With no current user the effects of a render do nothing. -/
theorem commit_of_no_user (ch : Changed) (st : AppState) (h : st.currentUser = none) :
    commit ch st = (st, Changed.none) := by
  obtain ⟨store, t, b, s, ia, cu, la⟩ := st
  simp only [] at h
  subst h
  simp only [commit, loadEffect, saveEffect, ite_self]

theorem flush_of_no_user (ch : Changed) (st : AppState) (h : st.currentUser = none) :
    flush ch st = st := by
  unfold flush
  rw [commit_of_no_user ch st h]
  simp only []
  rw [commit_of_no_user _ st h]

theorem logoutAndSettle_eq (st : AppState) : logoutAndSettle st = logout st := by
  unfold logoutAndSettle
  exact flush_of_no_user _ _ rfl

/-! ## Outcomes of `signup`, `login` and `logout` -/

theorem signup_returned_false {st : AppState} {username password : JSString}
    (h : (signup st username password).completion = .returned false) :
    (signup st username password).state = st := by
  rcases signup_cases st username password with e | e | ⟨text, e⟩ | ⟨text, token, _, e⟩
  · rw [e]
  · rw [e]
  · rw [e] at h
    cases h
  · rw [e] at h
    cases h

theorem login_returned_false {st : AppState} {username password : JSString}
    (h : (login st username password).completion = .returned false) :
    (login st username password).state = st := by
  rcases login_cases st username password with e | e | ⟨token, _, e⟩
  · rw [e]
  · rw [e]
  · rw [e] at h
    cases h

theorem login_returned_true {st : AppState} {username password : JSString}
    (h : (login st username password).completion = .returned true) :
    ∃ token, signToken (claims username) = some token ∧
      (login st username password).state =
        { st with
          store := setItem st.store jwtKey token
          currentUser := some (.str username)
          isAuthenticated := true } := by
  rcases login_cases st username password with e | e | ⟨token, hs, e⟩
  · rw [e] at h
    cases h
  · rw [e] at h
    cases h
  · exact ⟨token, hs, by rw [e]⟩

theorem signup_state_of_true {st : AppState} {username password : JSString}
    (h : (signup st username password).completion = .returned true) :
    ∃ text token, signToken (claims username) = some token ∧
      (signup st username password).state =
        { st with
          store := setItem (setItem st.store usersKey text) jwtKey token
          currentUser := some (.str username)
          isAuthenticated := true } := by
  rcases signup_cases st username password with e | e | ⟨text, e⟩ | ⟨text, token, hs, e⟩
  · rw [e] at h
    cases h
  · rw [e] at h
    cases h
  · rw [e] at h
    cases h
  · exact ⟨text, token, hs, by rw [e]⟩

/-- C17. When `signup` returns `false` (username taken) or `login` returns
`false` (invalid credentials), the state after the call, store and session
state and collections in memory, is the state before it, and no effect runs
afterwards. -/
theorem auth_failure_atomic (st : AppState) (username password : JSString) :
    ((signup st username password).completion = .returned false →
        (signup st username password).state = st ∧
          (signupAndSettle st username password).state = st) ∧
      ((login st username password).completion = .returned false →
        (login st username password).state = st ∧
          (loginAndSettle st username password).state = st) := by
  constructor
  · intro h
    refine ⟨signup_returned_false h, ?_⟩
    unfold signupAndSettle
    rw [h]
    exact signup_returned_false h
  · intro h
    refine ⟨login_returned_false h, ?_⟩
    unfold loginAndSettle
    rw [h]
    exact login_returned_false h

theorem auth_failure_atomic_witness :
    (signup (signup (initialState emptyStore) (js "alice") (js "pw1")).state
        (js "alice") (js "pw2")).completion = .returned false ∧
      (login (signup (initialState emptyStore) (js "alice") (js "pw1")).state
        (js "alice") (js "wrong")).completion = .returned false ∧
      ((signup (signup (initialState emptyStore) (js "alice") (js "pw1")).state
            (js "alice") (js "pw2")).state
          = (signup (initialState emptyStore) (js "alice") (js "pw1")).state ∧
        (signupAndSettle (signup (initialState emptyStore) (js "alice") (js "pw1")).state
            (js "alice") (js "pw2")).state
          = (signup (initialState emptyStore) (js "alice") (js "pw1")).state) ∧
      ((login (signup (initialState emptyStore) (js "alice") (js "pw1")).state
            (js "alice") (js "wrong")).state
          = (signup (initialState emptyStore) (js "alice") (js "pw1")).state ∧
        (loginAndSettle (signup (initialState emptyStore) (js "alice") (js "pw1")).state
            (js "alice") (js "wrong")).state
          = (signup (initialState emptyStore) (js "alice") (js "pw1")).state) :=
  ⟨by decide, by decide,
    (auth_failure_atomic (signup (initialState emptyStore) (js "alice") (js "pw1")).state
      (js "alice") (js "pw2")).1 (by decide),
    (auth_failure_atomic (signup (initialState emptyStore) (js "alice") (js "pw1")).state
      (js "alice") (js "wrong")).2 (by decide)⟩

/-- C18. When `signup(username, password)` returns `true`, `signToken` has made
a token for `{ username }`, that token is the value under the session key, and
the session state is `currentUser = username`, `isAuthenticated = true`; this
is so right after the call and after the renders that follow it. -/
theorem signup_success_session (st : AppState) (username password : JSString)
    (h : (signup st username password).completion = .returned true) :
    ∃ token, signToken (claims username) = some token ∧
      (signup st username password).state.store jwtKey = some token ∧
      (signup st username password).state.currentUser = some (.str username) ∧
      (signup st username password).state.isAuthenticated = true ∧
      (signupAndSettle st username password).state.store jwtKey = some token ∧
      (signupAndSettle st username password).state.currentUser = some (.str username) ∧
      (signupAndSettle st username password).state.isAuthenticated = true := by
  obtain ⟨text, token, hs, hst⟩ := signup_state_of_true h
  have h1 : (signup st username password).state.store jwtKey = some token := by
    rw [hst]
    simp [setItem]
  have h2 : (signup st username password).state.currentUser = some (.str username) := by
    rw [hst]
  have h3 : (signup st username password).state.isAuthenticated = true := by
    rw [hst]
  have hsettle : (signupAndSettle st username password).state
      = flush { Changed.none with currentUser := !isUser st.currentUser username }
          (signup st username password).state := by
    unfold signupAndSettle
    rw [h]
  refine ⟨token, hs, h1, h2, h3, ?_, ?_, ?_⟩
  · rw [hsettle, flush_store_other _ _ jwtKey_not_data, h1]
  · rw [hsettle, (flush_currentUser _ _).1, h2]
  · rw [hsettle, (flush_currentUser _ _).2.1, h3]

theorem signup_success_session_witness :
    (signup (initialState emptyStore) (js "alice") (js "pw1")).completion = .returned true ∧
      ∃ token, signToken (claims (js "alice")) = some token ∧
        (signup (initialState emptyStore) (js "alice") (js "pw1")).state.store jwtKey
          = some token ∧
        (signup (initialState emptyStore) (js "alice") (js "pw1")).state.currentUser
          = some (.str (js "alice")) ∧
        (signup (initialState emptyStore) (js "alice") (js "pw1")).state.isAuthenticated = true ∧
        (signupAndSettle (initialState emptyStore) (js "alice") (js "pw1")).state.store jwtKey
          = some token ∧
        (signupAndSettle (initialState emptyStore) (js "alice") (js "pw1")).state.currentUser
          = some (.str (js "alice")) ∧
        (signupAndSettle (initialState emptyStore) (js "alice") (js "pw1")).state.isAuthenticated
          = true :=
  ⟨by decide, signup_success_session (initialState emptyStore) (js "alice") (js "pw1")
    (by decide)⟩

/-- C19. When `login(username, password)` returns `true`, `signToken` has made
a token for `{ username }`, that token is the value under the session key, the
session state is `currentUser = username`, `isAuthenticated = true`, and the
value under the directory key is what it was before the call; this is so right
after the call and after the renders that follow it. -/
theorem login_success_session (st : AppState) (username password : JSString)
    (h : (login st username password).completion = .returned true) :
    ∃ token, signToken (claims username) = some token ∧
      (login st username password).state.store jwtKey = some token ∧
      (login st username password).state.currentUser = some (.str username) ∧
      (login st username password).state.isAuthenticated = true ∧
      (login st username password).state.store usersKey = st.store usersKey ∧
      (loginAndSettle st username password).state.store jwtKey = some token ∧
      (loginAndSettle st username password).state.currentUser = some (.str username) ∧
      (loginAndSettle st username password).state.isAuthenticated = true ∧
      (loginAndSettle st username password).state.store usersKey = st.store usersKey ∧
      directory (loginAndSettle st username password).state.store = directory st.store := by
  obtain ⟨token, hs, hst⟩ := login_returned_true h
  have h1 : (login st username password).state.store jwtKey = some token := by
    rw [hst]
    simp [setItem]
  have h2 : (login st username password).state.currentUser = some (.str username) := by
    rw [hst]
  have h3 : (login st username password).state.isAuthenticated = true := by
    rw [hst]
  have h4 : (login st username password).state.store usersKey = st.store usersKey := by
    rw [hst]
    simp [setItem, usersKey_ne_jwtKey]
  have hsettle : (loginAndSettle st username password).state
      = flush { Changed.none with currentUser := !isUser st.currentUser username }
          (login st username password).state := by
    unfold loginAndSettle
    rw [h]
  have h5 : (loginAndSettle st username password).state.store usersKey = st.store usersKey := by
    rw [hsettle, flush_store_other _ _ usersKey_not_data, h4]
  refine ⟨token, hs, h1, h2, h3, h4, ?_, ?_, ?_, h5, ?_⟩
  · rw [hsettle, flush_store_other _ _ jwtKey_not_data, h1]
  · rw [hsettle, (flush_currentUser _ _).1, h2]
  · rw [hsettle, (flush_currentUser _ _).2.1, h3]
  · unfold directory getItemOr
    rw [h5]

theorem login_success_session_witness :
    (login (logout (signup (initialState emptyStore) (js "alice") (js "pw1")).state)
        (js "alice") (js "pw1")).completion = .returned true ∧
      ∃ token, signToken (claims (js "alice")) = some token ∧
        (login (logout (signup (initialState emptyStore) (js "alice") (js "pw1")).state)
          (js "alice") (js "pw1")).state.store jwtKey = some token ∧
        (login (logout (signup (initialState emptyStore) (js "alice") (js "pw1")).state)
          (js "alice") (js "pw1")).state.currentUser = some (.str (js "alice")) ∧
        (login (logout (signup (initialState emptyStore) (js "alice") (js "pw1")).state)
          (js "alice") (js "pw1")).state.isAuthenticated = true ∧
        (login (logout (signup (initialState emptyStore) (js "alice") (js "pw1")).state)
          (js "alice") (js "pw1")).state.store usersKey
          = (logout (signup (initialState emptyStore) (js "alice") (js "pw1")).state).store
              usersKey ∧
        (loginAndSettle (logout (signup (initialState emptyStore) (js "alice") (js "pw1")).state)
          (js "alice") (js "pw1")).state.store jwtKey = some token ∧
        (loginAndSettle (logout (signup (initialState emptyStore) (js "alice") (js "pw1")).state)
          (js "alice") (js "pw1")).state.currentUser = some (.str (js "alice")) ∧
        (loginAndSettle (logout (signup (initialState emptyStore) (js "alice") (js "pw1")).state)
          (js "alice") (js "pw1")).state.isAuthenticated = true ∧
        (loginAndSettle (logout (signup (initialState emptyStore) (js "alice") (js "pw1")).state)
          (js "alice") (js "pw1")).state.store usersKey
          = (logout (signup (initialState emptyStore) (js "alice") (js "pw1")).state).store
              usersKey ∧
        directory (loginAndSettle
            (logout (signup (initialState emptyStore) (js "alice") (js "pw1")).state)
            (js "alice") (js "pw1")).state.store
          = directory (logout (signup (initialState emptyStore) (js "alice") (js "pw1")).state).store :=
  ⟨by decide, login_success_session _ (js "alice") (js "pw1") (by decide)⟩

/-- C20. After `logout` the session key is absent, `currentUser` is `null`,
`isAuthenticated` is `false`, the collections in memory are the empty
transactions, the empty budgets and the default settings, every store key other
than the session key holds the value it held before, and the renders that
follow the call change nothing more (the save effects do not write). -/
theorem logout_postcondition (st : AppState) :
    (logout st).store jwtKey = none ∧ (logout st).currentUser = none ∧
      (logout st).isAuthenticated = false ∧ (logout st).transactions = .arr [] ∧
      (logout st).budgets = .arr [] ∧ (logout st).settings = defaultSettings ∧
      (∀ k, k ≠ jwtKey → (logout st).store k = st.store k) ∧
      logoutAndSettle st = logout st := by
  refine ⟨?_, rfl, rfl, rfl, rfl, rfl, ?_, logoutAndSettle_eq st⟩
  · simp [logout, removeItem]
  · intro k hk
    simp [logout, removeItem, hk]

/-! ## Restoration of the session at startup -/

theorem restoreEffect_of_no_token {st : AppState}
    (h : st.store jwtKey = none ∨ st.store jwtKey = some []) :
    restoreEffect st = { st with loadingAuth := false } := by
  unfold restoreEffect
  rcases h with h | h <;> rw [h]

theorem payloadUsername_null : payloadUsername .null = none := rfl

theorem restoreEffect_of_rejected {st : AppState} {token : JSString}
    (h : st.store jwtKey = some token) (hne : token ≠ [])
    (hr : (verifyToken token).returned = .null) :
    restoreEffect st = { st with store := removeItem st.store jwtKey, loadingAuth := false } := by
  unfold restoreEffect
  cases token with
  | nil => exact absurd rfl hne
  | cons c cs =>
    rw [h]
    simp only []
    rw [hr, payloadUsername_null]

theorem restoreEffect_of_accepted {st : AppState} {token u : JSString} {p : JSON}
    (h : st.store jwtKey = some token) (hv : verifyToken token = .payload p)
    (hp : payloadUsername p = some (.str u)) (hu : u ≠ []) :
    restoreEffect st =
      { st with currentUser := some (.str u), isAuthenticated := true, loadingAuth := false } := by
  unfold restoreEffect
  cases token with
  | nil =>
    exfalso
    have : verifyToken [] = .malformed := rfl
    rw [this] at hv
    cases hv
  | cons c cs =>
    rw [h]
    simp only []
    rw [hv]
    simp only [VerifyResult.returned]
    rw [hp]
    simp only []
    have hpt : p.truthy = true := by
      cases p with
      | obj ms => rfl
      | null => cases hp
      | bool b => cases hp
      | num l => cases hp
      | str s => cases hp
      | arr xs => cases hp
    have hut : (JSON.str u).truthy = true := by
      cases u with
      | nil => exact absurd rfl hu
      | cons d ds => rfl
    rw [if_pos (by rw [hpt, hut]; rfl)]

/-- C15 (as stated, refuted). With the empty string stored under the
session key, `verifyToken` rejects the stored value, yet startup leaves the key
in the store: the test `if (token)` of line 1057 skips the removal. -/
theorem startup_keeps_empty_token :
    (verifyToken []).returned = .null ∧
      (setItem emptyStore jwtKey []) jwtKey = some [] ∧
      (startup (setItem emptyStore jwtKey [])).store jwtKey = some [] ∧
      (startup (setItem emptyStore jwtKey [])).store jwtKey
        ≠ (removeItem (setItem emptyStore jwtKey []) jwtKey) jwtKey := by
  refine ⟨rfl, by decide, by decide, by decide⟩

/-- C15 (amended). Startup with no session token in the store, or with the
empty string as token, ends unauthenticated with the store unchanged; startup
with a non-empty token that `verifyToken` rejects (it returns `null`) ends
unauthenticated with the session key removed and every other key unchanged. -/
theorem startup_rejects_bad_session (store : Store) :
    ((store jwtKey = none ∨ store jwtKey = some []) →
        (startup store).currentUser = none ∧ (startup store).isAuthenticated = false ∧
          (startup store).loadingAuth = false ∧ (startup store).store = store) ∧
      (∀ token, store jwtKey = some token → token ≠ [] →
        (verifyToken token).returned = .null →
        (startup store).currentUser = none ∧ (startup store).isAuthenticated = false ∧
          (startup store).loadingAuth = false ∧
          (startup store).store = removeItem store jwtKey ∧
          (startup store).store jwtKey = none ∧
          ∀ k, k ≠ jwtKey → (startup store).store k = store k) := by
  constructor
  · intro h
    have hr : restoreEffect (initialState store)
        = { initialState store with loadingAuth := false } :=
      restoreEffect_of_no_token h
    unfold startup
    rw [hr, flush_of_no_user _ _ rfl]
    exact ⟨rfl, rfl, rfl, rfl⟩
  · intro token h hne hrej
    have hr : restoreEffect (initialState store)
        = { initialState store with store := removeItem store jwtKey, loadingAuth := false } :=
      restoreEffect_of_rejected h hne hrej
    unfold startup
    rw [hr, flush_of_no_user _ _ rfl]
    refine ⟨rfl, rfl, rfl, rfl, ?_, ?_⟩
    · simp [removeItem]
    · intro k hk
      simp [removeItem, hk]

theorem startup_rejects_bad_session_witness :
    (emptyStore jwtKey = none ∨ emptyStore jwtKey = some []) ∧
      ((startup emptyStore).currentUser = none ∧ (startup emptyStore).isAuthenticated = false ∧
        (startup emptyStore).loadingAuth = false ∧ (startup emptyStore).store = emptyStore) ∧
      (setItem emptyStore jwtKey tamperedToken) jwtKey = some tamperedToken ∧
      tamperedToken ≠ [] ∧ (verifyToken tamperedToken).returned = .null ∧
      ((startup (setItem emptyStore jwtKey tamperedToken)).currentUser = none ∧
        (startup (setItem emptyStore jwtKey tamperedToken)).isAuthenticated = false ∧
        (startup (setItem emptyStore jwtKey tamperedToken)).loadingAuth = false ∧
        (startup (setItem emptyStore jwtKey tamperedToken)).store
          = removeItem (setItem emptyStore jwtKey tamperedToken) jwtKey ∧
        (startup (setItem emptyStore jwtKey tamperedToken)).store jwtKey = none ∧
        ∀ k, k ≠ jwtKey →
          (startup (setItem emptyStore jwtKey tamperedToken)).store k
            = (setItem emptyStore jwtKey tamperedToken) k) :=
  ⟨Or.inl rfl, (startup_rejects_bad_session emptyStore).1 (Or.inl rfl), by decide, by decide,
    rfl,
    (startup_rejects_bad_session (setItem emptyStore jwtKey tamperedToken)).2 tamperedToken
      (by decide) (by decide) rfl⟩

/-- C16 (as stated, refuted). The token that `signToken` makes for the
empty username is accepted by `verifyToken` with the claims `{ username: "" }`,
but startup does not authenticate: `payload.username` is falsy at line 1059, the
token is removed and the state stays unauthenticated. -/
theorem startup_rejects_empty_username :
    ∃ token, signToken (claims []) = some token ∧
      verifyToken token = .payload (claims []) ∧
      payloadUsername (claims []) = some (.str []) ∧
      (startup (setItem emptyStore jwtKey token)).currentUser = none ∧
      (startup (setItem emptyStore jwtKey token)).isAuthenticated = false ∧
      (startup (setItem emptyStore jwtKey token)).store jwtKey = none := by
  refine ⟨js ("eyJhbGciOiJIUzI1NiIsInR5cCI6IkpXVCJ9.eyJ1c2VybmFtZSI6IiJ9."
    ++ "eW91ci1zdXBlci1zZWNyZXQta2V5LWZvci1sb2NhbC1kZW1vLW9ubHlleUoxYzJWeWJtRnRaU0k2SWlKOQ=="),
    by decide, rfl, rfl, rfl, by decide, by decide⟩

/-- C16 (amended). For every store whose session token is accepted by
`verifyToken` with a payload whose `username` is a non-empty string `u`, startup
ends authenticated as `u` (`currentUser = u`, `isAuthenticated = true`,
`loadingAuth = false`) and the token is still in the store. -/
theorem startup_accepts_verified_session (store : Store) (token u : JSString) (p : JSON)
    (h : store jwtKey = some token) (hv : verifyToken token = .payload p)
    (hp : payloadUsername p = some (.str u)) (hu : u ≠ []) :
    restoreEffect (initialState store)
        = { initialState store with
            currentUser := some (.str u), isAuthenticated := true, loadingAuth := false } ∧
      (startup store).currentUser = some (.str u) ∧ (startup store).isAuthenticated = true ∧
      (startup store).loadingAuth = false ∧ (startup store).store jwtKey = some token := by
  have hr : restoreEffect (initialState store)
      = { initialState store with
          currentUser := some (.str u), isAuthenticated := true, loadingAuth := false } :=
    restoreEffect_of_accepted h hv hp hu
  refine ⟨hr, ?_⟩
  unfold startup
  rw [hr]
  obtain ⟨c1, c2, c3⟩ := flush_currentUser
    { Changed.none with currentUser := true, loadingAuth := true }
    { initialState store with
      currentUser := some (.str u), isAuthenticated := true, loadingAuth := false }
  refine ⟨c1, c2, c3, ?_⟩
  rw [flush_store_other _ _ jwtKey_not_data]
  exact h

theorem startup_accepts_verified_session_witness :
    (setItem emptyStore jwtKey aliceToken) jwtKey = some aliceToken ∧
      verifyToken aliceToken = .payload (claims (js "alice")) ∧
      payloadUsername (claims (js "alice")) = some (.str (js "alice")) ∧ js "alice" ≠ [] ∧
      restoreEffect (initialState (setItem emptyStore jwtKey aliceToken))
        = { initialState (setItem emptyStore jwtKey aliceToken) with
            currentUser := some (.str (js "alice")), isAuthenticated := true
            loadingAuth := false } ∧
      (startup (setItem emptyStore jwtKey aliceToken)).currentUser = some (.str (js "alice")) ∧
      (startup (setItem emptyStore jwtKey aliceToken)).isAuthenticated = true ∧
      (startup (setItem emptyStore jwtKey aliceToken)).loadingAuth = false ∧
      (startup (setItem emptyStore jwtKey aliceToken)).store jwtKey = some aliceToken :=
  ⟨by decide, rfl, rfl, by decide,
    startup_accepts_verified_session (setItem emptyStore jwtKey aliceToken) aliceToken
      (js "alice") (claims (js "alice")) (by decide) rfl rfl (by decide)⟩

/-! ## The load effect -/

theorem loadCollection_absent {store : Store} {key : JSString} (fallback : JSON)
    (h : store key = none ∨ store key = some []) :
    loadCollection store key fallback = some fallback := by
  unfold loadCollection
  rcases h with h | h <;> rw [h]

theorem loadCollection_present {store : Store} {key v : JSString} (fallback : JSON)
    (h : store key = some v) (hv : v ≠ []) :
    loadCollection store key fallback = JSON.parse v := by
  unfold loadCollection
  cases v with
  | nil => exact absurd rfl hv
  | cons c cs => rw [h]

theorem loadCollection_stored {store : Store} {key : JSString} (fallback : JSON) {v : JSON}
    (h : store key = some v.stringify) (hv : v.WF) :
    loadCollection store key fallback = some v := by
  obtain ⟨c, t, hs, _⟩ := stringify_head v hv
  rw [loadCollection_present fallback h (by rw [hs]; exact List.cons_ne_nil c t)]
  exact JSON.parse_stringify v hv

theorem loadEffect_user (u : JSString) (hu : u ≠ []) (store : Store) :
    loadEffect (some (.str u)) store =
      match loadCollection store (getUserDataKey u (js "transactions")) (.arr []),
          loadCollection store (getUserDataKey u (js "budgets")) (.arr []),
          loadCollection store (getUserDataKey u (js "settings")) (userSettings (.str u)) with
      | some t, some b, some s => some (t, b, s)
      | _, _, _ => some (.arr [], .arr [], userSettings (.str u)) := by
  cases u with
  | nil => exact absurd rfl hu
  | cons c cs => rfl

/-- C12 (as stated, refuted). In a store where the transactions of
`alice` are the text `[1]`, which parses, and her budgets a text that does not
parse, the load effect sets the transactions to the empty array, not to the
stored `[1]`: the one `catch` of lines 1094-1100 resets all three collections. -/
theorem loadEffect_resets_parsable_collection :
    corruptBudgetsStore (getUserDataKey (js "alice") (js "transactions")) = some (js "[1]") ∧
      JSON.parse (js "[1]") = some (.arr [.num (js "1")]) ∧
      corruptBudgetsStore (getUserDataKey (js "alice") (js "budgets")) = some (js "\x7b") ∧
      JSON.parse (js "\x7b") = none ∧
      loadEffect (some (.str (js "alice"))) corruptBudgetsStore
        = some (.arr [], .arr [], userSettings (.str (js "alice"))) ∧
      (loadEffect (some (.str (js "alice"))) corruptBudgetsStore).map (fun r => r.1)
        ≠ some (.arr [.num (js "1")]) := by
  refine ⟨by decide, rfl, by decide, rfl, rfl, ?_⟩
  intro h
  have h2 : some (JSON.arr []) = some (JSON.arr [JSON.num (js "1")]) := h
  injection h2 with h3
  injection h3 with h4
  cases h4

/-- C12 (amended). For every store and every non-empty username the load effect
loads three values and raises nothing. When none of the three stored texts fails
to parse, each collection is loaded by itself: as its default when its key is
absent or holds the empty string, as the parsed value otherwise. When at least
one stored text fails to parse, all three collections are loaded as their
defaults (empty transactions, empty budgets, default settings). -/
theorem loadEffect_all_or_defaults (store : Store) (u : JSString) (hu : u ≠ []) :
    (loadEffect (some (.str u)) store).isSome = true ∧
      (∀ t b s,
        loadCollection store (getUserDataKey u (js "transactions")) (.arr []) = some t →
        loadCollection store (getUserDataKey u (js "budgets")) (.arr []) = some b →
        loadCollection store (getUserDataKey u (js "settings")) (userSettings (.str u)) = some s →
        loadEffect (some (.str u)) store = some (t, b, s)) ∧
      ((loadCollection store (getUserDataKey u (js "transactions")) (.arr []) = none ∨
          loadCollection store (getUserDataKey u (js "budgets")) (.arr []) = none ∨
          loadCollection store (getUserDataKey u (js "settings")) (userSettings (.str u)) = none) →
        loadEffect (some (.str u)) store = some (.arr [], .arr [], userSettings (.str u))) ∧
      (∀ key fallback, store key = none ∨ store key = some [] →
        loadCollection store key fallback = some fallback) ∧
      (∀ key fallback v, store key = some v → v ≠ [] →
        loadCollection store key fallback = JSON.parse v) := by
  refine ⟨?_, ?_, ?_, fun key fallback h => loadCollection_absent fallback h,
    fun key fallback v h hv => loadCollection_present fallback h hv⟩
  · rw [loadEffect_user u hu]
    split <;> rfl
  · intro t b s ht hb hs
    rw [loadEffect_user u hu, ht, hb, hs]
  · intro h
    rw [loadEffect_user u hu]
    split
    · rename_i t b s ht hb hs
      rcases h with h | h | h
      · rw [h] at ht
        cases ht
      · rw [h] at hb
        cases hb
      · rw [h] at hs
        cases hs
    · rfl

theorem loadEffect_all_or_defaults_witness :
    js "alice" ≠ [] ∧
      (loadEffect (some (.str (js "alice"))) corruptBudgetsStore).isSome = true ∧
      loadCollection corruptBudgetsStore (getUserDataKey (js "alice") (js "budgets")) (.arr [])
        = none ∧
      loadEffect (some (.str (js "alice"))) corruptBudgetsStore
        = some (.arr [], .arr [], userSettings (.str (js "alice"))) ∧
      loadEffect (some (.str (js "alice")))
          (setItem emptyStore (getUserDataKey (js "alice") (js "transactions")) (js "[1]"))
        = some (.arr [.num (js "1")], .arr [], userSettings (.str (js "alice"))) :=
  ⟨by decide, (loadEffect_all_or_defaults corruptBudgetsStore (js "alice") (by decide)).1, rfl,
    (loadEffect_all_or_defaults corruptBudgetsStore (js "alice") (by decide)).2.2.1
      (Or.inr (Or.inl rfl)),
    (loadEffect_all_or_defaults
      (setItem emptyStore (getUserDataKey (js "alice") (js "transactions")) (js "[1]"))
      (js "alice") (by decide)).2.1 _ _ _ rfl rfl rfl⟩

/-- C13. For every username `u` with none of its three collection keys present
in the store, the load effect yields transactions `[]`, budgets `[]` and the
settings `{profilePictureUrl: '', name: u, currency: '$', isDarkMode: false}`.
A username is a non-empty string: the form refuses an empty one before it calls
`login` or `signup` (line 885) and the restoration refuses one (line 1059), so
that the current user is never the empty string (`currentUser_nonempty`). -/
theorem loadEffect_first_seen (store : Store) (u : JSString) (hu : u ≠ [])
    (ht : store (getUserDataKey u (js "transactions")) = none)
    (hb : store (getUserDataKey u (js "budgets")) = none)
    (hs : store (getUserDataKey u (js "settings")) = none) :
    loadEffect (some (.str u)) store
      = some (.arr [], .arr [],
          .obj [(js "profilePictureUrl", .str []), (js "name", .str u),
            (js "currency", .str (js "$")), (js "isDarkMode", .bool false)]) := by
  rw [loadEffect_user u hu, loadCollection_absent _ (Or.inl ht),
    loadCollection_absent _ (Or.inl hb), loadCollection_absent _ (Or.inl hs)]
  rfl

theorem loadEffect_first_seen_witness :
    js "bob" ≠ [] ∧
      corruptBudgetsStore (getUserDataKey (js "bob") (js "transactions")) = none ∧
      corruptBudgetsStore (getUserDataKey (js "bob") (js "budgets")) = none ∧
      corruptBudgetsStore (getUserDataKey (js "bob") (js "settings")) = none ∧
      loadEffect (some (.str (js "bob"))) corruptBudgetsStore
        = some (.arr [], .arr [],
            .obj [(js "profilePictureUrl", .str []), (js "name", .str (js "bob")),
              (js "currency", .str (js "$")), (js "isDarkMode", .bool false)]) :=
  ⟨by decide, by decide, by decide, by decide,
    loadEffect_first_seen corruptBudgetsStore (js "bob") (by decide) (by decide) (by decide)
      (by decide)⟩

/-! ## Saving and reloading across sessions -/

theorem saveEffect_user (u : JSString) (hu : u ≠ []) (c : JSString) (v : JSON) (store : Store) :
    saveEffect (some (.str u)) false c v store = setItem store (getUserDataKey u c) v.stringify := by
  cases u with
  | nil => exact absurd rfl hu
  | cons d ds => rfl

theorem transactions_ne_budgets (u : JSString) :
    getUserDataKey u (js "transactions") ≠ getUserDataKey u (js "budgets") := fun h =>
  absurd (getUserDataKey_inj transactions_mem budgets_mem h).2 (by decide)

theorem transactions_ne_settings (u : JSString) :
    getUserDataKey u (js "transactions") ≠ getUserDataKey u (js "settings") := fun h =>
  absurd (getUserDataKey_inj transactions_mem settings_mem h).2 (by decide)

theorem budgets_ne_settings (u : JSString) :
    getUserDataKey u (js "budgets") ≠ getUserDataKey u (js "settings") := fun h =>
  absurd (getUserDataKey_inj budgets_mem settings_mem h).2 (by decide)

/-- The render after a change of user, for a user whose three stored collections
parse: the loaded values become the collections in memory, and the render after
it saves them back under the same keys. -/
theorem flush_reload (ch : Changed) (st : AppState) (u : JSString) (t b s : JSON)
    (hch : ch.currentUser = true) (hc : st.currentUser = some (.str u)) (hu : u ≠ [])
    (hl : st.loadingAuth = false)
    (hload : loadEffect (some (.str u)) st.store = some (t, b, s)) :
    (flush ch st).transactions = t ∧ (flush ch st).budgets = b ∧ (flush ch st).settings = s ∧
      (flush ch st).store (getUserDataKey u (js "transactions")) = some t.stringify ∧
      (flush ch st).store (getUserDataKey u (js "budgets")) = some b.stringify ∧
      (flush ch st).store (getUserDataKey u (js "settings")) = some s.stringify := by
  obtain ⟨store, t0, b0, s0, ia, cu, la⟩ := st
  simp only [] at hc hl hload
  subst hc hl
  have h1 : commit ch
      { store := store, transactions := t0, budgets := b0, settings := s0, isAuthenticated := ia,
        currentUser := some (.str u), loadingAuth := false }
      = ({ store := setItem (setItem (setItem store (getUserDataKey u (js "transactions"))
              t0.stringify) (getUserDataKey u (js "budgets")) b0.stringify)
              (getUserDataKey u (js "settings")) s0.stringify
           transactions := t, budgets := b, settings := s, isAuthenticated := ia
           currentUser := some (.str u), loadingAuth := false },
         { Changed.none with transactions := true, budgets := true, settings := true }) := by
    simp only [commit, hch, Bool.or_true, Bool.true_or, if_true, hload, saveEffect_user u hu]
  unfold flush
  rw [h1]
  refine ⟨?_, ?_, ?_, ?_, ?_, ?_⟩
  · simp [commit, Changed.none]
  · simp [commit, Changed.none]
  · simp [commit, Changed.none]
  · simp [commit, Changed.none, saveEffect_user u hu, setItem, transactions_ne_budgets u,
      transactions_ne_settings u]
  · simp [commit, Changed.none, saveEffect_user u hu, setItem, budgets_ne_settings u]
  · simp [commit, Changed.none, saveEffect_user u hu, setItem]

/-- C14. For a user `u` whose record set has been saved while authenticated (the
three stored texts of `u` are the `JSON.stringify` texts of the collections in
memory), logout followed by a login of `u` that returns `true` and by the
renders it causes leaves in memory the transactions, budgets and settings that
were saved; the three stored texts of `u` are the same after the logout and the
same after the reload as before the logout. -/
theorem relogin_restores_saved (st : AppState) (u password : JSString)
    (hs : SavedSession st u)
    (hl : (login (logoutAndSettle st) u password).completion = .returned true) :
    (loginAndSettle (logoutAndSettle st) u password).state.transactions = st.transactions ∧
      (loginAndSettle (logoutAndSettle st) u password).state.budgets = st.budgets ∧
      (loginAndSettle (logoutAndSettle st) u password).state.settings = st.settings ∧
      (∀ c ∈ collections,
        (logoutAndSettle st).store (getUserDataKey u c) = st.store (getUserDataKey u c) ∧
        (loginAndSettle (logoutAndSettle st) u password).state.store (getUserDataKey u c)
          = st.store (getUserDataKey u c)) := by
  obtain ⟨hcu, hu, hla, _, wt, wb, ws, et, eb, es⟩ := hs
  have hout : ∀ c ∈ collections,
      (logout st).store (getUserDataKey u c) = st.store (getUserDataKey u c) := by
    intro c hc
    simp [logout, removeItem, getUserDataKey_ne_jwtKey u hc]
  rw [logoutAndSettle_eq] at hl ⊢
  obtain ⟨token, hsig, hst⟩ := login_returned_true hl
  have hin : ∀ c ∈ collections,
      (login (logout st) u password).state.store (getUserDataKey u c)
        = st.store (getUserDataKey u c) := by
    intro c hc
    rw [hst]
    simp [setItem, logout, removeItem, getUserDataKey_ne_jwtKey u hc]
  have hload : loadEffect (some (.str u)) (login (logout st) u password).state.store
      = some (st.transactions, st.budgets, st.settings) := by
    rw [loadEffect_user u hu,
      loadCollection_stored _ ((hin _ transactions_mem).trans et) wt,
      loadCollection_stored _ ((hin _ budgets_mem).trans eb) wb,
      loadCollection_stored _ ((hin _ settings_mem).trans es) ws]
  have hsettle : (loginAndSettle (logout st) u password).state
      = flush { Changed.none with currentUser := !isUser (logout st).currentUser u }
          (login (logout st) u password).state := by
    unfold loginAndSettle
    rw [hl]
  obtain ⟨r1, r2, r3, r4, r5, r6⟩ := flush_reload
    { Changed.none with currentUser := !isUser (logout st).currentUser u }
    (login (logout st) u password).state u st.transactions st.budgets st.settings rfl
    (by rw [hst]) hu (by rw [hst]; exact hla) hload
  rw [hsettle]
  refine ⟨r1, r2, r3, ?_⟩
  intro c hc
  refine ⟨hout c hc, ?_⟩
  have hcases : c = js "transactions" ∨ c = js "budgets" ∨ c = js "settings" := by
    simpa [collections] using hc
  rcases hcases with e | e | e <;> subst e
  · rw [r4, et]
  · rw [r5, eb]
  · rw [r6, es]

set_option maxRecDepth 8000 in
theorem aliceSaved_wf :
    aliceSaved.transactions.WF ∧ aliceSaved.budgets.WF ∧ aliceSaved.settings.WF :=
  ⟨JSON.parse_wf (show JSON.parse aliceSaved.transactions.stringify
      = some aliceSaved.transactions from rfl),
    JSON.parse_wf (show JSON.parse aliceSaved.budgets.stringify = some aliceSaved.budgets from rfl),
    JSON.parse_wf (show JSON.parse aliceSaved.settings.stringify
      = some aliceSaved.settings from rfl)⟩

theorem aliceSaved_saved : SavedSession aliceSaved (js "alice") :=
  ⟨rfl, by decide, rfl, ⟨⟨_, rfl⟩, ⟨_, rfl⟩, ⟨_, rfl⟩⟩, aliceSaved_wf.1, aliceSaved_wf.2.1, aliceSaved_wf.2.2, by decide,
    by decide, by decide⟩

theorem aliceSaved_login :
    (login (logoutAndSettle aliceSaved) (js "alice") (js "pw1")).completion = .returned true := by
  decide

set_option maxRecDepth 4000 in
theorem relogin_restores_saved_witness :
    SavedSession aliceSaved (js "alice") ∧
      (login (logoutAndSettle aliceSaved) (js "alice") (js "pw1")).completion = .returned true ∧
      aliceSaved.transactions = .arr [foodExpense] ∧
      (loginAndSettle (logoutAndSettle aliceSaved) (js "alice") (js "pw1")).state.transactions
        = .arr [foodExpense] ∧
      ((loginAndSettle (logoutAndSettle aliceSaved) (js "alice") (js "pw1")).state.transactions
          = aliceSaved.transactions ∧
        (loginAndSettle (logoutAndSettle aliceSaved) (js "alice") (js "pw1")).state.budgets
          = aliceSaved.budgets ∧
        (loginAndSettle (logoutAndSettle aliceSaved) (js "alice") (js "pw1")).state.settings
          = aliceSaved.settings ∧
        (∀ c ∈ collections,
          (logoutAndSettle aliceSaved).store (getUserDataKey (js "alice") c)
            = aliceSaved.store (getUserDataKey (js "alice") c) ∧
          (loginAndSettle (logoutAndSettle aliceSaved) (js "alice") (js "pw1")).state.store
              (getUserDataKey (js "alice") c)
            = aliceSaved.store (getUserDataKey (js "alice") c))) :=
  ⟨aliceSaved_saved, aliceSaved_login, rfl, rfl,
    relogin_restores_saved aliceSaved (js "alice") (js "pw1") aliceSaved_saved aliceSaved_login⟩

theorem logout_postcondition_witness :
    usersKey ≠ jwtKey ∧ (logout aliceSaved).store jwtKey = none ∧
      (logout aliceSaved).store usersKey = aliceSaved.store usersKey ∧
      (logout aliceSaved).store (getUserDataKey (js "alice") (js "transactions"))
        = some (JSON.arr [foodExpense]).stringify ∧
      logoutAndSettle aliceSaved = logout aliceSaved :=
  ⟨by decide, (logout_postcondition aliceSaved).1,
    (logout_postcondition aliceSaved).2.2.2.2.2.2.1 usersKey (by decide), by decide,
    (logout_postcondition aliceSaved).2.2.2.2.2.2.2⟩

/-! ## The header segment and the format of a token -/

/-- C29. For all strings `h`, `h'` without a `.` and all `p`, `s`, `verifyToken`
gives the same result (the same payload, or the same kind of failure) on
`h.p.s` and on `h'.p.s`. -/
theorem verifyToken_ignores_header (h h' p s : JSString) (hh : dot ∉ h) (hh' : dot ∉ h') :
    verifyToken (h ++ dot :: (p ++ dot :: s)) = verifyToken (h' ++ dot :: (p ++ dot :: s)) ∧
      (verifyToken (h ++ dot :: (p ++ dot :: s))).returned
        = (verifyToken (h' ++ dot :: (p ++ dot :: s))).returned := by
  have e : verifyToken (h ++ dot :: (p ++ dot :: s))
      = verifyToken (h' ++ dot :: (p ++ dot :: s)) := by
    unfold verifyToken
    rw [splitOn_append_sep _ hh, splitOn_append_sep _ hh']
    cases splitOn dot (p ++ dot :: s) with
    | nil => rfl
    | cons a as =>
      cases as with
      | nil => rfl
      | cons b bs =>
        cases bs with
        | nil => rfl
        | cons c cs => rfl
  exact ⟨e, by rw [e]⟩

theorem verifyToken_ignores_header_witness :
    dot ∉ js "eyJhbGciOiJIUzI1NiIsInR5cCI6IkpXVCJ9" ∧ dot ∉ js "x" ∧
      verifyToken aliceToken = .payload (claims (js "alice")) ∧
      (verifyToken (js "eyJhbGciOiJIUzI1NiIsInR5cCI6IkpXVCJ9" ++ dot ::
            (js "eyJ1c2VybmFtZSI6ImFsaWNlIn0=" ++ dot ::
              js "eW91ci1zdXBlci1zZWNyZXQta2V5LWZvci1sb2NhbC1kZW1vLW9ubHlleUoxYzJWeWJtRnRaU0k2SW1Gc2FXTmxJbjA9"))
          = verifyToken (js "x" ++ dot ::
            (js "eyJ1c2VybmFtZSI6ImFsaWNlIn0=" ++ dot ::
              js "eW91ci1zdXBlci1zZWNyZXQta2V5LWZvci1sb2NhbC1kZW1vLW9ubHlleUoxYzJWeWJtRnRaU0k2SW1Gc2FXTmxJbjA9")) ∧
        (verifyToken (js "eyJhbGciOiJIUzI1NiIsInR5cCI6IkpXVCJ9" ++ dot ::
            (js "eyJ1c2VybmFtZSI6ImFsaWNlIn0=" ++ dot ::
              js "eW91ci1zdXBlci1zZWNyZXQta2V5LWZvci1sb2NhbC1kZW1vLW9ubHlleUoxYzJWeWJtRnRaU0k2SW1Gc2FXTmxJbjA9"))).returned
          = (verifyToken (js "x" ++ dot ::
            (js "eyJ1c2VybmFtZSI6ImFsaWNlIn0=" ++ dot ::
              js "eW91ci1zdXBlci1zZWNyZXQta2V5LWZvci1sb2NhbC1kZW1vLW9ubHlleUoxYzJWeWJtRnRaU0k2SW1Gc2FXTmxJbjA9"))).returned) :=
  ⟨by decide, by decide, rfl,
    verifyToken_ignores_header _ _ _ _ (by decide) (by decide)⟩

/-- Where `signToken` returns, the token splits on `.` into exactly three
segments: `btoa` of the JSON text of the fixed header, `btoa` of the JSON text of
the payload, and `btoa` of the secret followed by the second segment; no segment
contains a `.`, and `atob` of the second segment is the JSON text of the
payload. -/
theorem signToken_format {payload : JSON} {token : JSString}
    (h : signToken payload = some token) :
    ∃ hd p s, splitOn dot token = [hd, p, s] ∧
      btoa (JSON.obj [(js "alg", .str (js "HS256")), (js "typ", .str (js "JWT"))]).stringify
        = some hd ∧
      btoa payload.stringify = some p ∧ btoa (LOCAL_JWT_SECRET ++ p) = some s ∧
      dot ∉ hd ∧ dot ∉ p ∧ dot ∉ s ∧ atob p = some payload.stringify := by
  obtain ⟨hd, p, s, h1, h2, h3, rfl⟩ := signToken_eq_some h
  have d1 := dot_not_mem_of_btoa h1
  have d2 := dot_not_mem_of_btoa h2
  have d3 := dot_not_mem_of_btoa h3
  refine ⟨hd, p, s, ?_, h1, h2, h3, d1, d2, d3, atob_btoa h2⟩
  rw [splitOn_token d1 d2, splitOn_of_not_mem d3]

set_option maxRecDepth 8000 in
/-- C26 (code at the failing input). For the claims `{ username: "λ" }`
`signToken` returns no string: `btoa` throws on the JSON text of the claims,
which holds the code unit `U+03BB`. (For the claims of `alice` the token has the
three segments of the format.) -/
theorem signToken_no_token_for_lambda :
    (claims [0x3BB]).stringify = js "\x7b\"username\":\"λ\"\x7d" ∧
      btoa (js "\x7b\"username\":\"λ\"\x7d") = none ∧
      signToken (claims [0x3BB]) = none ∧
      signToken (claims (js "alice")) = some aliceToken ∧
      splitOn dot aliceToken
        = [js "eyJhbGciOiJIUzI1NiIsInR5cCI6IkpXVCJ9", js "eyJ1c2VybmFtZSI6ImFsaWNlIn0=",
            js ("eW91ci1zdXBlci1zZWNyZXQta2V5LWZvci1sb2NhbC1kZW1vLW9ubHlleUoxYzJWeWJtRnRaU0k2"
              ++ "SW1Gc2FXTmxJbjA9")] :=
  ⟨by decide, by decide, by decide, by decide, by decide⟩

/-! ## What the save effects and the other operations leave alone -/

theorem saveEffect_frame (currentUser : Option JSON) (loadingAuth : Bool) (c : JSString)
    (value : JSON) (store : Store) :
    saveEffect currentUser loadingAuth c value store = store ∨
      ∃ name, templateText <$> currentUser = some (some name) ∧
        saveEffect currentUser loadingAuth c value store
          = setItem store (getUserDataKey name c) value.stringify := by
  unfold saveEffect
  cases currentUser with
  | none => exact Or.inl rfl
  | some cu =>
    simp only []
    split_ifs
    · cases ht : templateText cu with
      | none => exact Or.inl rfl
      | some name => exact Or.inr ⟨name, by simp [ht], rfl⟩
    · exact Or.inl rfl

theorem templateText_str (u : JSString) : templateText (.str u) = some u := by
  cases u <;> rfl

/-- C25. The save effect of collection `c` for the current user `u` changes at
most the value under the key of `u` and `c`: every other key keeps its value, and
the directory key, the session key, the keys of the other two collections of `u`
and every collection key of every other username are other keys. -/
theorem saveEffect_writes_one_key (store : Store) (u c : JSString) (loadingAuth : Bool)
    (value : JSON) (hc : c ∈ collections) :
    (∀ k, k ≠ getUserDataKey u c →
        saveEffect (some (.str u)) loadingAuth c value store k = store k) ∧
      usersKey ≠ getUserDataKey u c ∧ jwtKey ≠ getUserDataKey u c ∧
      (∀ c' ∈ collections, c' ≠ c → getUserDataKey u c' ≠ getUserDataKey u c) ∧
      (∀ u' c', c' ∈ collections → u' ≠ u → getUserDataKey u' c' ≠ getUserDataKey u c) := by
  refine ⟨?_, usersKey_not_data u c hc, jwtKey_not_data u c hc, ?_, ?_⟩
  · intro k hk
    rcases saveEffect_frame (some (.str u)) loadingAuth c value store with h | ⟨name, hn, h⟩
    · rw [h]
    · rw [h]
      have e : name = u := by
        simp only [Option.map_eq_map, Option.map_some', templateText_str, Option.some.injEq]
          at hn
        exact hn.symm
      subst e
      simp [setItem, hk]
  · intro c' hc' hne h
    exact hne (getUserDataKey_inj hc' hc h).2
  · intro u' c' hc' hne h
    exact hne (getUserDataKey_inj hc' hc h).1

theorem saveEffect_writes_one_key_witness :
    js "budgets" ∈ collections ∧
      saveEffect (some (.str (js "alice"))) false (js "budgets") (.arr []) aliceSaved.store
          (getUserDataKey (js "alice") (js "budgets")) = some (js "[]") ∧
      ((∀ k, k ≠ getUserDataKey (js "alice") (js "budgets") →
          saveEffect (some (.str (js "alice"))) false (js "budgets") (.arr []) aliceSaved.store k
            = aliceSaved.store k) ∧
        usersKey ≠ getUserDataKey (js "alice") (js "budgets") ∧
        jwtKey ≠ getUserDataKey (js "alice") (js "budgets") ∧
        (∀ c' ∈ collections, c' ≠ js "budgets" →
          getUserDataKey (js "alice") c' ≠ getUserDataKey (js "alice") (js "budgets")) ∧
        (∀ u' c', c' ∈ collections → u' ≠ js "alice" →
          getUserDataKey u' c' ≠ getUserDataKey (js "alice") (js "budgets"))) :=
  ⟨by decide, by decide,
    saveEffect_writes_one_key aliceSaved.store (js "alice") (js "budgets") false (.arr [])
      (by decide)⟩

/-! ## Credentials are kept -/

theorem directory_congr {s1 s2 : Store} (h : s1 usersKey = s2 usersKey) :
    directory s1 = directory s2 := by
  unfold directory getItemOr
  rw [h]

theorem hasCredential_of_store {st st' : AppState} {username password : JSString}
    (h : HasCredential st username password) (hs : st'.store usersKey = st.store usersKey) :
    HasCredential st' username password := by
  obtain ⟨users, hd, hp⟩ := h
  exact ⟨users, by rw [directory_congr hs]; exact hd, hp⟩

theorem restoreEffect_store_users (st : AppState) :
    (restoreEffect st).store usersKey = st.store usersKey := by
  have hr : removeItem st.store jwtKey usersKey = st.store usersKey := by
    simp [removeItem, usersKey_ne_jwtKey]
  unfold restoreEffect
  split
  · rfl
  · rfl
  · split
    · exact hr
    · split
      · rfl
      · exact hr

theorem hasCredential_sessionOp {st : AppState} {username password : JSString}
    (h : HasCredential st username password) (op : SessionOp) :
    HasCredential (op.apply st) username password := by
  cases op with
  | signup u p => exact hasCredential_apply h (.signup u p)
  | login u p => exact hasCredential_apply h (.login u p)
  | logout => exact hasCredential_apply h .logout
  | restoreOnStartup => exact hasCredential_of_store h (restoreEffect_store_users st)
  | load =>
    refine hasCredential_of_store h ?_
    simp only [SessionOp.apply]
    split <;> rfl
  | saveTransactions =>
    exact hasCredential_of_store h
      (saveEffect_other _ _ _ _ (fun name => usersKey_not_data name _ transactions_mem))
  | saveBudgets =>
    exact hasCredential_of_store h
      (saveEffect_other _ _ _ _ (fun name => usersKey_not_data name _ budgets_mem))
  | saveSettings =>
    exact hasCredential_of_store h
      (saveEffect_other _ _ _ _ (fun name => usersKey_not_data name _ settings_mem))
  | render ch => exact hasCredential_of_store h (commit_store_other ch st usersKey_not_data)
  | setTransactions v => exact hasCredential_of_store h rfl
  | setBudgets v => exact hasCredential_of_store h rfl
  | setSettings v => exact hasCredential_of_store h rfl

/-- C21. Whenever the persisted directory stores the password `p` for the
username `u`, it still stores `p` for `u` after any sequence of operations of the
session layer: `signup`, `login`, `logout`, startup restoration, load, the save of
any collection, the effects of any render and any setter call; the same holds
from the first render to the settled state of startup. -/
theorem credentials_kept (st : AppState) (ops : List SessionOp) (username password : JSString)
    (h : HasCredential st username password) :
    HasCredential (runOps st ops) username password ∧
      (HasCredential (initialState st.store) username password ∧
        HasCredential (startup st.store) username password) := by
  refine ⟨?_, ?_, ?_⟩
  · unfold runOps
    induction ops generalizing st with
    | nil => exact h
    | cons op ops ih => exact ih _ (hasCredential_sessionOp h op)
  · exact hasCredential_of_store h rfl
  · refine hasCredential_of_store h ?_
    unfold startup
    rw [flush_store_other _ _ usersKey_not_data, restoreEffect_store_users]
    rfl

theorem credentials_kept_witness :
    HasCredential aliceSaved (js "alice") (js "pw1") ∧
      HasCredential
        (runOps aliceSaved
          [.signup (js "alice") (js "other"), .signup (js "bob") (js "pw2"),
            .setSettings (.obj []), .saveSettings, .logout, .login (js "bob") (js "pw2"),
            .load, .render Changed.none, .restoreOnStartup])
        (js "alice") (js "pw1") ∧
      HasCredential (initialState aliceSaved.store) (js "alice") (js "pw1") ∧
      HasCredential (startup aliceSaved.store) (js "alice") (js "pw1") :=
  ⟨⟨_, rfl, by decide⟩,
    credentials_kept aliceSaved _ (js "alice") (js "pw1") ⟨_, rfl, by decide⟩⟩

/-! ## The session invariant -/

theorem sessionInvariant_of_eq {st st' : AppState} (h : SessionInvariant st)
    (hc : st'.currentUser = st.currentUser) (ha : st'.isAuthenticated = st.isAuthenticated)
    (hs : st'.store jwtKey = st.store jwtKey) : SessionInvariant st' := by
  obtain ⟨h1, h2⟩ := h
  refine ⟨by rw [ha, hc, h1], ?_⟩
  intro cu hcu
  rw [hc] at hcu
  obtain ⟨token, p, e1, e2, e3⟩ := h2 cu hcu
  exact ⟨token, p, by rw [hs, e1], e2, e3⟩

theorem sessionInvariant_flush {st : AppState} (h : SessionInvariant st) (ch : Changed) :
    SessionInvariant (flush ch st) :=
  sessionInvariant_of_eq h (flush_currentUser ch st).1 (flush_currentUser ch st).2.1
    (flush_store_other ch st jwtKey_not_data)

theorem payloadUsername_claims (username : JSString) :
    payloadUsername (claims username) = some (.str username) := by
  simp [payloadUsername, claims, getOwn]

theorem sessionInvariant_signed {st : AppState} {username token : JSString}
    (hs : signToken (claims username) = some token)
    (hc : st.currentUser = some (.str username)) (ha : st.isAuthenticated = true)
    (ht : st.store jwtKey = some token) : SessionInvariant st := by
  refine ⟨by rw [ha, hc]; rfl, ?_⟩
  intro cu hcu
  rw [hc] at hcu
  cases hcu
  exact ⟨token, claims username, ht, verifyToken_signToken (claims_wf username) hs,
    payloadUsername_claims username⟩

theorem signup_session (st : AppState) (username password : JSString) :
    (signup st username password).completion = .returned true ∨
      ((signup st username password).state.currentUser = st.currentUser ∧
        (signup st username password).state.isAuthenticated = st.isAuthenticated ∧
        (signup st username password).state.store jwtKey = st.store jwtKey) := by
  rcases signup_cases st username password with e | e | ⟨text, e⟩ | ⟨text, token, _, e⟩
  · rw [e]
    exact Or.inr ⟨rfl, rfl, rfl⟩
  · rw [e]
    exact Or.inr ⟨rfl, rfl, rfl⟩
  · rw [e]
    refine Or.inr ⟨rfl, rfl, ?_⟩
    simp [setItem, usersKey_ne_jwtKey.symm]
  · rw [e]
    exact Or.inl rfl

theorem login_session (st : AppState) (username password : JSString) :
    (login st username password).completion = .returned true ∨
      (login st username password).state = st := by
  rcases login_cases st username password with e | e | ⟨token, _, e⟩
  · rw [e]
    exact Or.inr rfl
  · rw [e]
    exact Or.inr rfl
  · rw [e]
    exact Or.inl rfl

theorem sessionInvariant_signup {st : AppState} (h : SessionInvariant st)
    (username password : JSString) :
    SessionInvariant (signup st username password).state := by
  rcases signup_session st username password with hcmp | ⟨h1, h2, h3⟩
  · obtain ⟨text, token, hs, hst⟩ := signup_state_of_true hcmp
    exact sessionInvariant_signed hs (by rw [hst]) (by rw [hst]) (by rw [hst]; simp [setItem])
  · exact sessionInvariant_of_eq h h1 h2 h3

theorem sessionInvariant_login {st : AppState} (h : SessionInvariant st)
    (username password : JSString) :
    SessionInvariant (login st username password).state := by
  rcases login_session st username password with hcmp | e
  · obtain ⟨token, hs, hst⟩ := login_returned_true hcmp
    exact sessionInvariant_signed hs (by rw [hst]) (by rw [hst]) (by rw [hst]; simp [setItem])
  · rw [e]
    exact h

theorem sessionInvariant_logout (st : AppState) : SessionInvariant (logout st) :=
  ⟨rfl, fun cu hcu => by cases hcu⟩

theorem sessionInvariant_apply {st : AppState} (h : SessionInvariant st) (a : AuthAction) :
    SessionInvariant (a.apply st) := by
  cases a with
  | signup u p => exact sessionInvariant_signup h u p
  | login u p => exact sessionInvariant_login h u p
  | logout => exact sessionInvariant_logout st

theorem sessionInvariant_settle {st : AppState} (h : SessionInvariant st) (a : AuthAction) :
    SessionInvariant (a.settle st) := by
  cases a with
  | signup u p =>
    simp only [AuthAction.settle, signupAndSettle]
    split
    · exact sessionInvariant_flush (sessionInvariant_signup h u p) _
    · exact sessionInvariant_signup h u p
  | login u p =>
    simp only [AuthAction.settle, loginAndSettle]
    split
    · exact sessionInvariant_flush (sessionInvariant_login h u p) _
    · exact sessionInvariant_login h u p
  | logout =>
    simp only [AuthAction.settle]
    rw [logoutAndSettle_eq]
    exact sessionInvariant_logout st

theorem restoreEffect_cases (store : Store) :
    (restoreEffect (initialState store) = { initialState store with loadingAuth := false } ∧
        (store jwtKey = none ∨ store jwtKey = some [])) ∨
      restoreEffect (initialState store)
        = { initialState store with store := removeItem store jwtKey, loadingAuth := false } ∨
      ∃ token p username, store jwtKey = some token ∧ verifyToken token = .payload p ∧
        payloadUsername p = some username ∧
        restoreEffect (initialState store)
          = { initialState store with
              currentUser := some username, isAuthenticated := true, loadingAuth := false } := by
  unfold restoreEffect
  cases hs : store jwtKey with
  | none => exact Or.inl ⟨by simp [initialState, hs], Or.inl rfl⟩
  | some token =>
    cases token with
    | nil => exact Or.inl ⟨by simp [initialState, hs], Or.inr rfl⟩
    | cons c cs =>
      right
      simp only [initialState, hs]
      cases hv : verifyToken (c :: cs) with
      | payload p =>
        simp only [VerifyResult.returned]
        cases hp : payloadUsername p with
        | none => exact Or.inl rfl
        | some username =>
          simp only []
          split_ifs
          · exact Or.inr ⟨c :: cs, p, username, rfl, hv, hp, rfl⟩
          · exact Or.inl rfl
      | malformed => exact Or.inl rfl
      | signatureMismatch => exact Or.inl rfl
      | caught => exact Or.inl rfl

theorem sessionInvariant_restore (store : Store) :
    SessionInvariant (restoreEffect (initialState store)) := by
  rcases restoreEffect_cases store with ⟨h, _⟩ | h | ⟨token, p, username, h1, h2, h3, h⟩
  · rw [h]
    exact ⟨rfl, fun cu hcu => by cases hcu⟩
  · rw [h]
    exact ⟨rfl, fun cu hcu => by cases hcu⟩
  · rw [h]
    refine ⟨rfl, ?_⟩
    intro cu hcu
    cases hcu
    exact ⟨token, p, h1, h2, h3⟩

theorem sessionInvariant_startup (store : Store) : SessionInvariant (startup store) :=
  sessionInvariant_flush (sessionInvariant_restore store) _

theorem sessionInvariant_session (store : Store) (actions : List AuthAction) :
    SessionInvariant (session store actions) := by
  unfold session
  have h := sessionInvariant_startup store
  generalize startup store = st at h
  induction actions generalizing st with
  | nil => exact h
  | cons a as ih => exact ih _ (sessionInvariant_settle h a)

theorem startup_unauthenticated_token (store : Store)
    (h : (startup store).currentUser = none) :
    (startup store).store jwtKey = none ∨
      (store jwtKey = some [] ∧ (startup store).store jwtKey = some []) := by
  have hs : (startup store).store jwtKey = (restoreEffect (initialState store)).store jwtKey := by
    unfold startup
    exact flush_store_other _ _ jwtKey_not_data
  have hc : (startup store).currentUser = (restoreEffect (initialState store)).currentUser := by
    unfold startup
    exact (flush_currentUser _ _).1
  rw [hs]
  rw [hc] at h
  rcases restoreEffect_cases store with ⟨e, h0 | h0⟩ | e | ⟨token, p, username, h1, h2, h3, e⟩
  · left
    rw [e]
    exact h0
  · right
    rw [e]
    exact ⟨h0, h0⟩
  · left
    rw [e]
    simp [removeItem]
  · rw [e] at h
    cases h

/-- C28 (as stated, refuted). Startup over a store that holds the empty string
under the session key does not authenticate (`verifyToken` rejects the empty
string), and the value is still stored under the session key afterwards. -/
theorem session_key_kept_after_failed_restore :
    (verifyToken []).returned = .null ∧
      (session (setItem emptyStore jwtKey []) []).currentUser = none ∧
      (session (setItem emptyStore jwtKey []) []).isAuthenticated = false ∧
      (session (setItem emptyStore jwtKey []) []).store jwtKey = some [] ∧
      (session (setItem emptyStore jwtKey []) []).store jwtKey ≠ none := by
  refine ⟨rfl, rfl, rfl, by decide, by decide⟩

/-- C28 (amended). In every state reached from startup (with its restoration) by
calls of `signup`, `login` and `logout`, right after a call and after the renders
that follow it: `isAuthenticated` is `true` exactly when `currentUser` is not
`null`, and when `currentUser` is `u` the store holds a session token that
`verifyToken` accepts with a payload whose `username` is `u`. After `logout` the
session key is absent; after a startup that does not authenticate the session key
is absent, or holds the empty string that it held before (which the restoration
treats as no token). -/
theorem session_invariant (store : Store) (actions : List AuthAction) :
    SessionInvariant (session store actions) ∧
      (∀ a : AuthAction, SessionInvariant (a.apply (session store actions))) ∧
      (session store (actions ++ [.logout])).store jwtKey = none ∧
      ((startup store).currentUser = none →
        (startup store).store jwtKey = none ∨
          (store jwtKey = some [] ∧ (startup store).store jwtKey = some [])) := by
  refine ⟨sessionInvariant_session store actions,
    fun a => sessionInvariant_apply (sessionInvariant_session store actions) a, ?_,
    startup_unauthenticated_token store⟩
  unfold session
  rw [List.foldl_append]
  simp only [List.foldl_cons, List.foldl_nil, AuthAction.settle]
  rw [logoutAndSettle_eq]
  simp [logout, removeItem]

set_option maxRecDepth 8000 in
theorem session_invariant_witness :
    SessionInvariant
        (session (setItem emptyStore jwtKey tamperedToken)
          [.signup (js "alice") (js "pw1"), .logout, .login (js "alice") (js "pw1")]) ∧
      (session (setItem emptyStore jwtKey tamperedToken)
          [.signup (js "alice") (js "pw1"), .logout, .login (js "alice") (js "pw1")]).currentUser
        = some (.str (js "alice")) ∧
      (session (setItem emptyStore jwtKey tamperedToken)
          [.signup (js "alice") (js "pw1"), .logout, .login (js "alice") (js "pw1")]).store jwtKey
        = some aliceToken ∧
      (startup (setItem emptyStore jwtKey tamperedToken)).currentUser = none ∧
      ((startup (setItem emptyStore jwtKey tamperedToken)).store jwtKey = none ∨
        ((setItem emptyStore jwtKey tamperedToken) jwtKey = some [] ∧
          (startup (setItem emptyStore jwtKey tamperedToken)).store jwtKey = some [])) :=
  ⟨(session_invariant (setItem emptyStore jwtKey tamperedToken)
      [.signup (js "alice") (js "pw1"), .logout, .login (js "alice") (js "pw1")]).1,
    rfl, by decide, rfl,
    (session_invariant (setItem emptyStore jwtKey tamperedToken) []).2.2.2 rfl⟩

/-! ## Settings updates -/

theorem getOwn_handleSaveSettings (prev : List (JSString × JSON)) (p n c : JSON)
    (k : JSString) :
    getOwn k (handleSaveSettings prev p n c) =
      if k = js "currency" then some c
      else if k = js "name" then some n
      else if k = js "profilePictureUrl" then some p
      else getOwn k prev := by
  unfold handleSaveSettings
  rw [getOwn_setProp, getOwn_setProp, getOwn_setProp]

/-- C23. Saving the settings form sets `profilePictureUrl`, `name` and
`currency` to the form values and leaves every other field of the settings
object, `isDarkMode` among them, at its prior value (present with the same
value, or absent as before). Toggling the dark mode sets `isDarkMode` to the
negation of its prior value (of its truthiness, `true` when it was absent) and
leaves every other field at its prior value. -/
theorem settings_updates_merge (prev : List (JSString × JSON)) (p n c : JSON) :
    (getOwn (js "profilePictureUrl") (handleSaveSettings prev p n c) = some p ∧
        getOwn (js "name") (handleSaveSettings prev p n c) = some n ∧
        getOwn (js "currency") (handleSaveSettings prev p n c) = some c) ∧
      (∀ k, k ≠ js "profilePictureUrl" → k ≠ js "name" → k ≠ js "currency" →
        getOwn k (handleSaveSettings prev p n c) = getOwn k prev) ∧
      getOwn (js "isDarkMode") (handleSaveSettings prev p n c) = getOwn (js "isDarkMode") prev ∧
      getOwn (js "isDarkMode") (toggleDarkMode prev)
        = some (.bool (!(getProperty prev (js "isDarkMode")).truthy)) ∧
      (∀ b, getOwn (js "isDarkMode") prev = some (.bool b) →
        getOwn (js "isDarkMode") (toggleDarkMode prev) = some (.bool (!b))) ∧
      (∀ k, k ≠ js "isDarkMode" → getOwn k (toggleDarkMode prev) = getOwn k prev) := by
  have hk : ∀ k, k ≠ js "profilePictureUrl" → k ≠ js "name" → k ≠ js "currency" →
      getOwn k (handleSaveSettings prev p n c) = getOwn k prev := by
    intro k h1 h2 h3
    rw [getOwn_handleSaveSettings, if_neg h3, if_neg h2, if_neg h1]
  have ht : getOwn (js "isDarkMode") (toggleDarkMode prev)
      = some (.bool (!(getProperty prev (js "isDarkMode")).truthy)) := by
    unfold toggleDarkMode
    rw [getOwn_setProp, if_pos rfl]
  refine ⟨⟨?_, ?_, ?_⟩, hk, hk _ (by decide) (by decide) (by decide), ht, ?_, ?_⟩
  · rw [getOwn_handleSaveSettings, if_neg (by decide), if_neg (by decide), if_pos rfl]
  · rw [getOwn_handleSaveSettings, if_neg (by decide), if_pos rfl]
  · rw [getOwn_handleSaveSettings, if_pos rfl]
  · intro b hb
    rw [ht]
    simp [getProperty, hb, Property.truthy, JSON.truthy]
  · intro k hk'
    unfold toggleDarkMode
    rw [getOwn_setProp, if_neg hk']

theorem settings_updates_merge_witness :
    handleSaveSettings
        [(js "profilePictureUrl", .str []), (js "name", .str (js "alice")),
          (js "currency", .str (js "$")), (js "isDarkMode", .bool true)]
        (.str (js "pic")) (.str (js "Alice")) (.str (js "CAD"))
      = [(js "profilePictureUrl", .str (js "pic")), (js "name", .str (js "Alice")),
          (js "currency", .str (js "CAD")), (js "isDarkMode", .bool true)] ∧
      toggleDarkMode
        [(js "profilePictureUrl", .str []), (js "name", .str (js "alice")),
          (js "currency", .str (js "$")), (js "isDarkMode", .bool true)]
      = [(js "profilePictureUrl", .str []), (js "name", .str (js "alice")),
          (js "currency", .str (js "$")), (js "isDarkMode", .bool false)] ∧
      getOwn (js "isDarkMode")
        (toggleDarkMode
          [(js "profilePictureUrl", .str []), (js "name", .str (js "alice")),
            (js "currency", .str (js "$")), (js "isDarkMode", .bool true)])
        = some (.bool (!true)) ∧
      getOwn (js "name")
        (toggleDarkMode
          [(js "profilePictureUrl", .str []), (js "name", .str (js "alice")),
            (js "currency", .str (js "$")), (js "isDarkMode", .bool true)])
        = getOwn (js "name")
          [(js "profilePictureUrl", .str []), (js "name", .str (js "alice")),
            (js "currency", .str (js "$")), (js "isDarkMode", .bool true)] :=
  ⟨rfl, rfl,
    (settings_updates_merge _ (.str (js "pic")) (.str (js "Alice")) (.str (js "CAD"))).2.2.2.2.1
      true rfl,
    (settings_updates_merge _ (.str (js "pic")) (.str (js "Alice")) (.str (js "CAD"))).2.2.2.2.2
      (js "name") (by decide)⟩

/-! ## Write-through persistence -/

theorem commit_none (st : AppState) : commit Changed.none st = (st, Changed.none) := by
  simp [commit, Changed.none]

theorem authenticated_flush {st : AppState} {u : JSString} (h : Authenticated st u)
    (ch : Changed) : Authenticated (flush ch st) u := by
  obtain ⟨h1, h2, h3⟩ := h
  obtain ⟨c1, c2, c3⟩ := flush_currentUser ch st
  exact ⟨by rw [c1, h1], by rw [c2, h2], by rw [c3, h3]⟩

theorem setTransactionsAndSettle_eq {st : AppState} {u : JSString} (h : Authenticated st u)
    (hu : u ≠ []) (v : JSON) :
    setTransactionsAndSettle st v
      = { st with
          transactions := v
          store := setItem st.store (getUserDataKey u (js "transactions")) v.stringify } := by
  obtain ⟨store, t0, b0, s0, ia, cu, la⟩ := st
  obtain ⟨h1, h2, h3⟩ := h
  simp only [] at h1 h2 h3
  subst h1 h2 h3
  unfold setTransactionsAndSettle flush
  have e : commit { Changed.none with transactions := true }
      { store := store, transactions := v, budgets := b0, settings := s0, isAuthenticated := true,
        currentUser := some (.str u), loadingAuth := false }
      = ({ store := setItem store (getUserDataKey u (js "transactions")) v.stringify
           transactions := v, budgets := b0, settings := s0, isAuthenticated := true
           currentUser := some (.str u), loadingAuth := false }, Changed.none) := by
    simp [commit, Changed.none, saveEffect_user u hu]
  rw [e]
  simp only []
  rw [commit_none]

theorem setBudgetsAndSettle_eq {st : AppState} {u : JSString} (h : Authenticated st u)
    (hu : u ≠ []) (v : JSON) :
    setBudgetsAndSettle st v
      = { st with
          budgets := v
          store := setItem st.store (getUserDataKey u (js "budgets")) v.stringify } := by
  obtain ⟨store, t0, b0, s0, ia, cu, la⟩ := st
  obtain ⟨h1, h2, h3⟩ := h
  simp only [] at h1 h2 h3
  subst h1 h2 h3
  unfold setBudgetsAndSettle flush
  have e : commit { Changed.none with budgets := true }
      { store := store, transactions := t0, budgets := v, settings := s0, isAuthenticated := true,
        currentUser := some (.str u), loadingAuth := false }
      = ({ store := setItem store (getUserDataKey u (js "budgets")) v.stringify
           transactions := t0, budgets := v, settings := s0, isAuthenticated := true
           currentUser := some (.str u), loadingAuth := false }, Changed.none) := by
    simp [commit, Changed.none, saveEffect_user u hu]
  rw [e]
  simp only []
  rw [commit_none]

theorem setSettingsAndSettle_eq {st : AppState} {u : JSString} (h : Authenticated st u)
    (hu : u ≠ []) (v : JSON) :
    setSettingsAndSettle st v
      = { st with
          settings := v
          store := setItem st.store (getUserDataKey u (js "settings")) v.stringify } := by
  obtain ⟨store, t0, b0, s0, ia, cu, la⟩ := st
  obtain ⟨h1, h2, h3⟩ := h
  simp only [] at h1 h2 h3
  subst h1 h2 h3
  unfold setSettingsAndSettle flush
  have e : commit { Changed.none with settings := true }
      { store := store, transactions := t0, budgets := b0, settings := v, isAuthenticated := true,
        currentUser := some (.str u), loadingAuth := false }
      = ({ store := setItem store (getUserDataKey u (js "settings")) v.stringify
           transactions := t0, budgets := b0, settings := v, isAuthenticated := true
           currentUser := some (.str u), loadingAuth := false }, Changed.none) := by
    simp [commit, Changed.none, saveEffect_user u hu]
  rw [e]
  simp only []
  rw [commit_none]

/-- C24. While the state is `Authenticated(u)` after the startup check, after
every call of a setter with a new collection `v` (adding a transaction, the
budget upsert and the settings updates each end in one) and the renders that
follow, the collection in memory is `v`, the store holds `JSON.stringify(v)`
under the key of `u` and that collection, every other key is unchanged, the
state is still `Authenticated(u)`, and, for a value `v` that JSON can represent,
`JSON.parse` of the stored text is `v`. The username `u` is a non-empty string:
in no state that the application reaches is the current user the empty string
(`currentUser_nonempty`). -/
theorem write_through (st : AppState) (u : JSString) (v : JSON) (h : Authenticated st u)
    (hu : u ≠ []) :
    ((setTransactionsAndSettle st v).transactions = v ∧
        (setTransactionsAndSettle st v).store (getUserDataKey u (js "transactions"))
          = some v.stringify ∧
        (∀ k, k ≠ getUserDataKey u (js "transactions") →
          (setTransactionsAndSettle st v).store k = st.store k) ∧
        Authenticated (setTransactionsAndSettle st v) u) ∧
      ((setBudgetsAndSettle st v).budgets = v ∧
        (setBudgetsAndSettle st v).store (getUserDataKey u (js "budgets")) = some v.stringify ∧
        (∀ k, k ≠ getUserDataKey u (js "budgets") →
          (setBudgetsAndSettle st v).store k = st.store k) ∧
        Authenticated (setBudgetsAndSettle st v) u) ∧
      ((setSettingsAndSettle st v).settings = v ∧
        (setSettingsAndSettle st v).store (getUserDataKey u (js "settings")) = some v.stringify ∧
        (∀ k, k ≠ getUserDataKey u (js "settings") →
          (setSettingsAndSettle st v).store k = st.store k) ∧
        Authenticated (setSettingsAndSettle st v) u) ∧
      (∀ prev tx, st.transactions = .arr prev →
        (addTransaction st tx).transactions = .arr (tx :: prev) ∧
          (addTransaction st tx).store (getUserDataKey u (js "transactions"))
            = some (JSON.arr (tx :: prev)).stringify) ∧
      (v.WF → JSON.parse v.stringify = some v) := by
  refine ⟨⟨?_, ?_, ?_, authenticated_flush (show Authenticated { st with transactions := v } u from h) _⟩,
    ⟨?_, ?_, ?_, authenticated_flush (show Authenticated { st with budgets := v } u from h) _⟩,
    ⟨?_, ?_, ?_, authenticated_flush (show Authenticated { st with settings := v } u from h) _⟩, ?_,
    JSON.parse_stringify v⟩
  · rw [setTransactionsAndSettle_eq h hu]
  · rw [setTransactionsAndSettle_eq h hu]
    simp [setItem]
  · intro k hk
    rw [setTransactionsAndSettle_eq h hu]
    simp [setItem, hk]
  · rw [setBudgetsAndSettle_eq h hu]
  · rw [setBudgetsAndSettle_eq h hu]
    simp [setItem]
  · intro k hk
    rw [setBudgetsAndSettle_eq h hu]
    simp [setItem, hk]
  · rw [setSettingsAndSettle_eq h hu]
  · rw [setSettingsAndSettle_eq h hu]
    simp [setItem]
  · intro k hk
    rw [setSettingsAndSettle_eq h hu]
    simp [setItem, hk]
  · intro prev tx hp
    unfold addTransaction
    rw [hp]
    simp only []
    rw [setTransactionsAndSettle_eq h hu]
    exact ⟨rfl, by simp [setItem]⟩

/-! ## The form for a new transaction -/

theorem JSNumber.lt_nan_right (a : JSNumber) : JSNumber.lt a .nan = false := by
  cases a <;> rfl

theorem JSNumber.not_nan_of_lt {a b : JSNumber} (h : JSNumber.lt a b = true) :
    b.isNaN = false := by
  cases b with
  | nan => rw [JSNumber.lt_nan_right] at h; cases h
  | infinity n => rfl
  | finite n m => rfl

/-- The amount passes the check of line 312 exactly when it is not empty and
parses to a number greater than zero. -/
theorem amount_check_iff (parseFloat : JSString → JSNumber) (amount : JSString) :
    (amount.isEmpty || (parseFloat amount).isNaN
        || JSNumber.le (parseFloat amount) JSNumber.zero) = false ↔
      amount ≠ [] ∧ JSNumber.lt JSNumber.zero (parseFloat amount) = true := by
  have he : amount.isEmpty = false ↔ amount ≠ [] := by
    cases amount <;> simp
  constructor
  · intro h
    simp only [Bool.or_eq_false_iff] at h
    obtain ⟨⟨h1, h2⟩, h3⟩ := h
    refine ⟨he.mp h1, ?_⟩
    unfold JSNumber.le at h3
    rw [h2] at h3
    simpa [JSNumber.zero, JSNumber.isNaN] using h3
  · intro ⟨h1, h2⟩
    have hn := JSNumber.not_nan_of_lt h2
    simp only [Bool.or_eq_false_iff]
    refine ⟨⟨he.mpr h1, hn⟩, ?_⟩
    unfold JSNumber.le
    simp [h2]

theorem handleSubmit_of_accepted (parseFloat : JSString → JSNumber) (now : JSNumber)
    (timestamp : JSString) (form : TransactionForm) (prev : List Transaction)
    (h : form.Accepted parseFloat) :
    AddTransactionModal.handleSubmit parseFloat now timestamp form prev =
      { id := now, type := form.type, category := form.category
        amount := parseFloat form.amount, date := form.date
        description := form.description, timestamp := timestamp } :: prev := by
  obtain ⟨h1, h2, h3, h4⟩ := h
  have ha := (amount_check_iff parseFloat form.amount).mpr ⟨h1, h2⟩
  have hc : form.category.isEmpty = false := by
    cases hcat : form.category with
    | nil => exact absurd hcat h3
    | cons c cs => rfl
  have hd : form.date.isEmpty = false := by
    cases hdat : form.date with
    | nil => exact absurd hdat h4
    | cons c cs => rfl
  unfold AddTransactionModal.handleSubmit
  rw [ha, hc, hd]
  rfl

theorem handleSubmit_of_not_accepted (parseFloat : JSString → JSNumber) (now : JSNumber)
    (timestamp : JSString) (form : TransactionForm) (prev : List Transaction)
    (h : ¬ form.Accepted parseFloat) :
    AddTransactionModal.handleSubmit parseFloat now timestamp form prev = prev := by
  unfold AddTransactionModal.handleSubmit
  by_cases ha : (form.amount.isEmpty || (parseFloat form.amount).isNaN
      || JSNumber.le (parseFloat form.amount) JSNumber.zero) = true
  · rw [if_pos ha]
  · rw [if_neg ha]
    have ha' := (amount_check_iff parseFloat form.amount).mp (by simpa using ha)
    by_cases hc : form.category.isEmpty = true
    · rw [if_pos hc]
    · rw [if_neg hc]
      by_cases hd : form.date.isEmpty = true
      · rw [if_pos hd]
      · exfalso
        apply h
        refine ⟨ha'.1, ha'.2, ?_, ?_⟩
        · intro e
          rw [e] at hc
          exact hc rfl
        · intro e
          rw [e] at hd
          exact hd rfl

theorem type_after (today : JSString) (events : List FormEvent) :
    (TransactionForm.after today events).type = js "income" ∨
      (TransactionForm.after today events).type = js "expense" := by
  unfold TransactionForm.after
  have h0 : (TransactionForm.initial today).type = js "income" ∨
      (TransactionForm.initial today).type = js "expense" := Or.inr rfl
  generalize TransactionForm.initial today = form at h0
  induction events generalizing form with
  | nil => exact h0
  | cons e es ih =>
    apply ih
    cases e with
    | chooseIncome => exact Or.inl rfl
    | chooseExpense => exact Or.inr rfl
    | setCategory v => exact h0
    | setAmount v => exact h0
    | setDate v => exact h0
    | setDescription v => exact h0

/-- C22. For every transaction list and every form that passes the checks of
`handleSubmit`, the resulting list is the new record followed by the old list:
the new record is at index 0, the length grows by exactly one, and the record
that was at index `i` is at index `i + 1`. -/
theorem handleSubmit_prepends (parseFloat : JSString → JSNumber) (now : JSNumber)
    (timestamp : JSString) (form : TransactionForm) (prev : List Transaction)
    (h : form.Accepted parseFloat) :
    AddTransactionModal.handleSubmit parseFloat now timestamp form prev =
        { id := now, type := form.type, category := form.category
          amount := parseFloat form.amount, date := form.date
          description := form.description, timestamp := timestamp } :: prev ∧
      (AddTransactionModal.handleSubmit parseFloat now timestamp form prev)[0]? =
        some { id := now, type := form.type, category := form.category
               amount := parseFloat form.amount, date := form.date
               description := form.description, timestamp := timestamp } ∧
      (AddTransactionModal.handleSubmit parseFloat now timestamp form prev).length
        = prev.length + 1 ∧
      (AddTransactionModal.handleSubmit parseFloat now timestamp form prev).tail = prev ∧
      ∀ i, (AddTransactionModal.handleSubmit parseFloat now timestamp form prev)[i + 1]?
        = prev[i]? := by
  rw [handleSubmit_of_accepted parseFloat now timestamp form prev h]
  exact ⟨rfl, by simp, rfl, rfl, fun i => by simp⟩

/-- C27. Submitting the form, in any state that its controls can bring it to,
changes the transaction list exactly when the entered amount is not empty and
parses to a number greater than zero and the category and the date are not
empty. Then the list gains one record, whose type is `income` or `expense` and
whose amount is greater than zero; in every other case the list is unchanged. -/
theorem handleSubmit_validity (parseFloat : JSString → JSNumber) (now : JSNumber)
    (timestamp today : JSString) (events : List FormEvent) (prev : List Transaction) :
    ((TransactionForm.after today events).Accepted parseFloat →
        ∃ record,
          AddTransactionModal.handleSubmit parseFloat now timestamp
            (TransactionForm.after today events) prev = record :: prev ∧
          (record.type = js "income" ∨ record.type = js "expense") ∧
          JSNumber.lt JSNumber.zero record.amount = true ∧
          record.amount = parseFloat (TransactionForm.after today events).amount ∧
          record.category ≠ [] ∧ record.date ≠ []) ∧
      (¬ (TransactionForm.after today events).Accepted parseFloat →
        AddTransactionModal.handleSubmit parseFloat now timestamp
          (TransactionForm.after today events) prev = prev) ∧
      (AddTransactionModal.handleSubmit parseFloat now timestamp
          (TransactionForm.after today events) prev ≠ prev ↔
        (TransactionForm.after today events).Accepted parseFloat) := by
  refine ⟨?_, handleSubmit_of_not_accepted parseFloat now timestamp _ prev, ?_⟩
  · intro h
    refine ⟨_, handleSubmit_of_accepted parseFloat now timestamp _ prev h,
      type_after today events, h.2.1, rfl, h.2.2.1, h.2.2.2⟩
  · constructor
    · intro hne
      by_contra hna
      exact hne (handleSubmit_of_not_accepted parseFloat now timestamp _ prev hna)
    · intro h
      rw [handleSubmit_of_accepted parseFloat now timestamp _ prev h]
      intro e
      have := congrArg List.length e
      simp at this

theorem foodForm_accepted : foodForm.Accepted parseFloatSample := by
  refine ⟨by decide, ?_, by decide, by decide⟩
  show JSNumber.lt JSNumber.zero (parseFloatSample (js "12.50")) = true
  simp [JSNumber.lt, JSNumber.zero, signed, parseFloatSample]

theorem handleSubmit_prepends_witness :
    foodForm.Accepted parseFloatSample ∧
      AddTransactionModal.handleSubmit parseFloatSample (.finite false 1704450000000)
          (js "2024-01-05T10:20:00.000Z") foodForm []
        = [{ id := .finite false 1704450000000, type := js "expense", category := js "Food"
             amount := parseFloatSample (js "12.50"), date := js "2024-01-05"
             description := [], timestamp := js "2024-01-05T10:20:00.000Z" }] ∧
      (AddTransactionModal.handleSubmit parseFloatSample (.finite false 1704450000000)
          (js "2024-01-05T10:20:00.000Z") foodForm []).length = 1 :=
  ⟨foodForm_accepted,
    (handleSubmit_prepends parseFloatSample (.finite false 1704450000000)
      (js "2024-01-05T10:20:00.000Z") foodForm [] foodForm_accepted).1,
    (handleSubmit_prepends parseFloatSample (.finite false 1704450000000)
      (js "2024-01-05T10:20:00.000Z") foodForm [] foodForm_accepted).2.2.1⟩

theorem zero_amount_rejected :
    ¬ (TransactionForm.after (js "2024-01-05")
        [.setCategory (js "Food"), .setAmount (js "0")]).Accepted parseFloatSample := by
  intro h
  have h2 : JSNumber.lt JSNumber.zero (parseFloatSample (js "0")) = true := h.2.1
  have e : parseFloatSample (js "0") = .finite false 0 := by
    unfold parseFloatSample
    rw [if_neg (by decide), if_pos rfl]
  rw [e] at h2
  simp [JSNumber.lt, JSNumber.zero, signed] at h2

theorem handleSubmit_validity_witness :
    (∃ record,
        AddTransactionModal.handleSubmit parseFloatSample (.finite false 1704450000000)
          (js "2024-01-05T10:20:00.000Z")
          (TransactionForm.after (js "2024-01-05")
            [.setCategory (js "Food"), .setAmount (js "12.50")]) [] = record :: [] ∧
        (record.type = js "income" ∨ record.type = js "expense") ∧
        JSNumber.lt JSNumber.zero record.amount = true ∧
        record.amount = parseFloatSample
          (TransactionForm.after (js "2024-01-05")
            [.setCategory (js "Food"), .setAmount (js "12.50")]).amount ∧
        record.category ≠ [] ∧ record.date ≠ []) ∧
      AddTransactionModal.handleSubmit parseFloatSample (.finite false 1704450000000)
        (js "2024-01-05T10:20:00.000Z")
        (TransactionForm.after (js "2024-01-05")
          [.setCategory (js "Food"), .setAmount (js "0")]) [] = [] :=
  ⟨(handleSubmit_validity parseFloatSample (.finite false 1704450000000)
      (js "2024-01-05T10:20:00.000Z") (js "2024-01-05")
      [.setCategory (js "Food"), .setAmount (js "12.50")] []).1 foodForm_accepted,
    (handleSubmit_validity parseFloatSample (.finite false 1704450000000)
      (js "2024-01-05T10:20:00.000Z") (js "2024-01-05")
      [.setCategory (js "Food"), .setAmount (js "0")] []).2.1 zero_amount_rejected⟩

set_option maxRecDepth 8000 in
theorem write_through_witness :
    Authenticated (signupAndSettle (startup emptyStore) (js "alice") (js "pw1")).state
        (js "alice") ∧
      js "alice" ≠ [] ∧
      (setTransactionsAndSettle (signupAndSettle (startup emptyStore) (js "alice") (js "pw1")).state
          (.arr [foodExpense])).store (getUserDataKey (js "alice") (js "transactions"))
        = some (JSON.arr [foodExpense]).stringify ∧
      JSON.parse (JSON.arr [foodExpense]).stringify = some (.arr [foodExpense]) :=
  ⟨⟨rfl, rfl, rfl⟩, by decide,
    (write_through (signupAndSettle (startup emptyStore) (js "alice") (js "pw1")).state
      (js "alice") (.arr [foodExpense]) ⟨rfl, rfl, rfl⟩ (by decide)).1.2.1,
    rfl⟩

/-! ## The budget arithmetic of the dashboard -/

/-- A number that is greater than or equal to zero (`0 <= x`). -/
theorem JSNumber.zero_le_iff (x : JSNumber) :
    JSNumber.le JSNumber.zero x = true ↔
      x = .infinity false ∨ ∃ n m, x = .finite n m ∧ (n = false ∨ m = 0) := by
  cases x with
  | nan => simp [JSNumber.le, JSNumber.isNaN]
  | infinity n => cases n <;> simp [JSNumber.le, JSNumber.isNaN, JSNumber.lt, JSNumber.zero]
  | finite n m =>
    cases n with
    | false => simp [JSNumber.le, JSNumber.isNaN, JSNumber.lt, JSNumber.zero, signed]
    | true => simp [JSNumber.le, JSNumber.isNaN, JSNumber.lt, JSNumber.zero, signed]

/-- A number that is greater than zero (`0 < x`). -/
theorem JSNumber.zero_lt_iff (x : JSNumber) :
    JSNumber.lt JSNumber.zero x = true ↔
      x = .infinity false ∨ ∃ m, x = .finite false m ∧ 0 < m := by
  cases x with
  | nan => simp [JSNumber.lt, JSNumber.zero]
  | infinity n => cases n <;> simp [JSNumber.lt, JSNumber.zero]
  | finite n m =>
    cases n with
    | false => simp [JSNumber.lt, JSNumber.zero, signed]
    | true =>
      simp [JSNumber.lt, JSNumber.zero, signed]

theorem JSNumber.zero_le_ofExact (round : NNRat → Option NNRat) (n : Bool) (m : NNRat)
    (h : n = false ∨ m = 0) : JSNumber.le JSNumber.zero (JSNumber.ofExact round n m) = true := by
  rw [JSNumber.zero_le_iff]
  unfold JSNumber.ofExact
  by_cases hm : m = 0
  · rw [if_pos hm]
    exact Or.inr ⟨n, 0, rfl, Or.inr rfl⟩
  · rw [if_neg hm]
    have hn : n = false := h.resolve_right hm
    subst hn
    cases round m with
    | none => exact Or.inl rfl
    | some r => exact Or.inr ⟨false, r, rfl, Or.inl rfl⟩

theorem JSNumber.zero_le_div (round : NNRat → Option NNRat) {s b : JSNumber}
    (hs : JSNumber.le JSNumber.zero s = true) (hb : JSNumber.lt JSNumber.zero b = true)
    (hfin : ¬ (b = .infinity false ∧ s = .infinity false)) :
    JSNumber.le JSNumber.zero (JSNumber.div round s b) = true := by
  rcases (JSNumber.zero_lt_iff b).mp hb with rfl | ⟨mb, rfl, hmb⟩
  · rcases (JSNumber.zero_le_iff s).mp hs with rfl | ⟨ns, ms, rfl, _⟩
    · exact absurd ⟨rfl, rfl⟩ hfin
    · rw [JSNumber.zero_le_iff]
      exact Or.inr ⟨xor ns false, 0, rfl, Or.inr rfl⟩
  · rcases (JSNumber.zero_le_iff s).mp hs with rfl | ⟨ns, ms, rfl, h⟩
    · rw [JSNumber.zero_le_iff]
      exact Or.inl rfl
    · have hne : mb ≠ 0 := ne_of_gt hmb
      simp only [JSNumber.div, if_neg hne]
      apply JSNumber.zero_le_ofExact
      rcases h with h | h
      · left
        rw [h]
        rfl
      · right
        rw [h]
        simp

theorem JSNumber.zero_le_mul_hundred (round : NNRat → Option NNRat) {a : JSNumber}
    (ha : JSNumber.le JSNumber.zero a = true) :
    JSNumber.le JSNumber.zero (JSNumber.mul round a JSNumber.hundred) = true := by
  have h100 : (100 : NNRat) ≠ 0 := by simp
  rcases (JSNumber.zero_le_iff a).mp ha with rfl | ⟨n, m, rfl, h⟩
  · simp only [JSNumber.mul, JSNumber.hundred, if_neg h100]
    rw [JSNumber.zero_le_iff]
    exact Or.inl rfl
  · simp only [JSNumber.mul, JSNumber.hundred]
    apply JSNumber.zero_le_ofExact
    rcases h with h | h
    · left
      rw [h]
      rfl
    · right
      rw [h]
      simp

theorem JSNumber.lt_asymm {a b : JSNumber} (h : JSNumber.lt a b = true) :
    JSNumber.lt b a = false := by
  cases a with
  | nan => simp [JSNumber.lt] at h
  | infinity n1 =>
    cases b with
    | nan => simp [JSNumber.lt] at h
    | infinity n2 => cases n1 <;> cases n2 <;> simp [JSNumber.lt] at h ⊢
    | finite n2 m2 => cases n1 <;> simp [JSNumber.lt] at h ⊢
  | finite n1 m1 =>
    cases b with
    | nan => simp [JSNumber.lt] at h
    | infinity n2 => cases n2 <;> simp [JSNumber.lt] at h ⊢
    | finite n2 m2 =>
      simp only [JSNumber.lt, decide_eq_true_eq, decide_eq_false_iff_not, not_lt] at h ⊢
      exact le_of_lt h

theorem JSNumber.min_hundred_bounds {a : JSNumber} (ha : JSNumber.le JSNumber.zero a = true) :
    JSNumber.le JSNumber.zero (JSNumber.min a JSNumber.hundred) = true ∧
      JSNumber.le (JSNumber.min a JSNumber.hundred) JSNumber.hundred = true := by
  have hz : JSNumber.le JSNumber.zero JSNumber.hundred = true := by
    rw [JSNumber.zero_le_iff]
    exact Or.inr ⟨false, 100, rfl, Or.inl rfl⟩
  have hh : JSNumber.le JSNumber.hundred JSNumber.hundred = true := by
    simp [JSNumber.le, JSNumber.isNaN, JSNumber.lt, JSNumber.hundred]
  have hnan : a.isNaN = false := by
    cases a with
    | nan => simp [JSNumber.le, JSNumber.isNaN] at ha
    | infinity n => rfl
    | finite n m => rfl
  have hnan100 : JSNumber.hundred.isNaN = false := rfl
  unfold JSNumber.min
  rw [hnan, hnan100]
  simp only [Bool.or_self, Bool.false_eq_true, if_false]
  by_cases h1 : JSNumber.lt a JSNumber.hundred = true
  · rw [if_pos h1]
    refine ⟨ha, ?_⟩
    unfold JSNumber.le
    rw [hnan, hnan100, JSNumber.lt_asymm h1]
    rfl
  · rw [if_neg h1]
    by_cases h2 : JSNumber.lt JSNumber.hundred a = true
    · rw [if_pos h2]
      exact ⟨hz, hh⟩
    · rw [if_neg h2]
      by_cases h3 : a = .finite true 0
      · exfalso
        apply h1
        rw [h3]
        simp [JSNumber.lt, JSNumber.hundred, signed]
      · rw [if_neg h3]
        exact ⟨hz, hh⟩

theorem zero_le_budgetProgress (round : NNRat → Option NNRat) {b s : JSNumber}
    (hs : JSNumber.le JSNumber.zero s = true)
    (hfin : ¬ (b = .infinity false ∧ s = .infinity false)) :
    JSNumber.le JSNumber.zero (budgetProgress round b s) = true := by
  unfold budgetProgress
  by_cases hb : JSNumber.lt JSNumber.zero b = true
  · rw [if_pos hb]
    exact JSNumber.zero_le_mul_hundred round (JSNumber.zero_le_div round hs hb hfin)
  · rw [if_neg hb]
    rw [JSNumber.zero_le_iff]
    exact Or.inr ⟨false, 0, rfl, Or.inl rfl⟩

/-- C30 (as stated, refuted). With the budget and the spending both `Infinity`
(each is `>= 0`), the remaining budget, the progress and the width of the
progress bar are `NaN`, which is not between 0 and 100. -/
theorem progressBarWidth_nan_at_infinity :
    JSNumber.le JSNumber.zero (.infinity false) = true ∧
      remainingBudget exactRound (.infinity false) (.infinity false) = .nan ∧
      budgetProgress exactRound (.infinity false) (.infinity false) = .nan ∧
      progressBarWidth exactRound (.infinity false) (.infinity false) = .nan ∧
      JSNumber.le JSNumber.zero (progressBarWidth exactRound (.infinity false) (.infinity false))
        = false ∧
      JSNumber.le (progressBarWidth exactRound (.infinity false) (.infinity false))
        JSNumber.hundred = false := by
  refine ⟨rfl, rfl, rfl, rfl, rfl, rfl⟩

theorem remainingBudget_exact (mb ms : NNRat) :
    ∃ n m, remainingBudget exactRound (.finite false mb) (.finite false ms) = .finite n m ∧
      signed n m = (mb : ℚ) - (ms : ℚ) := by
  simp only [remainingBudget, JSNumber.sub, JSNumber.neg, JSNumber.add, Bool.not_false]
  rw [if_neg (by decide)]
  by_cases h1 : ms < mb
  · rw [if_pos h1]
    refine ⟨false, mb - ms, ?_, ?_⟩
    · unfold JSNumber.ofExact exactRound
      split_ifs with h0
      · rw [h0]
      · rfl
    · simp [signed, NNRat.coe_sub (le_of_lt h1)]
  · rw [if_neg h1]
    by_cases h2 : mb < ms
    · rw [if_pos h2]
      refine ⟨true, ms - mb, ?_, ?_⟩
      · unfold JSNumber.ofExact exactRound
        split_ifs with h0
        · rw [h0]
        · rfl
      · simp [signed, NNRat.coe_sub (le_of_lt h2)]
    · rw [if_neg h2]
      have e : mb = ms := le_antisymm (not_lt.mp h1) (not_lt.mp h2)
      exact ⟨false, 0, rfl, by simp [signed, e]⟩

theorem budgetProgress_exact (mb ms : NNRat) (h : 0 < mb) :
    budgetProgress exactRound (.finite false mb) (.finite false ms)
      = .finite false (ms / mb * 100) := by
  have hb : JSNumber.lt JSNumber.zero (.finite false mb) = true :=
    (JSNumber.zero_lt_iff _).mpr (Or.inr ⟨mb, rfl, h⟩)
  have hne : mb ≠ 0 := ne_of_gt h
  unfold budgetProgress
  rw [if_pos hb]
  simp only [JSNumber.div, if_neg hne, JSNumber.hundred, Bool.xor_false]
  unfold JSNumber.ofExact exactRound
  by_cases h0 : ms / mb = 0
  · rw [if_pos h0]
    simp [JSNumber.mul, JSNumber.ofExact, h0]
  · rw [if_neg h0]
    simp only [JSNumber.mul, Bool.xor_false, JSNumber.ofExact]
    split_ifs with h1
    · rw [h1]
    · rfl

/-- C30 (amended). For every budget `b` (`b >= 0` in particular) and spending
`s >= 0` that are not both `Infinity`, and for every rounding of the arithmetic:
the progress is `0` when `b` is zero (no division takes place) and
`(s / b) * 100` when `b > 0`, and
the width `Math.min(progress, 100)` lies between 0 and 100; the remaining budget
is `b - s`, which in exact arithmetic on finite amounts is the difference of the
two values, where the progress is `s / b * 100`. -/
theorem budget_arithmetic_guarded (round : NNRat → Option NNRat) (b s : JSNumber)
    (hs : JSNumber.le JSNumber.zero s = true)
    (hfin : ¬ (b = .infinity false ∧ s = .infinity false)) :
    remainingBudget round b s = JSNumber.sub round b s ∧
      (∀ n, b = .finite n 0 → budgetProgress round b s = JSNumber.zero) ∧
      (JSNumber.lt JSNumber.zero b = true →
        budgetProgress round b s
          = JSNumber.mul round (JSNumber.div round s b) JSNumber.hundred) ∧
      JSNumber.le JSNumber.zero (progressBarWidth round b s) = true ∧
      JSNumber.le (progressBarWidth round b s) JSNumber.hundred = true ∧
      (∀ mb ms : NNRat, ∃ n m,
        remainingBudget exactRound (.finite false mb) (.finite false ms) = .finite n m ∧
          signed n m = (mb : ℚ) - (ms : ℚ)) ∧
      (∀ mb ms : NNRat, 0 < mb →
        budgetProgress exactRound (.finite false mb) (.finite false ms)
          = .finite false (ms / mb * 100)) := by
  refine ⟨rfl, ?_, ?_, ?_, ?_, remainingBudget_exact, budgetProgress_exact⟩
  · intro n hn
    have h0 : JSNumber.lt JSNumber.zero b = false := by
      rw [hn]
      cases n <;> simp [JSNumber.lt, JSNumber.zero, signed]
    unfold budgetProgress
    rw [h0]
    rfl
  · intro h
    unfold budgetProgress
    rw [if_pos h]
  · exact (JSNumber.min_hundred_bounds (zero_le_budgetProgress round hs hfin)).1
  · exact (JSNumber.min_hundred_bounds (zero_le_budgetProgress round hs hfin)).2

theorem budget_arithmetic_guarded_witness :
    JSNumber.le JSNumber.zero (.finite false 200) = true ∧
      JSNumber.le JSNumber.zero (.finite false 50) = true ∧
      budgetProgress exactRound (.finite false 200) (.finite false 50) = .finite false 25 ∧
      progressBarWidth exactRound (.finite false 200) (.finite false 50) = .finite false 25 ∧
      progressBarWidth exactRound (.finite false 50) (.finite false 200) = .finite false 100 ∧
      JSNumber.le JSNumber.zero (progressBarWidth exactRound (.finite false 200) (.finite false 50))
        = true ∧
      JSNumber.le (progressBarWidth exactRound (.finite false 200) (.finite false 50))
        JSNumber.hundred = true := by
  have hb : JSNumber.le JSNumber.zero (.finite false 200) = true := by
    simp [JSNumber.le, JSNumber.isNaN, JSNumber.lt, JSNumber.zero, signed]
  have hs : JSNumber.le JSNumber.zero (.finite false 50) = true := by
    simp [JSNumber.le, JSNumber.isNaN, JSNumber.lt, JSNumber.zero, signed]
  have hfin : ¬ ((JSNumber.finite false 200) = .infinity false ∧
      (JSNumber.finite false 50) = .infinity false) := by
    intro h
    cases h.1
  have h := budget_arithmetic_guarded exactRound (.finite false 200) (.finite false 50) hs hfin
  have p1 : budgetProgress exactRound (.finite false 200) (.finite false 50) = .finite false 25 := by
    rw [h.2.2.2.2.2.2 200 50 (by simp)]
    congr 1
    rw [← NNRat.coe_inj]
    push_cast
    norm_num
  have p2 : budgetProgress exactRound (.finite false 50) (.finite false 200)
      = .finite false 400 := by
    rw [h.2.2.2.2.2.2 50 200 (by simp)]
    congr 1
    rw [← NNRat.coe_inj]
    push_cast
    norm_num
  refine ⟨hb, hs, p1, ?_, ?_, h.2.2.2.1, h.2.2.2.2.1⟩
  · unfold progressBarWidth
    rw [p1]
    simp [JSNumber.min, JSNumber.isNaN, JSNumber.lt, JSNumber.hundred, signed]
    norm_num
  · unfold progressBarWidth
    rw [p2]
    simp [JSNumber.min, JSNumber.isNaN, JSNumber.lt, JSNumber.hundred, signed]
    norm_num

/-! ## The current user is never the empty string -/

theorem restoreEffect_currentUser_truthy (store : Store) (cu : JSON)
    (h : (restoreEffect (initialState store)).currentUser = some cu) : cu.truthy = true := by
  unfold restoreEffect at h
  split at h
  · cases h
  · cases h
  · split at h
    · cases h
    · split_ifs at h with hc
      · simp only [Option.some.injEq] at h
        subst h
        simp only [Bool.and_eq_true] at hc
        exact hc.2
      · cases h

theorem truthy_of_nonempty {u : JSString} (hu : u ≠ []) : (JSON.str u).truthy = true := by
  cases u with
  | nil => exact absurd rfl hu
  | cons c cs => rfl

theorem loginAndSettle_currentUser (st : AppState) (username password : JSString) :
    (loginAndSettle st username password).state.currentUser = st.currentUser ∨
      (loginAndSettle st username password).state.currentUser = some (.str username) := by
  unfold loginAndSettle
  split
  · rename_i hcmp
    obtain ⟨token, _, hst⟩ := login_returned_true hcmp
    right
    simp only []
    rw [(flush_currentUser _ _).1, hst]
  · rcases login_cases st username password with e | e | ⟨token, _, e⟩
    · left
      rw [e]
    · left
      rw [e]
    · right
      rw [e]

theorem signupAndSettle_currentUser (st : AppState) (username password : JSString) :
    (signupAndSettle st username password).state.currentUser = st.currentUser ∨
      (signupAndSettle st username password).state.currentUser = some (.str username) := by
  unfold signupAndSettle
  split
  · rename_i hcmp
    obtain ⟨text, token, _, hst⟩ := signup_state_of_true hcmp
    right
    simp only []
    rw [(flush_currentUser _ _).1, hst]
  · rcases signup_cases st username password with e | e | ⟨text, e⟩ | ⟨text, token, _, e⟩
    · left
      rw [e]
    · left
      rw [e]
    · left
      rw [e]
    · right
      rw [e]

theorem currentUser_truthy_apply {st : AppState}
    (h : ∀ cu, st.currentUser = some cu → cu.truthy = true) (e : AppEvent) :
    ∀ cu, (e.apply st).currentUser = some cu → cu.truthy = true := by
  intro cu hcu
  cases e with
  | submitAuth isLogin u p =>
    simp only [AppEvent.apply, handleAuth] at hcu
    by_cases he : (u.isEmpty || p.isEmpty) = true
    · rw [if_pos he] at hcu
      exact h cu hcu
    · rw [if_neg he] at hcu
      have hu : u ≠ [] := by
        intro e0
        apply he
        rw [e0]
        rfl
      cases isLogin with
      | true =>
        simp only [if_true] at hcu
        rcases loginAndSettle_currentUser st u p with e1 | e1
        · rw [e1] at hcu
          exact h cu hcu
        · rw [e1] at hcu
          cases hcu
          exact truthy_of_nonempty hu
      | false =>
        simp only [Bool.false_eq_true, if_false] at hcu
        rcases signupAndSettle_currentUser st u p with e1 | e1
        · rw [e1] at hcu
          exact h cu hcu
        · rw [e1] at hcu
          cases hcu
          exact truthy_of_nonempty hu
  | logout =>
    simp only [AppEvent.apply] at hcu
    rw [logoutAndSettle_eq] at hcu
    cases hcu
  | setTransactions v =>
    simp only [AppEvent.apply, setTransactionsAndSettle] at hcu
    rw [(flush_currentUser _ _).1] at hcu
    exact h cu hcu
  | setBudgets v =>
    simp only [AppEvent.apply, setBudgetsAndSettle] at hcu
    rw [(flush_currentUser _ _).1] at hcu
    exact h cu hcu
  | setSettings v =>
    simp only [AppEvent.apply, setSettingsAndSettle] at hcu
    rw [(flush_currentUser _ _).1] at hcu
    exact h cu hcu

/-- In every state that the application reaches from its first render, by
submissions of the authentication form, logouts and setter calls, the current
user is `null` or a truthy value. -/
theorem currentUser_truthy (store : Store) (events : List AppEvent) :
    ∀ cu, (appRun store events).currentUser = some cu → cu.truthy = true := by
  unfold appRun
  have h0 : ∀ cu, (startup store).currentUser = some cu → cu.truthy = true := by
    intro cu hcu
    unfold startup at hcu
    rw [(flush_currentUser _ _).1] at hcu
    exact restoreEffect_currentUser_truthy store cu hcu
  generalize startup store = st at h0
  induction events generalizing st with
  | nil => exact h0
  | cons e es ih => exact ih _ (currentUser_truthy_apply h0 e)

/-- In every state that the application reaches, a current user that is a string
is not the empty string. -/
theorem currentUser_nonempty (store : Store) (events : List AppEvent) (u : JSString)
    (h : (appRun store events).currentUser = some (.str u)) : u ≠ [] := by
  intro e
  subst e
  have := currentUser_truthy store events _ h
  cases this

end FinancialTracker
